import Mathlib

/-!
Shallow embedding of the a-star-wallpaper core (road-graph construction and
contraction, step-wise A* search, endpoint sampling, guardrail state machine)
together with proofs checking the natural-language specification against it.

Modelling conventions:
* JavaScript numbers are modelled as exact rationals (`Rat`); none of the
  checked properties depends on floating-point rounding.
* JavaScript `Map`s are modelled as insertion-ordered association lists
  (`get` is the first matching key, `set` replaces in place or appends).
* JavaScript `Set`s are modelled as insertion-ordered duplicate-free lists.
* `haversineMeters` uses floating-point trigonometry; the functions that
  merely thread its result through (`buildRoadGraph`) take the distance
  function as an explicit parameter instead.
-/

-- Batteries marks the `Rat` field operations `@[irreducible]`, which stops
-- `decide`/`rfl` from evaluating concrete rational arithmetic; restore the
-- definitional behavior so concrete runs of the embedded functions reduce.
set_option allowUnsafeReducibility true

attribute [local semireducible] Rat.add Rat.mul Rat.sub Rat.inv

/-- Floor of a rational, computed on the normalized numerator/denominator
(floor division; the denominator is positive). -/
def ratFloor (x : Rat) : Int :=
  x.num.fdiv (Int.ofNat x.den)

/-- JS `Math.round`: round half toward positive infinity, i.e.
`⌊x + 1/2⌋`. -/
def jsRound (x : Rat) : Int :=
  ratFloor (x + 1/2)

/-- JS `Map.get`: first entry with the given key (keys are unique by
construction, so "first" is "the"). -/
def alGet {K V : Type} [DecidableEq K] (m : List (K × V)) (k : K) : Option V :=
  (m.find? (fun p => p.1 = k)).map (fun p => p.2)

/-- JS `Map.set`: replace the entry in place when the key is present,
otherwise append at the end (insertion order). -/
def alSet {K V : Type} [DecidableEq K] (m : List (K × V)) (k : K) (v : V) :
    List (K × V) :=
  match m with
  | [] => [(k, v)]
  | (k0, v0) :: rest =>
    if k0 = k then (k, v) :: rest else (k0, v0) :: alSet rest k v

/-- JS `Set.add`: append when absent, keep insertion order. -/
def setAdd {K : Type} [DecidableEq K] (s : List K) (x : K) : List K :=
  if x ∈ s then s else s ++ [x]

-- ------------------------------------------------------------------
-- src/guardrails.js
-- ------------------------------------------------------------------

/-- The `event` argument of `updateGuardrails`; any string other than the
three recognised ones leaves the counters untouched (`other`). -/
inductive GuardEvent
  | success
  | failure
  | resample
  | other
deriving DecidableEq, Repr

/-- The caller-supplied `state` object: each counter field may be absent
(`null`/`undefined`), read back with `?? 0`. -/
structure GuardInput where
  consecutiveFailures : Option Nat
  consecutiveResamples : Option Nat
  relaxCyclesRemaining : Option Nat
deriving DecidableEq, Repr

/-- The `limits` argument (`relaxedMinStartEndMeters` is never read by
`updateGuardrails` and is omitted). -/
structure GuardLimits where
  maxConsecutiveFailures : Nat
  maxConsecutiveResamples : Nat
  relaxCycles : Nat
deriving DecidableEq, Repr

/-- The freshly constructed `next` state returned by `updateGuardrails`. -/
structure GuardStateOut where
  consecutiveFailures : Nat
  consecutiveResamples : Nat
  relaxCyclesRemaining : Nat
deriving DecidableEq, Repr

/-- `updateGuardrails(state, event, limits)` from src/guardrails.js.
Returns `(next, triggered)`. The whole `state` argument may be
null/undefined (`state?.field ?? 0`). -/
def updateGuardrails (state : Option GuardInput) (event : GuardEvent)
    (limits : GuardLimits) : GuardStateOut × Bool :=
  let next0 : GuardStateOut :=
    { consecutiveFailures := (state.bind (fun s => s.consecutiveFailures)).getD 0
      consecutiveResamples := (state.bind (fun s => s.consecutiveResamples)).getD 0
      relaxCyclesRemaining := (state.bind (fun s => s.relaxCyclesRemaining)).getD 0 }
  let next1 : GuardStateOut :=
    match event with
    | GuardEvent.success =>
      { next0 with consecutiveFailures := 0, consecutiveResamples := 0 }
    | GuardEvent.failure =>
      { next0 with consecutiveFailures := next0.consecutiveFailures + 1 }
    | GuardEvent.resample =>
      { next0 with consecutiveResamples := next0.consecutiveResamples + 1 }
    | GuardEvent.other => next0
  if next1.consecutiveFailures ≥ limits.maxConsecutiveFailures ∨
      next1.consecutiveResamples ≥ limits.maxConsecutiveResamples then
    ({ consecutiveFailures := 0
       consecutiveResamples := 0
       relaxCyclesRemaining := max next1.relaxCyclesRemaining limits.relaxCycles },
     true)
  else
    (next1, false)

/-- `updateGuardrails` with the JS object store made explicit: the source
contains no assignment to `state` or its fields (only reads), so the
translated store-passing form returns the `state` binding unchanged next to
the function's result. -/
def updateGuardrailsStore (state : Option GuardInput) (event : GuardEvent)
    (limits : GuardLimits) : Option GuardInput × GuardStateOut × Bool :=
  (state, updateGuardrails state event limits)

-- ------------------------------------------------------------------
-- src/endpoint-sampling.js
-- ------------------------------------------------------------------

/-- The record returned by `sampleEndpointPair`; `startKey`/`goalKey` are
`null` and `distanceMeters` is `-Infinity` in the initial best, modelled by
`none`. -/
structure SampleOutcome (K : Type) where
  startKey : Option K
  goalKey : Option K
  distanceMeters : Option Rat
  minDistanceMet : Bool
  tries : Nat
deriving DecidableEq, Repr

/-- `d > best.distanceMeters` where the initial `distanceMeters` is
`-Infinity` (`none`): any finite distance beats the initial sentinel. -/
def beatsBest (d : Rat) (best : Option Rat) : Bool :=
  match best with
  | none => true
  | some b => d > b

/-- The loop body of `sampleEndpointPair`: `t` is the 0-based loop counter,
`keys i` is the value of the `i`-th call to `randomKey(rng)` (two calls per
iteration: start then goal). -/
def sampleLoop {K P : Type} (keys : Nat → K) (toLatLon : K → P)
    (distanceFn : P → P → Rat) (minMeters : Rat) (maxTries : Nat)
    (t : Nat) (best : SampleOutcome K) (fuel : Nat) : SampleOutcome K :=
  match fuel with
  | 0 => best
  | fuel + 1 =>
    if t ≥ maxTries then best
    else
      let startKey := keys (2 * t)
      let goalKey := keys (2 * t + 1)
      let d := distanceFn (toLatLon startKey) (toLatLon goalKey)
      let best' :=
        if beatsBest d best.distanceMeters then
          { startKey := some startKey
            goalKey := some goalKey
            distanceMeters := some d
            minDistanceMet := decide (d ≥ minMeters)
            tries := t + 1 }
        else best
      if d ≥ minMeters then
        { startKey := some startKey
          goalKey := some goalKey
          distanceMeters := some d
          minDistanceMet := true
          tries := t + 1 }
      else
        sampleLoop keys toLatLon distanceFn minMeters maxTries (t + 1) best' fuel

/-- `sampleEndpointPair` from src/endpoint-sampling.js, with the rng-driven
`randomKey` generator modelled as the stream `keys` of its successive return
values. -/
def sampleEndpointPair {K P : Type} (keys : Nat → K) (toLatLon : K → P)
    (distanceFn : P → P → Rat) (minMeters : Rat) (maxTries : Nat) :
    SampleOutcome K :=
  sampleLoop keys toLatLon distanceFn minMeters maxTries 0
    { startKey := none
      goalKey := none
      distanceMeters := none
      minDistanceMet := false
      tries := 0 }
    maxTries

/-- Distance of the `i`-th draw (0-based) of `sampleEndpointPair`. -/
def drawDist {K P : Type} (keys : Nat → K) (toLatLon : K → P)
    (distanceFn : P → P → Rat) (i : Nat) : Rat :=
  distanceFn (toLatLon (keys (2 * i))) (toLatLon (keys (2 * i + 1)))

-- ------------------------------------------------------------------
-- src/unnamed/part_002 — minimal A* with step-by-step iterator
-- ------------------------------------------------------------------

/-- JS numbers extended with `Infinity` (`none`); every stored score that can
be `Infinity` (f-scores, heap priorities, `?? Infinity` reads) uses this. -/
abbrev EInf := Option Rat

/-- Strict `<` on numbers-with-Infinity: `Infinity < y` is false, `x <
Infinity` is true for finite `x`. -/
def eLt : EInf → EInf → Bool
  | none, _ => false
  | some _, none => true
  | some a, some b => decide (a < b)

/-- `Infinity + x = Infinity`; finite values add as rationals. -/
def eAdd : EInf → Rat → EInf
  | none, _ => none
  | some a, b => some (a + b)

/-- Priority of heap slot `i` (`undefined` out of range). -/
def heapPrio {K : Type} (h : List (K × EInf)) (i : Nat) : Option EInf :=
  (h.get? i).map (fun e => e.2)

/-- `heap[a].priority < heap[b].priority` guarded by bounds: out-of-range
reads never compare smaller (matches the `left < n && ...` guards). -/
def heapLtAt {K : Type} (h : List (K × EInf)) (a b : Nat) : Bool :=
  match heapPrio h a, heapPrio h b with
  | some x, some y => eLt x y
  | _, _ => false

/-- Swap two heap slots (the `_index` map of the source mirrors positions and
is represented implicitly by position lookup). -/
def heapSwap {K : Type} (h : List (K × EInf)) (a b : Nat) : List (K × EInf) :=
  match h.get? a, h.get? b with
  | some ea, some eb => (h.set a eb).set b ea
  | _, _ => h

/-- The while-loop of `MinHeap._bubbleUp`: swap with the parent while
strictly smaller. The index strictly decreases each iteration, so a fuel of
`i + 1` is never exhausted. -/
def heapBubbleGo {K : Type} (fuel : Nat) (h : List (K × EInf)) (i : Nat) :
    List (K × EInf) :=
  match fuel with
  | 0 => h
  | fuel + 1 =>
    if i = 0 then h
    else if heapLtAt h i ((i - 1) / 2) then
      heapBubbleGo fuel (heapSwap h i ((i - 1) / 2)) ((i - 1) / 2)
    else h

/-- `MinHeap._bubbleUp`. -/
def heapBubble {K : Type} (h : List (K × EInf)) (i : Nat) : List (K × EInf) :=
  heapBubbleGo (i + 1) h i

/-- The slot `_sinkDown` swaps toward at index `i` (`smallest`): the right
child if strictly smaller than the better of the left child and `i`,
otherwise that better one. -/
def sinkTarget {K : Type} (h : List (K × EInf)) (i : Nat) : Nat :=
  if heapLtAt h (2 * i + 2) (if heapLtAt h (2 * i + 1) i then 2 * i + 1 else i)
    then 2 * i + 2
  else if heapLtAt h (2 * i + 1) i then 2 * i + 1
  else i

/-- The while-loop of `MinHeap._sinkDown`: swap with the smaller child while
one is smaller. The index strictly increases and stays below the (constant)
heap length, so a fuel of `length + 1` is never exhausted. -/
def heapSinkGo {K : Type} (fuel : Nat) (h : List (K × EInf)) (i : Nat) :
    List (K × EInf) :=
  match fuel with
  | 0 => h
  | fuel + 1 =>
    if sinkTarget h i = i then h
    else heapSinkGo fuel (heapSwap h i (sinkTarget h i)) (sinkTarget h i)

/-- `MinHeap._sinkDown`. -/
def heapSink {K : Type} (h : List (K × EInf)) (i : Nat) : List (K × EInf) :=
  heapSinkGo (h.length + 1) h i

/-- `MinHeap.has` (the `_index` map queried by position search). -/
def heapHas {K : Type} [DecidableEq K] (h : List (K × EInf)) (k : K) : Bool :=
  h.any (fun e => e.1 = k)

/-- `MinHeap.decreaseKey`. -/
def heapDecreaseKey {K : Type} [DecidableEq K] (h : List (K × EInf)) (k : K)
    (p : EInf) : List (K × EInf) :=
  match h.findIdx? (fun e => e.1 = k) with
  | none => h
  | some i =>
    match h.get? i with
    | none => h
    | some e => if eLt p e.2 then heapBubble (h.set i (k, p)) i else h

/-- `MinHeap.push`: insert-or-decrease. -/
def heapPush {K : Type} [DecidableEq K] (h : List (K × EInf)) (k : K)
    (p : EInf) : List (K × EInf) :=
  if heapHas h k then heapDecreaseKey h k p
  else heapBubble (h ++ [(k, p)]) h.length

/-- `MinHeap.pop`: return the root, move the last slot to the root, sink. -/
def heapPop {K : Type} (h : List (K × EInf)) :
    Option K × List (K × EInf) :=
  match h.head? with
  | none => (none, h)
  | some top =>
    match h.getLast? with
    | none => (some top.1, h.dropLast)
    | some last =>
      let rest := h.dropLast
      if rest.length > 0 then (some top.1, heapSink (rest.set 0 last) 0)
      else (some top.1, rest)

/-- `MinHeap.keys` (heap keys are pairwise distinct, so the JS `Set` is just
the list of keys). -/
def heapKeys {K : Type} (h : List (K × EInf)) : List K :=
  h.map (fun e => e.1)

/-- Search step statuses. -/
inductive AStatus
  | searching
  | found
  | noPath
  | maxSteps
  | invalidEndpoints
deriving DecidableEq, Repr

/-- The `makeAStarStepper` configuration object. `isValidNode` and
`maxSteps` are optional (`maxSteps = none` models a missing / non-finite
budget). -/
structure AStarCfg (K : Type) where
  startKey : K
  goalKey : K
  neighbors : K → List K
  cost : K → K → Rat
  heuristic : K → K → Rat
  isValidNode : Option (K → Bool)
  maxSteps : Option Nat

/-- `isValid` closure: `typeof isValidNode === 'function' ? !!isValidNode(k)
: true`. -/
def cfgValid {K : Type} (cfg : AStarCfg K) (k : K) : Bool :=
  match cfg.isValidNode with
  | none => true
  | some f => f k

/-- The unreachable-path walker of `reconstructPath`: follow `cameFrom` until
no predecessor. The `cameFrom` chain of an A* run is acyclic, so a fuel of
`cameFrom.length` always suffices to reach a key with no entry. -/
def reconstructGo {K : Type} [DecidableEq K] (cameFrom : List (K × K))
    (fuel : Nat) (current : K) (path : List K) : List K :=
  match fuel with
  | 0 => path
  | fuel + 1 =>
    match alGet cameFrom current with
    | none => path
    | some p => reconstructGo cameFrom fuel p (path ++ [p])

/-- `reconstructPath(cameFrom, currentKey)`. -/
def reconstructPath {K : Type} [DecidableEq K] (cameFrom : List (K × K))
    (currentKey : K) : List K :=
  (reconstructGo cameFrom cameFrom.length currentKey [currentKey]).reverse

/-- A terminal `result` record: status plus the fields the source stores
with it. -/
structure AStarResult (K : Type) where
  status : AStatus
  steps : Option Nat := none
  path : Option (List K) := none
deriving DecidableEq, Repr

/-- The mutable closure state of a running stepper. -/
structure AStarState (K : Type) where
  openHeap : List (K × EInf)
  closedSet : List K
  cameFrom : List (K × K)
  gScore : List (K × Rat)
  fScore : List (K × EInf)
  done : Bool
  result : Option (AStarResult K)
  steps : Nat
deriving DecidableEq, Repr

/-- A stepper is either the fast-fail object returned when an endpoint is
invalid (it closes over no search state and no callbacks) or a running
search state. -/
inductive Stepper (K : Type)
  | invalid
  | running (st : AStarState K)
deriving DecidableEq, Repr

/-- The object a `step()` call returns: `done`/`status` always present, the
other fields only on the paths that set them. -/
structure StepOut (K : Type) where
  done : Bool
  status : AStatus
  path : Option (List K) := none
  steps : Option Nat := none
  current : Option K := none
  openSet : Option (List K) := none
  closedSet : Option (List K) := none
  cameFrom : Option (List (K × K)) := none
  gScore : Option (List (K × Rat)) := none
  fScore : Option (List (K × EInf)) := none
deriving DecidableEq, Repr

/-- The object `getState()` returns. -/
structure AStarExposed (K : Type) where
  openSet : List K
  closedSet : List K
  cameFrom : List (K × K)
  gScore : List (K × Rat)
  fScore : List (K × EInf)
  steps : Nat
deriving DecidableEq, Repr

/-- `makeAStarStepper`: fast-fail on invalid endpoints, otherwise the
initial closure state (start seeded with `g = 0`, `f = h(start, goal)`). -/
def makeAStarStepper {K : Type} [DecidableEq K] (cfg : AStarCfg K) :
    Stepper K :=
  if ¬ (cfgValid cfg cfg.startKey && cfgValid cfg cfg.goalKey) then
    Stepper.invalid
  else
    let f0 : EInf := some (cfg.heuristic cfg.startKey cfg.goalKey)
    Stepper.running
      { openHeap := heapPush [] cfg.startKey f0
        closedSet := []
        cameFrom := []
        gScore := [(cfg.startKey, (0 : Rat))]
        fScore := [(cfg.startKey, f0)]
        done := false
        result := none
        steps := 0 }

/-- Body of the neighbor loop of `step()` for one neighbor `nb`. -/
def relaxNeighbor {K : Type} [DecidableEq K] (cfg : AStarCfg K) (current : K)
    (st : AStarState K) (nb : K) : AStarState K :=
  if ¬ cfgValid cfg nb then st
  else if nb ∈ st.closedSet then st
  else
    let tentativeG : EInf := eAdd (alGet st.gScore current) (cfg.cost current nb)
    if eLt tentativeG (alGet st.gScore nb) then
      match tentativeG with
      | some t =>
        let f : EInf := some (t + cfg.heuristic nb cfg.goalKey)
        { st with
          cameFrom := alSet st.cameFrom nb current
          gScore := alSet st.gScore nb t
          fScore := alSet st.fScore nb f
          openHeap := heapPush st.openHeap nb f }
      | none => st -- unreachable: `eLt none _` is false
    else if ¬ heapHas st.openHeap nb && ¬ nb ∈ st.closedSet then
      let f : EInf := eAdd (alGet st.gScore nb) (cfg.heuristic nb cfg.goalKey)
      { st with
        fScore := alSet st.fScore nb f
        openHeap := heapPush st.openHeap nb f }
    else st

/-- `Number.isFinite(maxSteps) && steps >= maxSteps`: a missing or non-finite
budget (`none`) never trips. -/
def budgetReached : Option Nat → Nat → Bool
  | some m, steps => steps ≥ m
  | none, _ => false

/-- One `step()` call: returns the step result and the stepper afterwards. -/
def stepFn {K : Type} [DecidableEq K] (cfg : AStarCfg K) :
    Stepper K → StepOut K × Stepper K
  | Stepper.invalid =>
    ({ done := true, status := AStatus.invalidEndpoints }, Stepper.invalid)
  | Stepper.running st =>
    if st.done then
      match st.result with
      | some r =>
        ({ done := true, status := r.status, steps := r.steps, path := r.path },
         Stepper.running st)
      | none => -- unreachable: `done` is set together with `result`
        ({ done := true, status := AStatus.searching }, Stepper.running st)
    else if budgetReached cfg.maxSteps st.steps then
      let r : AStarResult K := { status := AStatus.maxSteps, steps := some st.steps }
      ({ done := true, status := r.status, steps := r.steps },
       Stepper.running { st with done := true, result := some r })
    else if st.openHeap.length = 0 then
      let r : AStarResult K := { status := AStatus.noPath, steps := some st.steps }
      ({ done := true, status := r.status, steps := r.steps },
       Stepper.running { st with done := true, result := some r })
    else
      match heapPop st.openHeap with
      | (none, _) => -- unreachable: the heap is non-empty here
        ({ done := true, status := AStatus.noPath, steps := some st.steps },
         Stepper.running st)
      | (some current, heap') =>
        let steps' := st.steps + 1
        if current = cfg.goalKey then
          let path := reconstructPath st.cameFrom current
          let r : AStarResult K :=
            { status := AStatus.found, steps := some steps', path := some path }
          ({ done := true, status := r.status, steps := r.steps, path := r.path },
           Stepper.running { st with done := true, result := some r, steps := steps' })
        else
          let st1 : AStarState K :=
            { st with
              openHeap := heap'
              closedSet := setAdd st.closedSet current
              steps := steps' }
          let st2 := (cfg.neighbors current).foldl (relaxNeighbor cfg current) st1
          ({ done := false
             status := AStatus.searching
             current := some current
             openSet := some (heapKeys st2.openHeap)
             closedSet := some st2.closedSet
             cameFrom := some st2.cameFrom
             gScore := some st2.gScore
             fScore := some st2.fScore
             steps := some st2.steps },
           Stepper.running st2)

/-- `getState()`. -/
def getState {K : Type} : Stepper K → AStarExposed K
  | Stepper.invalid =>
    { openSet := [], closedSet := [], cameFrom := [], gScore := [],
      fScore := [], steps := 0 }
  | Stepper.running st =>
    { openSet := heapKeys st.openHeap
      closedSet := st.closedSet
      cameFrom := st.cameFrom
      gScore := st.gScore
      fScore := st.fScore
      steps := st.steps }

/-- The stepper after `n` `step()` calls. -/
def stepIter {K : Type} [DecidableEq K] (cfg : AStarCfg K) (s : Stepper K) :
    Nat → Stepper K
  | 0 => s
  | n + 1 => (stepFn cfg (stepIter cfg s n)).2

/-- The result of the `n`-th `step()` call (0-based). -/
def stepResultAt {K : Type} [DecidableEq K] (cfg : AStarCfg K)
    (s : Stepper K) (n : Nat) : StepOut K :=
  (stepFn cfg (stepIter cfg s n)).1

-- ------------------------------------------------------------------
-- src/road-graph.js — graph builder
-- ------------------------------------------------------------------

/-- A graph node: dense integer id, running-average position, merge count. -/
structure RGNode where
  id : Nat
  lat : Rat
  lon : Rat
  count : Nat
deriving DecidableEq, Repr

/-- Placeholder for the out-of-range array reads that cannot happen on
well-formed inputs (a JS read would yield `undefined` and crash soon
after). -/
def dummyNode : RGNode :=
  { id := 0, lat := 0, lon := 0, count := 0 }

/-- A directed adjacency entry `{to, weight, via?}`. -/
structure RGEdge where
  «to» : Nat
  weight : Rat
  via : Option (List (Rat × Rat)) := none
deriving DecidableEq, Repr

/-- Optional bounding region for `buildRoadGraph`. -/
structure RGBounds where
  north : Rat
  south : Rat
  west : Rat
  east : Rat
deriving DecidableEq, Repr

/-- `inBounds(lat, lon, bounds)`. -/
def inBounds (lat lon : Rat) : Option RGBounds → Bool
  | none => true
  | some b =>
    decide (lat ≤ b.north) && decide (lat ≥ b.south) &&
      decide (lon ≥ b.west) && decide (lon ≤ b.east)

/-- The quantizer grid step: `max(1e-9, toleranceMeters / 111320)`. -/
def quantStep (toleranceMeters : Rat) : Rat :=
  max (1 / 1000000000) (toleranceMeters / 111320)

/-- The quantizer cell key (the source's `"qLat,qLon"` string, as a pair). -/
def quantKey (step : Rat) (lat lon : Rat) : Int × Int :=
  (jsRound (lat / step), jsRound (lon / step))

/-- One-way tag of a polyline: `'yes'`/`'1'` forward only, `'-1'` reverse
only, anything else (including absent) both directions. -/
inductive Oneway
  | yes
  | minus1
  | no
deriving DecidableEq, Repr

/-- One input polyline: coordinates in `(lon, lat)` order, `none` for an
entry that is not a 2-element finite-number array (skipped by the source
without touching `prevId`). -/
structure RGLine where
  coords : List (Option (Rat × Rat))
  oneway : Oneway
deriving Repr

/-- The closure state of `buildRoadGraph`'s scan: key→id index, node list,
per-node adjacency maps, and the `prevId` chain pointer of the current
line. -/
structure BuildState where
  nodeIndex : List ((Int × Int) × Nat)
  nodes : List RGNode
  adjacencyMaps : List (List (Nat × Rat))
  prevId : Option Nat
deriving Repr

/-- `getNodeId(lat, lon)`: merge into the existing node of the cell
(running-average position, bumped count) or allocate a fresh node unless the
cap is reached (`null` then). -/
def getNodeId (step : Rat) (maxNodes : Nat) (st : BuildState) (lat lon : Rat) :
    Option Nat × BuildState :=
  let k := quantKey step lat lon
  match alGet st.nodeIndex k with
  | some existing =>
    match st.nodes.get? existing with
    | some node =>
      let cnt := node.count + 1
      let t : Rat := 1 / cnt
      let node' : RGNode :=
        { node with
          count := cnt
          lat := node.lat + (lat - node.lat) * t
          lon := node.lon + (lon - node.lon) * t }
      (some existing, { st with nodes := st.nodes.set existing node' })
    | none => (some existing, st) -- unreachable: the index points at nodes
  | none =>
    if st.nodes.length ≥ maxNodes then (none, st)
    else
      let id := st.nodes.length
      (some id,
       { st with
         nodeIndex := alSet st.nodeIndex k id
         nodes := st.nodes ++ [{ id := id, lat := lat, lon := lon, count := 1 }]
         adjacencyMaps := st.adjacencyMaps ++ [[]] })

/-- `addEdge(a, b, weight)`: drop self-edges, keep the minimum weight per
ordered pair. -/
def addEdge (st : BuildState) (a b : Nat) (weight : Rat) : BuildState :=
  if a = b then st
  else
    let mapA := st.adjacencyMaps.getD a []
    let keep :=
      match alGet mapA b with
      | none => true
      | some prev => decide (weight < prev)
    if keep then
      { st with adjacencyMaps := st.adjacencyMaps.set a (alSet mapA b weight) }
    else st

/-- The body of `buildRoadGraph`'s coordinate loop. An out-of-bounds
coordinate resets `prevId`; a malformed one (`none`) and a coordinate the
node cap rejects are skipped with `prevId` retained. -/
def processCoord (step : Rat) (maxNodes : Nat) (bounds : Option RGBounds)
    (dist : RGNode → RGNode → Rat) (oneway : Oneway) (st : BuildState)
    (coord : Option (Rat × Rat)) : BuildState :=
  match coord with
  | none => st
  | some (lon, lat) =>
    if ¬ inBounds lat lon bounds then { st with prevId := none }
    else
      match getNodeId step maxNodes st lat lon with
      | (none, st1) => st1
      | (some id, st1) =>
        let st2 :=
          match st1.prevId with
          | none => st1
          | some prevId =>
            if prevId = id then st1
            else
              let a := st1.nodes.getD prevId dummyNode
              let b := st1.nodes.getD id dummyNode
              let w := dist a b
              match oneway with
              | Oneway.yes => addEdge st1 prevId id w
              | Oneway.minus1 => addEdge st1 id prevId w
              | Oneway.no => addEdge (addEdge st1 prevId id w) id prevId w
        { st2 with prevId := some id }

/-- One polyline of `buildRoadGraph`'s outer loop: lines with fewer than two
coordinate entries contribute nothing; `prevId` starts `null` per line. -/
def processLine (step : Rat) (maxNodes : Nat) (bounds : Option RGBounds)
    (dist : RGNode → RGNode → Rat) (st : BuildState) (line : RGLine) :
    BuildState :=
  if line.coords.length < 2 then st
  else
    line.coords.foldl (processCoord step maxNodes bounds dist line.oneway)
      { st with prevId := none }

-- ------------------------------------------------------------------
-- src/road-graph.js — contractGraph
-- ------------------------------------------------------------------

/-- One node's contribution to the undirected neighbor sets: for each edge
`i → e.to`, add `e.to` to set `i` and `i` to set `e.to`. -/
def undirectedAddEdges (i : Nat) (u : List (List Nat)) (edges : List RGEdge) :
    List (List Nat) :=
  edges.foldl
    (fun u e =>
      let u1 := u.set i (setAdd (u.getD i []) e.to)
      u1.set e.to (setAdd (u1.getD e.to []) i))
    u

/-- The `undirectedNeighbors` array of `contractGraph` (insertion-ordered
sets, as the source spreads them into arrays and reads indices 0 and 1). -/
def buildUndirected (n : Nat) (adjacency : List (List RGEdge)) :
    List (List Nat) :=
  (List.range n).foldl
    (fun u i => undirectedAddEdges i u (adjacency.getD i []))
    (List.replicate n [])

/-- `isDegree2(id)`. -/
def isDegree2 (u : List (List Nat)) (id : Nat) : Bool :=
  (u.getD id []).length = 2

/-- `costMaps[a]?.has(b) ?? false`. -/
def cmHasEdge (cost : List (List (Nat × Rat))) (a b : Nat) : Bool :=
  (alGet (cost.getD a []) b).isSome

/-- `costMaps[a]?.get(b) ?? Infinity`; only read after `hasEdge`, so the
`Infinity` default (modelled `0`) is dead. -/
def cmGetWeight (cost : List (List (Nat × Rat))) (a b : Nat) : Rat :=
  (alGet (cost.getD a []) b).getD 0

/-- `neighbors[0] === prev ? neighbors[1] : neighbors[0]` (the sets read
here always have exactly two elements, by the degree-2 guards). -/
def otherNeighbor (nbrs : List Nat) (prev : Nat) : Nat :=
  if nbrs.getD 0 0 = prev then nbrs.getD 1 0 else nbrs.getD 0 0

/-- The while-loop of `walkChain`. Each iteration appends a node not yet on
the walk (a degree-2 cycle is caught by the `other === start` test), so a
fuel of `u.length + 1` is never exhausted on well-formed graphs; the fuel-out
answer mirrors the cycle answer, keeping every returned chain one whose walk
genuinely stopped at a non-degree-2 node. -/
def walkChainGo (u : List (List Nat)) (contracted : List Nat) (start : Nat) :
    Nat → List Nat → Nat → Nat → Option (List Nat)
  | 0, _, _, _ => none
  | fuel + 1, chain, prev, cur =>
    if isDegree2 u cur ∧ cur ∉ contracted then
      let other := otherNeighbor (u.getD cur []) prev
      if other = start then none
      else walkChainGo u contracted start fuel (chain ++ [other]) cur other
    else some chain

/-- `walkChain(start, next)`: walk through degree-2 nodes until a
non-degree-2 endpoint; `none` on a cycle of degree-2 nodes. (`contracted`
is still empty whenever the source calls this.) -/
def walkChain (u : List (List Nat)) (contracted : List Nat)
    (start next : Nat) : Option (List Nat) :=
  walkChainGo u contracted start (u.length + 1) [start, next] start next

/-- Interior nodes of a chain (indices `1 .. length-2`). -/
def interiorOf (chain : List Nat) : List Nat :=
  (chain.drop 1).dropLast

/-- Accumulator of the chain-collection loop. -/
structure CollectState where
  visited : List Nat
  chains : List (List Nat)
deriving Repr

/-- One index `i` of the chain-collection loop: walk both directions from an
unvisited degree-2 node, join the walks, and mark the interior visited.
(The loop's `contracted.has(i)` test is vacuous here: `contracted` is only
populated by the later application pass.) -/
def collectStep (u : List (List Nat)) (cs : CollectState) (i : Nat) :
    CollectState :=
  if isDegree2 u i ∧ i ∉ cs.visited then
    let nbrs := u.getD i []
    let chainA := walkChain u [] i (nbrs.getD 0 0)
    let chainB := walkChain u [] i (nbrs.getD 1 0)
    match chainA, chainB with
    | some ca, some cb =>
      let full := ca.reverse ++ cb.drop 1
      { visited := (interiorOf full).foldl setAdd cs.visited
        chains := cs.chains ++ [full] }
    | _, _ => cs
  else cs

/-- All chains collected by `contractGraph` before any contraction is
applied. -/
def collectChains (n : Nat) (u : List (List Nat)) : List (List Nat) :=
  ((List.range n).foldl (collectStep u) { visited := [], chains := [] }).chains

/-- The mutable state of the chain-application pass. -/
structure CGState where
  adjacency : List (List RGEdge)
  costMaps : List (List (Nat × Rat))
  contracted : List Nat
deriving Repr

/-- The forward/reverse existence-and-weight scan over consecutive chain
nodes: stop with `ok = false` at the first missing directed edge, otherwise
accumulate the weights. -/
def pathCheck (cost : List (List (Nat × Rat))) :
    List Nat → Rat → Bool × Rat
  | a :: b :: rest, acc =>
    if cmHasEdge cost a b then pathCheck cost (b :: rest) (acc + cmGetWeight cost a b)
    else (false, acc)
  | _, acc => (true, acc)

/-- Install one shortcut edge `A → B` of weight `w` carrying `via`: only
when no direct edge exists or the new weight strictly improves; updates the
cost map and replaces-or-appends the adjacency entry. -/
def installShortcut (st : CGState) (A B : Nat) (w : Rat)
    (via : List (Rat × Rat)) : CGState :=
  let existing := alGet (st.costMaps.getD A []) B
  let improves :=
    match existing with
    | none => true
    | some e => decide (w < e)
  if improves then
    let cost' := st.costMaps.set A (alSet (st.costMaps.getD A []) B w)
    let adjA := st.adjacency.getD A []
    let entry : RGEdge := { «to» := B, weight := w, via := some via }
    let adjA' :=
      match adjA.findIdx? (fun e => e.to = B) with
      | some idx => adjA.set idx entry
      | none => adjA ++ [entry]
    { st with costMaps := cost', adjacency := st.adjacency.set A adjA' }
  else st

/-- Via geometry of a chain: interior node positions in `(lon, lat)` order. -/
def viaOf (nodes : List RGNode) (chain : List Nat) : List (Rat × Rat) :=
  (interiorOf chain).map
    (fun j => ((nodes.getD j dummyNode).lon, (nodes.getD j dummyNode).lat))

/-- Apply one collected chain: skip short or self-closing chains, check both
directed paths, mark the interior contracted, and install the shortcut(s)
that exist. -/
def processChain (nodes : List RGNode) (st : CGState) (chain : List Nat) :
    CGState :=
  if chain.length < 3 then st
  else
    let A := chain.headD 0
    let B := chain.getLastD 0
    if A = B then st
    else
      let fwd := pathCheck st.costMaps chain 0
      let rev := pathCheck st.costMaps chain.reverse 0
      if ¬ fwd.1 ∧ ¬ rev.1 then st
      else
        let via := viaOf nodes chain
        let st1 : CGState :=
          { st with contracted := (interiorOf chain).foldl setAdd st.contracted }
        let st2 := if fwd.1 then installShortcut st1 A B fwd.2 via else st1
        if rev.1 then installShortcut st2 B A rev.2 via.reverse else st2

/-- The result record of `contractGraph`. -/
structure CGResult where
  nodes : List RGNode
  adjacency : List (List RGEdge)
  costMaps : List (List (Nat × Rat))
  contracted : Nat
deriving Repr

/-- One survivor of the re-indexing scan: record its new id in `oldToNew`
and append the re-issued node. -/
def reindexStep (nodes : List RGNode) (contracted : List Nat)
    (acc : List Int × List RGNode) (i : Nat) : List Int × List RGNode :=
  if i ∈ contracted then acc
  else
    let nd := nodes.getD i dummyNode
    (acc.1.set i (Int.ofNat acc.2.length),
     acc.2 ++
       [{ id := acc.2.length, lat := nd.lat, lon := nd.lon,
          count := nd.count }])

/-- The survivor re-indexing scan: `oldToNew` (with `-1` for removed nodes)
and the re-issued dense node list. -/
def reindexNodes (nodes : List RGNode) (contracted : List Nat) :
    List Int × List RGNode :=
  (List.range nodes.length).foldl (reindexStep nodes contracted)
    (List.replicate nodes.length (-1 : Int), [])

/-- Rebuild one survivor's adjacency row, dropping edges into contracted or
unmapped targets and rewriting targets through `oldToNew`. -/
def rebuildRow (oldToNew : List Int) (contracted : List Nat)
    (edges : List RGEdge) : List RGEdge :=
  edges.foldl
    (fun acc e =>
      if e.to ∈ contracted then acc
      else
        let newTo := oldToNew.getD e.to (-1)
        if newTo < 0 then acc
        else acc ++ [{ «to» := newTo.toNat, weight := e.weight, via := e.via }])
    []

/-- Rebuild all surviving adjacency rows and cost maps. Survivors are
visited in increasing old id and receive consecutive new ids, so appending
rows lands each at its `oldToNew` slot. -/
def reindexEdgesStep (oldToNew : List Int) (contracted : List Nat)
    (adjacency : List (List RGEdge))
    (acc : List (List RGEdge) × List (List (Nat × Rat))) (oldId : Nat) :
    List (List RGEdge) × List (List (Nat × Rat)) :=
  if oldId ∈ contracted then acc
  else
    let row := rebuildRow oldToNew contracted (adjacency.getD oldId [])
    (acc.1 ++ [row],
     acc.2 ++ [row.foldl (fun m e => alSet m e.to e.weight) []])

def reindexEdges (n : Nat) (oldToNew : List Int) (contracted : List Nat)
    (adjacency : List (List RGEdge)) :
    List (List RGEdge) × List (List (Nat × Rat)) :=
  (List.range n).foldl (reindexEdgesStep oldToNew contracted adjacency)
    ([], [])

/-- `contractGraph(nodes, adjacency, costMaps)` from src/road-graph.js. -/
def contractGraph (nodes : List RGNode) (adjacency : List (List RGEdge))
    (costMaps : List (List (Nat × Rat))) : CGResult :=
  let n := nodes.length
  let u := buildUndirected n adjacency
  let chains := collectChains n u
  let st :=
    chains.foldl (processChain nodes)
      { adjacency := adjacency, costMaps := costMaps, contracted := [] }
  if st.contracted.length = 0 then
    { nodes := nodes, adjacency := st.adjacency, costMaps := st.costMaps,
      contracted := 0 }
  else
    let idx := reindexNodes nodes st.contracted
    let rebuilt := reindexEdges n idx.1 st.contracted st.adjacency
    { nodes := idx.2, adjacency := rebuilt.1, costMaps := rebuilt.2,
      contracted := st.contracted.length }

/-- The state of `contractGraph` after the whole chain-application pass
(the value of `adjacency`/`costMaps`/`contracted` just before the
re-indexing step); named so theorems can refer to the contracted set. -/
def cgApply (nodes : List RGNode) (adjacency : List (List RGEdge))
    (costMaps : List (List (Nat × Rat))) : CGState :=
  (collectChains nodes.length (buildUndirected nodes.length adjacency)).foldl
    (processChain nodes)
    { adjacency := adjacency, costMaps := costMaps, contracted := [] }

/-- The graph record `buildRoadGraph` returns. -/
structure RoadGraph where
  nodes : List RGNode
  adjacency : List (List RGEdge)
  costMaps : List (List (Nat × Rat))
  edges : Nat
  toleranceMeters : Rat
deriving Repr

/-- The options object of `buildRoadGraph`, with the source's defaults. -/
structure BuildOptions where
  toleranceMeters : Rat := 10
  bounds : Option RGBounds := none
  maxNodes : Nat := 250000
  contract : Bool := true

/-- `buildRoadGraph(lines, options)` from src/road-graph.js, with the
imported `haversineMeters` passed in as `dist`. -/
def buildRoadGraph (dist : RGNode → RGNode → Rat) (lines : List RGLine)
    (opts : BuildOptions) : RoadGraph :=
  let step := quantStep opts.toleranceMeters
  let st :=
    lines.foldl (processLine step opts.maxNodes opts.bounds dist)
      { nodeIndex := [], nodes := [], adjacencyMaps := [], prevId := none }
  let adjacency :=
    st.adjacencyMaps.map
      (fun m => m.map (fun p => ({ «to» := p.1, weight := p.2 } : RGEdge)))
  let costMaps := st.adjacencyMaps
  if opts.contract then
    let result := contractGraph st.nodes adjacency costMaps
    { nodes := result.nodes
      adjacency := result.adjacency
      costMaps := result.costMaps
      edges := result.adjacency.foldl (fun acc l => acc + l.length) 0
      toleranceMeters := opts.toleranceMeters }
  else
    { nodes := st.nodes
      adjacency := adjacency
      costMaps := costMaps
      edges := adjacency.foldl (fun acc l => acc + l.length) 0
      toleranceMeters := opts.toleranceMeters }

-- ------------------------------------------------------------------
-- Well-formedness predicates for graphs handed to contractGraph
-- ------------------------------------------------------------------

/-- The shape `buildRoadGraph` guarantees for what it hands to
`contractGraph`: one adjacency row and one cost map per node, every edge
target a valid index, and each cost map the `(to, weight)` projection of its
adjacency row. -/
def WFGraph (nodes : List RGNode) (adjacency : List (List RGEdge))
    (costMaps : List (List (Nat × Rat))) : Prop :=
  adjacency.length = nodes.length ∧
  costMaps.length = nodes.length ∧
  (∀ i, ∀ e ∈ adjacency.getD i [], e.to < nodes.length) ∧
  (∀ i, costMaps.getD i [] = (adjacency.getD i []).map (fun e => (e.to, e.weight)))

/-- At most one directed edge per ordered `(from, to)` pair. -/
def UniqueTargets (adjacency : List (List RGEdge)) : Prop :=
  ∀ i, ((adjacency.getD i []).map (fun e => e.to)).Nodup

/-- Dense node indexing: the node at position `i` has id `i`. -/
def DenseNodes (nodes : List RGNode) : Prop :=
  ∀ i, ∀ h : i < nodes.length, (nodes.get ⟨i, h⟩).id = i

/-- Undirected degree of `v` in the input graph of `contractGraph`. -/
def undirectedDegree (nodes : List RGNode) (adjacency : List (List RGEdge))
    (v : Nat) : Nat :=
  ((buildUndirected nodes.length adjacency).getD v []).length

-- ==================================================================
-- Theorems
-- ==================================================================

-- C8 counterexample support: with `maxConsecutiveFailures = 0` a `success`
-- event itself trips the `>=` ceiling test and triggers.

/-- C8: the claim quantifies over every limits object, but with a zero
failure ceiling a `success` event triggers (`0 >= 0`): here `triggered` is
`true` even though the event is `success`. -/
theorem updateGuardrails_success_zero_ceiling_triggers :
    (updateGuardrails
        (some { consecutiveFailures := some 1, consecutiveResamples := some 0,
                relaxCyclesRemaining := some 0 })
        GuardEvent.success
        { maxConsecutiveFailures := 0, maxConsecutiveResamples := 6,
          relaxCycles := 2 }).2 = true := by
  decide

/-- C8 (amended): a `failure` (resp. `resample`) event that lifts its
consecutive counter to the configured ceiling triggers, zeroes both
consecutive counters and raises `relaxCyclesRemaining` to
`max previous relaxCycles`; a `success` event zeroes both consecutive
counters, and does not trigger provided both ceilings are positive. -/
theorem updateGuardrails_spec (state : Option GuardInput)
    (limits : GuardLimits) :
    (let prevF := ((state.bind (fun s => s.consecutiveFailures)).getD 0)
     let prevR := ((state.bind (fun s => s.consecutiveResamples)).getD 0)
     let prevRelax := ((state.bind (fun s => s.relaxCyclesRemaining)).getD 0)
     (prevF + 1 ≥ limits.maxConsecutiveFailures →
       updateGuardrails state GuardEvent.failure limits =
         ({ consecutiveFailures := 0, consecutiveResamples := 0,
            relaxCyclesRemaining := max prevRelax limits.relaxCycles }, true)) ∧
     (prevR + 1 ≥ limits.maxConsecutiveResamples →
       updateGuardrails state GuardEvent.resample limits =
         ({ consecutiveFailures := 0, consecutiveResamples := 0,
            relaxCyclesRemaining := max prevRelax limits.relaxCycles }, true)) ∧
     (1 ≤ limits.maxConsecutiveFailures → 1 ≤ limits.maxConsecutiveResamples →
       updateGuardrails state GuardEvent.success limits =
         ({ consecutiveFailures := 0, consecutiveResamples := 0,
            relaxCyclesRemaining := prevRelax }, false))) := by
  refine ⟨?_, ?_, ?_⟩
  · intro hF
    simp only [updateGuardrails]
    rw [if_pos (Or.inl hF)]
  · intro hR
    simp only [updateGuardrails]
    rw [if_pos (Or.inr hR)]
  · intro hF hR
    simp only [updateGuardrails]
    rw [if_neg]
    omega

/-- Witness for `updateGuardrails_spec` at the default limits and a state
one failure short of the ceiling. -/
theorem updateGuardrails_spec_witness :
    (updateGuardrails
        (some { consecutiveFailures := some 3, consecutiveResamples := some 2,
                relaxCyclesRemaining := some 1 })
        GuardEvent.failure
        { maxConsecutiveFailures := 4, maxConsecutiveResamples := 6,
          relaxCycles := 2 }) =
      ({ consecutiveFailures := 0, consecutiveResamples := 0,
         relaxCyclesRemaining := 2 }, true) ∧
    (updateGuardrails
        (some { consecutiveFailures := some 3, consecutiveResamples := some 2,
                relaxCyclesRemaining := some 1 })
        GuardEvent.success
        { maxConsecutiveFailures := 4, maxConsecutiveResamples := 6,
          relaxCycles := 2 }) =
      ({ consecutiveFailures := 0, consecutiveResamples := 0,
         relaxCyclesRemaining := 1 }, false) := by
  have h := updateGuardrails_spec
    (some { consecutiveFailures := some 3, consecutiveResamples := some 2,
            relaxCyclesRemaining := some 1 })
    { maxConsecutiveFailures := 4, maxConsecutiveResamples := 6,
      relaxCycles := 2 }
  exact ⟨h.1 (by decide), (h.2.2 (by decide) (by decide))⟩

/-- C10: `updateGuardrails` never writes to its `state` argument (the
store-passing translation returns it unchanged), and a state with missing
counter fields is read exactly as one whose fields are present as zero. -/
theorem updateGuardrails_frame_and_defaults (state : Option GuardInput)
    (event : GuardEvent) (limits : GuardLimits) :
    (updateGuardrailsStore state event limits).1 = state ∧
    updateGuardrails
        (some { consecutiveFailures := none, consecutiveResamples := none,
                relaxCyclesRemaining := none })
        event limits =
      updateGuardrails
        (some { consecutiveFailures := some 0, consecutiveResamples := some 0,
                relaxCyclesRemaining := some 0 })
        event limits ∧
    updateGuardrails none event limits =
      updateGuardrails
        (some { consecutiveFailures := some 0, consecutiveResamples := some 0,
                relaxCyclesRemaining := some 0 })
        event limits := by
  refine ⟨rfl, ?_, ?_⟩ <;> rfl

-- ------------------------------------------------------------------
-- C5: sampleEndpointPair
-- ------------------------------------------------------------------

/-- If draw `i` is the first draw at or after `t` meeting the minimum, the
loop returns at draw `i` with `minDistanceMet` and `tries = i + 1`. -/
theorem sampleLoop_success {K P : Type} (keys : Nat → K) (toLatLon : K → P)
    (distanceFn : P → P → Rat) (minMeters : Rat) (maxTries : Nat) (i : Nat)
    (hi : i < maxTries) (hmet : minMeters ≤ drawDist keys toLatLon distanceFn i) :
    ∀ fuel t best, fuel + t = maxTries → t ≤ i →
      (∀ j, t ≤ j → j < i → drawDist keys toLatLon distanceFn j < minMeters) →
      sampleLoop keys toLatLon distanceFn minMeters maxTries t best fuel =
        { startKey := some (keys (2 * i))
          goalKey := some (keys (2 * i + 1))
          distanceMeters := some (drawDist keys toLatLon distanceFn i)
          minDistanceMet := true
          tries := i + 1 } := by
  intro fuel
  induction fuel with
  | zero =>
    intro t best hft hti _
    omega
  | succ f ih =>
    intro t best hft hti hbefore
    simp only [sampleLoop]
    rw [if_neg (by omega)]
    rw [show distanceFn (toLatLon (keys (2 * t))) (toLatLon (keys (2 * t + 1))) =
      drawDist keys toLatLon distanceFn t from rfl]
    by_cases hcur : t = i
    · subst hcur
      rw [if_pos (by exact hmet)]
    · have hlt : drawDist keys toLatLon distanceFn t < minMeters :=
        hbefore t (le_refl t) (by omega)
      rw [if_neg (by exact not_le.mpr hlt)]
      exact ih (t + 1) _ (by omega) (by omega)
        (fun j h1 h2 => hbefore j (by omega) h2)


/-- If no draw in `[t, maxTries)` meets the minimum, the loop exhausts the
budget and returns either the incoming best unimproved (no draw in the range
beats it) or the outcome of the first draw `i` in the range achieving the
range's maximum and beating the incoming best; its `tries` field is
`i + 1`. -/
theorem sampleLoop_fallback {K P : Type} (keys : Nat → K) (toLatLon : K → P)
    (distanceFn : P → P → Rat) (minMeters : Rat) (maxTries : Nat) :
    ∀ fuel t best, fuel + t = maxTries →
      (∀ j, t ≤ j → j < maxTries → drawDist keys toLatLon distanceFn j < minMeters) →
      (sampleLoop keys toLatLon distanceFn minMeters maxTries t best fuel = best ∧
        ∀ j, t ≤ j → j < maxTries →
          beatsBest (drawDist keys toLatLon distanceFn j) best.distanceMeters = false) ∨
      (∃ i, t ≤ i ∧ i < maxTries ∧
        sampleLoop keys toLatLon distanceFn minMeters maxTries t best fuel =
          { startKey := some (keys (2 * i))
            goalKey := some (keys (2 * i + 1))
            distanceMeters := some (drawDist keys toLatLon distanceFn i)
            minDistanceMet := false
            tries := i + 1 } ∧
        (∀ j, t ≤ j → j < maxTries →
          drawDist keys toLatLon distanceFn j ≤ drawDist keys toLatLon distanceFn i) ∧
        (∀ j, t ≤ j → j < i →
          drawDist keys toLatLon distanceFn j < drawDist keys toLatLon distanceFn i) ∧
        beatsBest (drawDist keys toLatLon distanceFn i) best.distanceMeters = true) := by
  intro fuel
  induction fuel with
  | zero =>
    intro t best hft _
    left
    exact ⟨rfl, fun j h1 h2 => by omega⟩
  | succ f ih =>
    intro t best hft hunder
    have htlt : t < maxTries := by omega
    have hdt : drawDist keys toLatLon distanceFn t < minMeters :=
      hunder t (le_refl t) htlt
    simp only [sampleLoop]
    rw [if_neg (by omega)]
    rw [show distanceFn (toLatLon (keys (2 * t))) (toLatLon (keys (2 * t + 1))) =
      drawDist keys toLatLon distanceFn t from rfl]
    rw [if_neg (by exact not_le.mpr hdt)]
    by_cases hbeat :
        beatsBest (drawDist keys toLatLon distanceFn t) best.distanceMeters = true
    · rw [if_pos hbeat]
      have hdec : decide (drawDist keys toLatLon distanceFn t ≥ minMeters) = false :=
        decide_eq_false (not_le.mpr hdt)
      rw [hdec]
      rcases ih (t + 1)
          { startKey := some (keys (2 * t)), goalKey := some (keys (2 * t + 1)),
            distanceMeters := some (drawDist keys toLatLon distanceFn t),
            minDistanceMet := false, tries := t + 1 }
          (by omega) (fun j h1 h2 => hunder j (by omega) h2) with hL | hR
      · right
        refine ⟨t, le_refl t, htlt, hL.1, ?_, fun j h1 h2 => by omega, hbeat⟩
        intro j h1 h2
        rcases Nat.eq_or_lt_of_le h1 with h | h
        · rw [← h]
        · have := hL.2 j (by omega) h2
          simp only [beatsBest, decide_eq_false_iff_not, not_lt] at this
          exact this
      · obtain ⟨i, hi1, hi2, hres, hmax, hfirst, hbeats⟩ := hR
        right
        have hti : drawDist keys toLatLon distanceFn t <
            drawDist keys toLatLon distanceFn i := by
          simpa [beatsBest] using hbeats
        refine ⟨i, by omega, hi2, hres, ?_, ?_, ?_⟩
        · intro j h1 h2
          rcases Nat.eq_or_lt_of_le h1 with h | h
          · rw [← h]; exact le_of_lt hti
          · exact hmax j (by omega) h2
        · intro j h1 h2
          rcases Nat.eq_or_lt_of_le h1 with h | h
          · rw [← h]; exact hti
          · exact hfirst j (by omega) h2
        · cases hbm : best.distanceMeters with
          | none => simp [beatsBest]
          | some b =>
            have hb : b < drawDist keys toLatLon distanceFn t := by
              rw [hbm] at hbeat
              simpa [beatsBest] using hbeat
            simp only [beatsBest, decide_eq_true_eq]
            exact lt_trans hb hti
    · rw [if_neg hbeat]
      have hbeatF : beatsBest (drawDist keys toLatLon distanceFn t)
          best.distanceMeters = false := Bool.eq_false_iff.mpr hbeat
      rcases ih (t + 1) best (by omega)
          (fun j h1 h2 => hunder j (by omega) h2) with hL | hR
      · left
        refine ⟨hL.1, ?_⟩
        intro j h1 h2
        rcases Nat.eq_or_lt_of_le h1 with h | h
        · rw [← h]; exact hbeatF
        · exact hL.2 j (by omega) h2
      · obtain ⟨i, hi1, hi2, hres, hmax, hfirst, hbeats⟩ := hR
        right
        cases hbm : best.distanceMeters with
        | none =>
          rw [hbm] at hbeatF
          simp [beatsBest] at hbeatF
        | some b =>
          rw [hbm] at hbeatF hbeats
          have hdtb : drawDist keys toLatLon distanceFn t ≤ b := by
            simpa [beatsBest, not_lt] using hbeatF
          have hbi : b < drawDist keys toLatLon distanceFn i := by
            simpa [beatsBest] using hbeats
          have hti : drawDist keys toLatLon distanceFn t <
              drawDist keys toLatLon distanceFn i := lt_of_le_of_lt hdtb hbi
          refine ⟨i, by omega, hi2, hres, ?_, ?_, ?_⟩
          · intro j h1 h2
            rcases Nat.eq_or_lt_of_le h1 with h | h
            · rw [← h]; exact le_of_lt hti
            · exact hmax j (by omega) h2
          · intro j h1 h2
            rcases Nat.eq_or_lt_of_le h1 with h | h
            · rw [← h]; exact hti
            · exact hfirst j (by omega) h2
          · simpa [beatsBest] using hbi

/-- C5 (amended): if some draw meets `minMeters`, the sampler returns at the
first such draw with `minDistanceMet` and `tries` its 1-based index; if no
draw meets it, the sampler consumes all `maxTries` draws and returns the
first maximum-distance pair seen with `minDistanceMet: false` and `tries`
the 1-based index of that maximal draw (not the number of draws consumed);
with no draws at all the null initial best is returned. -/
theorem sampleEndpointPair_spec {K P : Type} (keys : Nat → K)
    (toLatLon : K → P) (distanceFn : P → P → Rat) (minMeters : Rat)
    (maxTries : Nat) :
    (∀ i, i < maxTries → minMeters ≤ drawDist keys toLatLon distanceFn i →
      (∀ j, j < i → drawDist keys toLatLon distanceFn j < minMeters) →
      sampleEndpointPair keys toLatLon distanceFn minMeters maxTries =
        { startKey := some (keys (2 * i))
          goalKey := some (keys (2 * i + 1))
          distanceMeters := some (drawDist keys toLatLon distanceFn i)
          minDistanceMet := true
          tries := i + 1 }) ∧
    ((∀ j, j < maxTries → drawDist keys toLatLon distanceFn j < minMeters) →
      (maxTries = 0 ∧
        sampleEndpointPair keys toLatLon distanceFn minMeters maxTries =
          { startKey := none, goalKey := none, distanceMeters := none,
            minDistanceMet := false, tries := 0 }) ∨
      (∃ i, i < maxTries ∧
        sampleEndpointPair keys toLatLon distanceFn minMeters maxTries =
          { startKey := some (keys (2 * i))
            goalKey := some (keys (2 * i + 1))
            distanceMeters := some (drawDist keys toLatLon distanceFn i)
            minDistanceMet := false
            tries := i + 1 } ∧
        (∀ j, j < maxTries →
          drawDist keys toLatLon distanceFn j ≤ drawDist keys toLatLon distanceFn i) ∧
        (∀ j, j < i →
          drawDist keys toLatLon distanceFn j < drawDist keys toLatLon distanceFn i))) := by
  constructor
  · intro i hi hmet hfirst
    exact sampleLoop_success keys toLatLon distanceFn minMeters maxTries i hi hmet
      maxTries 0 _ (by omega) (by omega) (fun j h1 h2 => hfirst j h2)
  · intro hunder
    rcases sampleLoop_fallback keys toLatLon distanceFn minMeters maxTries
        maxTries 0 _ (by omega) (fun j h1 h2 => hunder j h2) with hL | hR
    · left
      refine ⟨?_, hL.1⟩
      by_contra hne
      have := hL.2 0 (Nat.zero_le 0) (by omega)
      simp [beatsBest] at this
    · obtain ⟨i, _, hi2, hres, hmax, hfirst, _⟩ := hR
      right
      exact ⟨i, hi2, hres, fun j h2 => hmax j (Nat.zero_le j) h2,
        fun j h2 => hfirst j (Nat.zero_le j) h2⟩

/-- C5: the claim's fallback branch states `tries` equals the number of
draws consumed; here two draws are consumed (budget 2, no draw meets 10)
yet `tries = 1`, the index of the best (first) draw. -/
theorem sampleEndpointPair_tries_counterexample :
    (sampleEndpointPair (fun i => i) (fun k => k)
        (fun a _ => if a = 0 then (5 : Rat) else 3) 10 2).minDistanceMet =
        false ∧
      (sampleEndpointPair (fun i => i) (fun k => k)
        (fun a _ => if a = 0 then (5 : Rat) else 3) 10 2).tries = 1 := by
  decide

/-- Witness for `sampleEndpointPair_spec`: a constraint met on the very
first draw returns that draw with `tries = 1`. -/
theorem sampleEndpointPair_spec_witness :
    sampleEndpointPair (fun i => i) (fun k => k) (fun _ _ => (1 : Rat)) 1 3 =
      { startKey := some 0, goalKey := some 1, distanceMeters := some 1,
        minDistanceMet := true, tries := 1 } :=
  (sampleEndpointPair_spec (fun i => i) (fun k => k) (fun _ _ => (1 : Rat))
      1 3).1 0 (by decide) (le_refl 1)
    (fun j hj => absurd hj (Nat.not_lt_zero j))

-- ------------------------------------------------------------------
-- C7: invalid endpoints fast-fail
-- ------------------------------------------------------------------

/-- C7: when the start or goal key fails the validity predicate, the
stepper is the fast-fail object: its first (and every) `step()` returns the
terminal `invalid-endpoints` result, its exposed state has empty open set,
closed set, predecessor map and score maps with step count `0`, and the
whole construction is independent of the `neighbors` callback (it is never
invoked). -/
theorem makeAStarStepper_invalid_endpoints {K : Type} [DecidableEq K]
    (cfg : AStarCfg K)
    (hinv : cfgValid cfg cfg.startKey = false ∨
      cfgValid cfg cfg.goalKey = false) :
    makeAStarStepper cfg = Stepper.invalid ∧
    stepFn cfg (makeAStarStepper cfg) =
      ({ done := true, status := AStatus.invalidEndpoints }, Stepper.invalid) ∧
    getState (makeAStarStepper cfg) =
      { openSet := [], closedSet := [], cameFrom := [], gScore := [],
        fScore := [], steps := 0 } ∧
    (∀ nb : K → List K,
      makeAStarStepper { cfg with neighbors := nb } = makeAStarStepper cfg ∧
      stepFn { cfg with neighbors := nb }
          (makeAStarStepper { cfg with neighbors := nb }) =
        stepFn cfg (makeAStarStepper cfg)) := by
  have hmk : makeAStarStepper cfg = Stepper.invalid := by
    unfold makeAStarStepper
    rw [if_pos]
    rcases hinv with h | h <;> simp [h]
  have hmk' : ∀ nb : K → List K,
      makeAStarStepper { cfg with neighbors := nb } = Stepper.invalid := by
    intro nb
    unfold makeAStarStepper
    rw [if_pos]
    rcases hinv with h | h <;> simp [cfgValid] at h ⊢ <;> simp [h]
  refine ⟨hmk, ?_, ?_, ?_⟩
  · rw [hmk]; rfl
  · rw [hmk]; rfl
  · intro nb
    rw [hmk, hmk' nb]
    exact ⟨rfl, rfl⟩

/-- Witness for `makeAStarStepper_invalid_endpoints`: a validity predicate
that rejects the start key. -/
theorem makeAStarStepper_invalid_endpoints_witness :
    stepFn
        { startKey := 0, goalKey := 1, neighbors := fun k => [k + 1],
          cost := fun _ _ => 1, heuristic := fun _ _ => 0,
          isValidNode := some (fun k => decide (k ≠ 0)),
          maxSteps := none : AStarCfg Nat }
        (makeAStarStepper
          { startKey := 0, goalKey := 1, neighbors := fun k => [k + 1],
            cost := fun _ _ => 1, heuristic := fun _ _ => 0,
            isValidNode := some (fun k => decide (k ≠ 0)),
            maxSteps := none }) =
      ({ done := true, status := AStatus.invalidEndpoints }, Stepper.invalid) :=
  (makeAStarStepper_invalid_endpoints _ (Or.inl (by decide))).2.1

-- ------------------------------------------------------------------
-- C6: max-steps budget is hit exactly
-- ------------------------------------------------------------------

/-- The neighbor-relaxation fold never touches `steps`, `done` or
`result`. -/
theorem relaxFold_preserves {K : Type} [DecidableEq K] (cfg : AStarCfg K)
    (current : K) (l : List K) (st : AStarState K) :
    (l.foldl (relaxNeighbor cfg current) st).steps = st.steps ∧
    (l.foldl (relaxNeighbor cfg current) st).done = st.done ∧
    (l.foldl (relaxNeighbor cfg current) st).result = st.result := by
  induction l generalizing st with
  | nil => exact ⟨rfl, rfl, rfl⟩
  | cons x xs ih =>
    have hx : (relaxNeighbor cfg current st x).steps = st.steps ∧
        (relaxNeighbor cfg current st x).done = st.done ∧
        (relaxNeighbor cfg current st x).result = st.result := by
      unfold relaxNeighbor
      dsimp only
      repeat' split
      all_goals exact ⟨rfl, rfl, rfl⟩
    rw [List.foldl_cons]
    obtain ⟨h1, h2, h3⟩ := ih (relaxNeighbor cfg current st x)
    exact ⟨h1.trans hx.1, h2.trans hx.2.1, h3.trans hx.2.2⟩

/-- Popping a non-empty heap yields its root key. -/
theorem heapPop_fst {K : Type} (a : K × EInf) (t : List (K × EInf)) :
    (heapPop (a :: t)).1 = some a.1 := by
  unfold heapPop
  simp only [List.head?_cons]
  cases hg : (a :: t).getLast? with
  | none => simp at hg
  | some last =>
    simp only
    split <;> rfl

/-- A `step()` on an undone state whose budget check fails either ends the
search (with a status other than `searching`) or performs one expansion:
the returned snapshot is `searching` and the state advances with
`steps + 1`, still undone. -/
theorem stepFn_searching_advance {K : Type} [DecidableEq K]
    (cfg : AStarCfg K) (st : AStarState K) (hdone : st.done = false)
    (hbud : budgetReached cfg.maxSteps st.steps = false)
    (hstat : (stepFn cfg (Stepper.running st)).1.status = AStatus.searching) :
    ∃ st', (stepFn cfg (Stepper.running st)).2 = Stepper.running st' ∧
      st'.done = false ∧ st'.steps = st.steps + 1 := by
  rw [stepFn] at hstat ⊢
  rw [if_neg (by simp [hdone])] at hstat ⊢
  rw [if_neg (by simp [hbud])] at hstat ⊢
  by_cases hheap : st.openHeap.length = 0
  · rw [if_pos hheap] at hstat
    simp at hstat
  · rw [if_neg hheap] at hstat ⊢
    obtain ⟨a, t, hop⟩ : ∃ a t, st.openHeap = a :: t := by
      cases hcs : st.openHeap with
      | nil => rw [hcs] at hheap; simp at hheap
      | cons a t => exact ⟨a, t, rfl⟩
    · have hfst : (heapPop st.openHeap).1 = some a.1 := by
        rw [hop]; exact heapPop_fst a t
      have hpop : heapPop st.openHeap = (some a.1, (heapPop st.openHeap).2) := by
        exact Prod.ext hfst rfl
      rw [hpop] at hstat ⊢
      simp only at hstat ⊢
      by_cases hgoal : a.1 = cfg.goalKey
      · rw [if_pos hgoal] at hstat
        simp at hstat
      · rw [if_neg hgoal] at hstat ⊢
        refine ⟨_, rfl, ?_, ?_⟩
        · exact ((relaxFold_preserves cfg a.1 (cfg.neighbors a.1) _).2.1).trans hdone
        · exact ((relaxFold_preserves cfg a.1 (cfg.neighbors a.1) _).1).trans rfl

/-- C6: with a finite budget `m`, if the first `m` `step()` calls all come
back `searching` (the goal is not found and the frontier does not empty
within the budget), the next call returns the terminal `max-steps` result
whose reported step count is exactly `m`. -/
theorem astar_max_steps_exact {K : Type} [DecidableEq K] (cfg : AStarCfg K)
    (m : Nat) (hm : cfg.maxSteps = some m) (s0 : AStarState K)
    (hrun : makeAStarStepper cfg = Stepper.running s0)
    (hsearch : ∀ k, k < m →
      (stepResultAt cfg (makeAStarStepper cfg) k).status = AStatus.searching) :
    stepResultAt cfg (makeAStarStepper cfg) m =
      { done := true, status := AStatus.maxSteps, steps := some m } := by
  have hs0 : s0.done = false ∧ s0.steps = 0 := by
    unfold makeAStarStepper at hrun
    split at hrun
    · exact absurd hrun (by simp)
    · cases hrun
      exact ⟨rfl, rfl⟩
  have key : ∀ k, k ≤ m →
      ∃ st, stepIter cfg (makeAStarStepper cfg) k = Stepper.running st ∧
        st.done = false ∧ st.steps = k := by
    intro k
    induction k with
    | zero =>
      intro _
      exact ⟨s0, by simpa [stepIter] using hrun, hs0.1, hs0.2⟩
    | succ j ihj =>
      intro hjm
      obtain ⟨st, hit, hdone, hsteps⟩ := ihj (by omega)
      have hstat := hsearch j (by omega)
      rw [stepResultAt, hit] at hstat
      have hbud : budgetReached cfg.maxSteps st.steps = false := by
        rw [hm, hsteps]
        simp [budgetReached]
        omega
      obtain ⟨st', hnext, hdone', hsteps'⟩ :=
        stepFn_searching_advance cfg st hdone hbud hstat
      refine ⟨st', ?_, hdone', by omega⟩
      rw [stepIter, hit]
      exact hnext
  obtain ⟨st, hit, hdone, hsteps⟩ := key m (le_refl m)
  rw [stepResultAt, hit]
  rw [stepFn]
  rw [if_neg (by simp [hdone])]
  rw [if_pos (by rw [hm, hsteps]; simp [budgetReached])]
  rw [hsteps]

/-- Witness for `astar_max_steps_exact`: a two-step budget on a line graph
whose goal is five expansions away; the third call reports `max-steps` with
`steps = 2`. -/
theorem astar_max_steps_exact_witness :
    stepResultAt
        { startKey := 0, goalKey := 5, neighbors := fun k => [k + 1],
          cost := fun _ _ => 1, heuristic := fun _ _ => 0,
          isValidNode := none, maxSteps := some 2 : AStarCfg Nat }
        (makeAStarStepper
          { startKey := 0, goalKey := 5, neighbors := fun k => [k + 1],
            cost := fun _ _ => 1, heuristic := fun _ _ => 0,
            isValidNode := none, maxSteps := some 2 }) 2 =
      { done := true, status := AStatus.maxSteps, steps := some 2 } := by
  apply astar_max_steps_exact _ 2 rfl
    { openHeap := [(0, some 0)], closedSet := [], cameFrom := [],
      gScore := [(0, 0)], fScore := [(0, some 0)], done := false,
      result := none, steps := 0 }
  · decide
  · decide

-- ------------------------------------------------------------------
-- C3: node-cap behavior in buildRoadGraph
-- ------------------------------------------------------------------

/-- `Map.set` then `get` of the same key. -/
theorem alGet_alSet_self {K V : Type} [DecidableEq K] (m : List (K × V))
    (k : K) (v : V) : alGet (alSet m k v) k = some v := by
  induction m with
  | nil => simp [alSet, alGet]
  | cons p rest ih =>
    obtain ⟨k0, v0⟩ := p
    by_cases h : k0 = k
    · simp [alSet, h, alGet]
    · simp only [alSet, if_neg h]
      simpa [alGet, List.find?, h] using ih

/-- `getD` after `set` at the same (in-range) index. -/
theorem listGetD_set_self {α : Type} (l : List α) (i : Nat) (x d : α)
    (h : i < l.length) : (l.set i x).getD i d = x := by
  rw [List.getD_eq_getElem?_getD, List.getElem?_set_self (by omega)]
  rfl

/-- `getD` after `set` at a different index. -/
theorem listGetD_set_ne {α : Type} (l : List α) (i j : Nat) (x d : α)
    (h : i ≠ j) : (l.set i x).getD j d = l.getD j d := by
  rw [List.getD_eq_getElem?_getD, List.getElem?_set_ne h,
    List.getD_eq_getElem?_getD]

/-- After `addEdge(a, b, w)` with `a ≠ b` and `a` in range, row `a` has an
entry for `b` (freshly set, or the kept smaller one). -/
theorem addEdge_adds (st : BuildState) (a b : Nat) (w : Rat) (hab : ¬ a = b)
    (hlen : a < st.adjacencyMaps.length) :
    (alGet ((addEdge st a b w).adjacencyMaps.getD a []) b).isSome = true := by
  unfold addEdge
  rw [if_neg hab]
  dsimp only
  cases halg : alGet (st.adjacencyMaps.getD a []) b with
  | none =>
    simp only [halg]
    split
    · rw [listGetD_set_self _ _ _ _ hlen, alGet_alSet_self]
      rfl
    · rename_i hfalse
      exact absurd trivial hfalse
  | some prev =>
    simp only [halg]
    by_cases hw : w < prev
    · rw [if_pos (decide_eq_true hw)]
      rw [listGetD_set_self _ _ _ _ hlen, alGet_alSet_self]
      rfl
    · rw [if_neg (by simp [hw])]
      rw [halg]
      rfl

/-- `addEdge(a, b, w)` leaves every other source row unchanged. -/
theorem addEdge_other_row (st : BuildState) (a b p : Nat) (w : Rat)
    (hp : ¬ a = p) :
    (addEdge st a b w).adjacencyMaps.getD p [] =
      st.adjacencyMaps.getD p [] := by
  unfold addEdge
  split
  · rfl
  · dsimp only
    split
    · exact listGetD_set_ne _ _ _ _ _ hp
    · rfl

/-- C3 (amended): when the node cap rejects a coordinate, the coordinate is
skipped with the whole state — `prevId` included — left untouched, so the
chain is NOT broken there; consequently a following admitted coordinate that
resolves to an existing node `q ≠ prevId` links `prevId` directly to `q`
with an edge, bridging the skipped coordinate. -/
theorem processCoord_cap_spec (step : Rat) (maxNodes : Nat)
    (bounds : Option RGBounds) (dist : RGNode → RGNode → Rat)
    (st : BuildState) (lon lat : Rat) :
    (inBounds lat lon bounds = true →
      alGet st.nodeIndex (quantKey step lat lon) = none →
      st.nodes.length ≥ maxNodes →
      processCoord step maxNodes bounds dist Oneway.no st (some (lon, lat)) = st) ∧
    (∀ p q : Nat, inBounds lat lon bounds = true →
      alGet st.nodeIndex (quantKey step lat lon) = some q →
      st.prevId = some p → ¬ p = q → p < st.adjacencyMaps.length →
      (alGet
          (((processCoord step maxNodes bounds dist Oneway.no st
            (some (lon, lat))).adjacencyMaps.getD p []) ) q).isSome = true ∧
      (processCoord step maxNodes bounds dist Oneway.no st
        (some (lon, lat))).prevId = some q) := by
  constructor
  · intro hib hkey hcap
    unfold processCoord
    dsimp only
    rw [if_neg (by simp [hib])]
    unfold getNodeId
    dsimp only
    rw [hkey]
    dsimp only
    rw [if_pos hcap]
  · intro p q hib hkey hprev hpq hlen
    unfold processCoord
    dsimp only
    rw [if_neg (by simp [hib])]
    unfold getNodeId
    dsimp only
    rw [hkey]
    dsimp only
    cases hnq : st.nodes.get? q with
    | some nodeq =>
      simp only [hprev]
      rw [if_neg hpq]
      constructor
      · rw [addEdge_other_row _ q p p _ (fun h => hpq h.symm)]
        exact addEdge_adds _ p q _ hpq hlen
      · trivial
    | none =>
      simp only [hprev]
      rw [if_neg hpq]
      constructor
      · rw [addEdge_other_row _ q p p _ (fun h => hpq h.symm)]
        exact addEdge_adds _ p q _ hpq hlen
      · trivial

/-- Witness for `processCoord_cap_spec`: a capped fresh coordinate is a
no-op, and an admitted coordinate after it links back to the retained
`prevId`. -/
theorem processCoord_cap_spec_witness :
    processCoord 1 2 none (fun _ _ => 1) Oneway.no
        { nodeIndex := [((0, 0), 0), ((0, 1), 1)],
          nodes := [{ id := 0, lat := 0, lon := 0, count := 1 },
                    { id := 1, lat := 0, lon := 1, count := 1 }],
          adjacencyMaps := [[], []], prevId := some 0 }
        (some (5, 0)) =
      { nodeIndex := [((0, 0), 0), ((0, 1), 1)],
        nodes := [{ id := 0, lat := 0, lon := 0, count := 1 },
                  { id := 1, lat := 0, lon := 1, count := 1 }],
        adjacencyMaps := [[], []], prevId := some 0 } ∧
    (alGet
        ((processCoord 1 2 none (fun _ _ => 1) Oneway.no
          { nodeIndex := [((0, 0), 0), ((0, 1), 1)],
            nodes := [{ id := 0, lat := 0, lon := 0, count := 1 },
                      { id := 1, lat := 0, lon := 1, count := 1 }],
            adjacencyMaps := [[], []], prevId := some 0 }
          (some (1, 0))).adjacencyMaps.getD 0 []) 1).isSome = true := by
  constructor
  · exact (processCoord_cap_spec 1 2 none (fun _ _ => 1)
      { nodeIndex := [((0, 0), 0), ((0, 1), 1)],
        nodes := [{ id := 0, lat := 0, lon := 0, count := 1 },
                  { id := 1, lat := 0, lon := 1, count := 1 }],
        adjacencyMaps := [[], []], prevId := some 0 } 5 0).1
      (by decide) (by decide) (by decide)
  · exact ((processCoord_cap_spec 1 2 none (fun _ _ => 1)
      { nodeIndex := [((0, 0), 0), ((0, 1), 1)],
        nodes := [{ id := 0, lat := 0, lon := 0, count := 1 },
                  { id := 1, lat := 0, lon := 1, count := 1 }],
        adjacencyMaps := [[], []], prevId := some 0 } 1 0).2 0 1
      (by decide) (by decide) rfl (by decide) (by decide)).1

/-- C3: concrete refutation on `buildRoadGraph` itself. The second line's
middle coordinate `(3,0)` needs a new node with the cap already reached, so
it is skipped — and an edge IS created between the nodes of its two
neighbors `(2,0)` (node 2) and `(1,0)` (node 1), which the claim forbids. -/
theorem buildRoadGraph_cap_bridges_counterexample :
    alGet
        ((buildRoadGraph (fun _ _ => 1)
          [{ coords := [some (0, 0), some (1, 0)], oneway := Oneway.no },
           { coords := [some (2, 0), some (3, 0), some (1, 0)],
             oneway := Oneway.no }]
          { toleranceMeters := 111320, bounds := none, maxNodes := 3,
            contract := false }).costMaps.getD 2 []) 1 = some 1 := by
  decide

-- ------------------------------------------------------------------
-- C4: shortcut installation is strict-improvement only
-- ------------------------------------------------------------------

/-- A successful `findIdx?` (with accumulator `s`) lands inside the list. -/
theorem findIdxQ_bounds {α : Type} (p : α → Bool) :
    ∀ (l : List α) (s i : Nat), List.findIdx? p l s = some i →
      s ≤ i ∧ i - s < l.length := by
  intro l
  induction l with
  | nil => intro s i h; simp [List.findIdx?] at h
  | cons x xs ih =>
    intro s i h
    rw [List.findIdx?_cons] at h
    by_cases hp : p x = true
    · rw [if_pos hp] at h
      cases h
      simp
    · rw [if_neg hp] at h
      have := ih (s + 1) i h
      constructor
      · omega
      · simp only [List.length_cons]
        omega

/-- When the new weight strictly improves on the existing direct edge (or
none exists), `installShortcut` records the new weight in the cost map and
puts the via-carrying entry into the adjacency row; `contracted` is not
touched. -/
theorem installShortcut_installs (st : CGState) (A B : Nat) (w : Rat)
    (via : List (Rat × Rat)) (hAc : A < st.costMaps.length)
    (hAa : A < st.adjacency.length)
    (himp : alGet (st.costMaps.getD A []) B = none ∨
      ∃ e, alGet (st.costMaps.getD A []) B = some e ∧ w < e) :
    alGet ((installShortcut st A B w via).costMaps.getD A []) B = some w ∧
    ({ «to» := B, weight := w, via := some via } : RGEdge) ∈
      (installShortcut st A B w via).adjacency.getD A [] ∧
    (installShortcut st A B w via).contracted = st.contracted := by
  unfold installShortcut
  have himpb :
      (match alGet (st.costMaps.getD A []) B with
        | none => true
        | some e => decide (w < e)) = true := by
    rcases himp with h | ⟨e, he, hw⟩
    · rw [h]
    · rw [he]
      exact decide_eq_true hw
  rw [if_pos himpb]
  refine ⟨?_, ?_, rfl⟩
  · rw [listGetD_set_self _ _ _ _ hAc]
    exact alGet_alSet_self _ _ _
  · rw [listGetD_set_self _ _ _ _ hAa]
    cases hf : (st.adjacency.getD A []).findIdx? (fun e => e.to = B) with
    | none => simp
    | some idx =>
      simp only
      have hidx := findIdxQ_bounds _ _ 0 idx hf
      exact List.mem_set _ idx (by omega) _

/-- When an existing direct edge is at least as good (ties included),
`installShortcut` changes nothing. -/
theorem installShortcut_keeps (st : CGState) (A B : Nat) (w : Rat)
    (via : List (Rat × Rat))
    (hkeep : ∃ e, alGet (st.costMaps.getD A []) B = some e ∧ ¬ w < e) :
    installShortcut st A B w via = st := by
  unfold installShortcut
  obtain ⟨e, he, hw⟩ := hkeep
  rw [if_neg]
  rw [he]
  simp [hw]

/-- `installShortcut` only writes the row of its source endpoint. -/
theorem installShortcut_other_rows (st : CGState) (A B r : Nat) (w : Rat)
    (via : List (Rat × Rat)) (hr : ¬ A = r) :
    (installShortcut st A B w via).costMaps.getD r [] =
      st.costMaps.getD r [] ∧
    (installShortcut st A B w via).adjacency.getD r [] =
      st.adjacency.getD r [] := by
  unfold installShortcut
  dsimp only
  split
  · exact ⟨listGetD_set_ne _ _ _ _ _ hr, listGetD_set_ne _ _ _ _ _ hr⟩
  · exact ⟨rfl, rfl⟩

/-- `installShortcut` preserves the lengths of the row tables and the
`contracted` set. -/
theorem installShortcut_lengths (st : CGState) (A B : Nat) (w : Rat)
    (via : List (Rat × Rat)) :
    (installShortcut st A B w via).costMaps.length = st.costMaps.length ∧
    (installShortcut st A B w via).adjacency.length = st.adjacency.length ∧
    (installShortcut st A B w via).contracted = st.contracted := by
  unfold installShortcut
  dsimp only
  split <;> simp [List.length_set]


/-- C4 (amended): for a chain `processChain` applies with both endpoints in
range, in each direction that exists the shortcut (with its via-geometry) is
installed exactly when the summed chain weight is strictly less than the
weight of the existing direct edge, or no direct edge exists; on a tie or a
worse sum the endpoint row is left completely unchanged. -/
theorem processChain_install_strict (nodes : List RGNode) (st : CGState)
    (chain : List Nat) (h3 : 3 ≤ chain.length)
    (hAB : ¬ chain.headD 0 = chain.getLastD 0)
    (hAc : chain.headD 0 < st.costMaps.length)
    (hAa : chain.headD 0 < st.adjacency.length)
    (hBc : chain.getLastD 0 < st.costMaps.length)
    (hBa : chain.getLastD 0 < st.adjacency.length) :
    ((pathCheck st.costMaps chain 0).1 = true →
      ((alGet (st.costMaps.getD (chain.headD 0) []) (chain.getLastD 0) = none ∨
          ∃ e, alGet (st.costMaps.getD (chain.headD 0) []) (chain.getLastD 0) =
            some e ∧ (pathCheck st.costMaps chain 0).2 < e) →
        alGet ((processChain nodes st chain).costMaps.getD (chain.headD 0) [])
            (chain.getLastD 0) = some (pathCheck st.costMaps chain 0).2 ∧
        ({ «to» := chain.getLastD 0, weight := (pathCheck st.costMaps chain 0).2,
           via := some (viaOf nodes chain) } : RGEdge) ∈
          (processChain nodes st chain).adjacency.getD (chain.headD 0) []) ∧
      ((∃ e, alGet (st.costMaps.getD (chain.headD 0) []) (chain.getLastD 0) =
          some e ∧ ¬ (pathCheck st.costMaps chain 0).2 < e) →
        (processChain nodes st chain).costMaps.getD (chain.headD 0) [] =
          st.costMaps.getD (chain.headD 0) [] ∧
        (processChain nodes st chain).adjacency.getD (chain.headD 0) [] =
          st.adjacency.getD (chain.headD 0) [])) ∧
    ((pathCheck st.costMaps chain.reverse 0).1 = true →
      ((alGet (st.costMaps.getD (chain.getLastD 0) []) (chain.headD 0) = none ∨
          ∃ e, alGet (st.costMaps.getD (chain.getLastD 0) []) (chain.headD 0) =
            some e ∧ (pathCheck st.costMaps chain.reverse 0).2 < e) →
        alGet ((processChain nodes st chain).costMaps.getD (chain.getLastD 0) [])
            (chain.headD 0) = some (pathCheck st.costMaps chain.reverse 0).2 ∧
        ({ «to» := chain.headD 0,
           weight := (pathCheck st.costMaps chain.reverse 0).2,
           via := some (viaOf nodes chain).reverse } : RGEdge) ∈
          (processChain nodes st chain).adjacency.getD (chain.getLastD 0) []) ∧
      ((∃ e, alGet (st.costMaps.getD (chain.getLastD 0) []) (chain.headD 0) =
          some e ∧ ¬ (pathCheck st.costMaps chain.reverse 0).2 < e) →
        (processChain nodes st chain).costMaps.getD (chain.getLastD 0) [] =
          st.costMaps.getD (chain.getLastD 0) [] ∧
        (processChain nodes st chain).adjacency.getD (chain.getLastD 0) [] =
          st.adjacency.getD (chain.getLastD 0) [])) := by
  have hBA : ¬ chain.getLastD 0 = chain.headD 0 := fun h => hAB h.symm
  unfold processChain
  rw [if_neg (by omega)]
  dsimp only
  rw [if_neg hAB]
  constructor
  · intro hfwd
    rw [if_neg (by simp [hfwd])]
    rw [if_pos hfwd]
    constructor
    · intro himp
      have hinst := installShortcut_installs
        { st with contracted := (interiorOf chain).foldl setAdd st.contracted }
        (chain.headD 0) (chain.getLastD 0) (pathCheck st.costMaps chain 0).2
        (viaOf nodes chain) hAc hAa himp
      cases hrev : (pathCheck st.costMaps chain.reverse 0).1 with
      | false =>
        rw [if_neg (by simp)]
        exact ⟨hinst.1, hinst.2.1⟩
      | true =>
        rw [if_pos rfl]
        have hpres := installShortcut_other_rows
          (installShortcut
            { st with contracted := (interiorOf chain).foldl setAdd st.contracted }
            (chain.headD 0) (chain.getLastD 0) (pathCheck st.costMaps chain 0).2
            (viaOf nodes chain))
          (chain.getLastD 0) (chain.headD 0) (chain.headD 0)
          (pathCheck st.costMaps chain.reverse 0).2
          (viaOf nodes chain).reverse hBA
        rw [hpres.1, hpres.2]
        exact ⟨hinst.1, hinst.2.1⟩
    · intro hkeep
      have hkept := installShortcut_keeps
        { st with contracted := (interiorOf chain).foldl setAdd st.contracted }
        (chain.headD 0) (chain.getLastD 0) (pathCheck st.costMaps chain 0).2
        (viaOf nodes chain) hkeep
      rw [hkept]
      cases hrev : (pathCheck st.costMaps chain.reverse 0).1 with
      | false =>
        rw [if_neg (by simp)]
        exact ⟨rfl, rfl⟩
      | true =>
        rw [if_pos rfl]
        have hpres := installShortcut_other_rows
          { st with contracted := (interiorOf chain).foldl setAdd st.contracted }
          (chain.getLastD 0) (chain.headD 0) (chain.headD 0)
          (pathCheck st.costMaps chain.reverse 0).2
          (viaOf nodes chain).reverse hBA
        exact ⟨hpres.1, hpres.2⟩
  · intro hrev
    rw [if_neg (by simp [hrev])]
    cases hfwd : (pathCheck st.costMaps chain 0).1 with
    | false =>
      rw [if_neg (show ¬(false = true) by simp)]
      rw [if_pos hrev]
      constructor
      · intro himp
        have hinst := installShortcut_installs
          { st with contracted := (interiorOf chain).foldl setAdd st.contracted }
          (chain.getLastD 0) (chain.headD 0)
          (pathCheck st.costMaps chain.reverse 0).2
          (viaOf nodes chain).reverse hBc hBa himp
        exact ⟨hinst.1, hinst.2.1⟩
      · intro hkeep
        have hkept := installShortcut_keeps
          { st with contracted := (interiorOf chain).foldl setAdd st.contracted }
          (chain.getLastD 0) (chain.headD 0)
          (pathCheck st.costMaps chain.reverse 0).2
          (viaOf nodes chain).reverse hkeep
        rw [hkept]
        exact ⟨rfl, rfl⟩
    | true =>
      rw [if_pos rfl, if_pos hrev]
      have hpres := installShortcut_other_rows
        { st with contracted := (interiorOf chain).foldl setAdd st.contracted }
        (chain.headD 0) (chain.getLastD 0) (chain.getLastD 0)
        (pathCheck st.costMaps chain 0).2 (viaOf nodes chain) hAB
      have hlens := installShortcut_lengths
        { st with contracted := (interiorOf chain).foldl setAdd st.contracted }
        (chain.headD 0) (chain.getLastD 0)
        (pathCheck st.costMaps chain 0).2 (viaOf nodes chain)
      constructor
      · intro himp
        have hinst := installShortcut_installs
          (installShortcut
            { st with contracted := (interiorOf chain).foldl setAdd st.contracted }
            (chain.headD 0) (chain.getLastD 0) (pathCheck st.costMaps chain 0).2
            (viaOf nodes chain))
          (chain.getLastD 0) (chain.headD 0)
          (pathCheck st.costMaps chain.reverse 0).2
          (viaOf nodes chain).reverse
          (by rw [hlens.1]; exact hBc)
          (by rw [hlens.2.1]; exact hBa)
          (by rw [hpres.1]; exact himp)
        exact ⟨hinst.1, hinst.2.1⟩
      · intro hkeep
        have hkept := installShortcut_keeps
          (installShortcut
            { st with contracted := (interiorOf chain).foldl setAdd st.contracted }
            (chain.headD 0) (chain.getLastD 0) (pathCheck st.costMaps chain 0).2
            (viaOf nodes chain))
          (chain.getLastD 0) (chain.headD 0)
          (pathCheck st.costMaps chain.reverse 0).2
          (viaOf nodes chain).reverse
          (by rw [hpres.1]; exact hkeep)
        rw [hkept]
        exact ⟨hpres.1, hpres.2⟩

/-- C4: tie counterexample on the full `contractGraph`. The chain
`0–1–2` sums to 2 in both directions and a direct edge of weight 2 exists
both ways; the chain is contracted (`contracted = 1`) but the tie does NOT
replace the direct edge: the surviving `A→B` entry keeps `via := none`
(no shortcut geometry was installed). -/
theorem contractGraph_tie_counterexample :
    pathCheck
        [[(1, 1), (2, 2), (3, 1)], [(0, 1), (2, 1)], [(1, 1), (0, 2), (4, 1)],
         [(0, 1)], [(2, 1)]] [0, 1, 2] 0 = (true, 2) ∧
    (contractGraph
        [{ id := 0, lat := 0, lon := 0, count := 1 },
         { id := 1, lat := 0, lon := 1, count := 1 },
         { id := 2, lat := 0, lon := 2, count := 1 },
         { id := 3, lat := 1, lon := 0, count := 1 },
         { id := 4, lat := 1, lon := 2, count := 1 }]
        [[{ «to» := 1, weight := 1 }, { «to» := 2, weight := 2 },
          { «to» := 3, weight := 1 }],
         [{ «to» := 0, weight := 1 }, { «to» := 2, weight := 1 }],
         [{ «to» := 1, weight := 1 }, { «to» := 0, weight := 2 },
          { «to» := 4, weight := 1 }],
         [{ «to» := 0, weight := 1 }],
         [{ «to» := 2, weight := 1 }]]
        [[(1, 1), (2, 2), (3, 1)], [(0, 1), (2, 1)], [(1, 1), (0, 2), (4, 1)],
         [(0, 1)], [(2, 1)]]).contracted = 1 ∧
    (contractGraph
        [{ id := 0, lat := 0, lon := 0, count := 1 },
         { id := 1, lat := 0, lon := 1, count := 1 },
         { id := 2, lat := 0, lon := 2, count := 1 },
         { id := 3, lat := 1, lon := 0, count := 1 },
         { id := 4, lat := 1, lon := 2, count := 1 }]
        [[{ «to» := 1, weight := 1 }, { «to» := 2, weight := 2 },
          { «to» := 3, weight := 1 }],
         [{ «to» := 0, weight := 1 }, { «to» := 2, weight := 1 }],
         [{ «to» := 1, weight := 1 }, { «to» := 0, weight := 2 },
          { «to» := 4, weight := 1 }],
         [{ «to» := 0, weight := 1 }],
         [{ «to» := 2, weight := 1 }]]
        [[(1, 1), (2, 2), (3, 1)], [(0, 1), (2, 1)], [(1, 1), (0, 2), (4, 1)],
         [(0, 1)], [(2, 1)]]).adjacency.getD 0 [] =
      [{ «to» := 1, weight := 2, via := none },
       { «to» := 2, weight := 1, via := none }] := by
  refine ⟨by decide, by decide, by decide⟩

/-- Witness for `processChain_install_strict`: a strict improvement (no
pre-existing direct edge) installs the via-carrying shortcut of the summed
weight. -/
theorem processChain_install_strict_witness :
    alGet
        ((processChain
          [{ id := 0, lat := 0, lon := 0, count := 1 },
           { id := 1, lat := 0, lon := 1, count := 1 },
           { id := 2, lat := 0, lon := 2, count := 1 }]
          { adjacency :=
              [[{ «to» := 1, weight := 1 }],
               [{ «to» := 0, weight := 1 }, { «to» := 2, weight := 1 }],
               [{ «to» := 1, weight := 1 }]]
            costMaps := [[(1, 1)], [(0, 1), (2, 1)], [(1, 1)]]
            contracted := [] }
          [0, 1, 2]).costMaps.getD 0 []) 2 = some 2 := by
  exact (((processChain_install_strict
    [{ id := 0, lat := 0, lon := 0, count := 1 },
     { id := 1, lat := 0, lon := 1, count := 1 },
     { id := 2, lat := 0, lon := 2, count := 1 }]
    { adjacency :=
        [[{ «to» := 1, weight := 1 }],
         [{ «to» := 0, weight := 1 }, { «to» := 2, weight := 1 }],
         [{ «to» := 1, weight := 1 }]]
      costMaps := [[(1, 1)], [(0, 1), (2, 1)], [(1, 1)]]
      contracted := [] }
    [0, 1, 2] (by decide) (by decide) (by decide) (by decide) (by decide)
    (by decide)).1 (by decide)).1 (Or.inl (by decide))).1

-- ------------------------------------------------------------------
-- Chain-collection structure lemmas (shared by C9, C2, C1)
-- ------------------------------------------------------------------

/-- `setAdd` never empties and adds exactly the new element. -/
theorem mem_setAdd {K : Type} [DecidableEq K] (s : List K) (x y : K) :
    (y ∈ setAdd s x) ↔ (y ∈ s ∨ y = x) := by
  unfold setAdd
  split
  · rename_i hx
    constructor
    · exact fun h => Or.inl h
    · rintro (h | rfl)
      · exact h
      · exact hx
  · simp

/-- Folding `setAdd` adds exactly the folded elements. -/
theorem mem_foldl_setAdd {K : Type} [DecidableEq K] (l : List K) :
    ∀ (s : List K) (y : K), (y ∈ l.foldl setAdd s) ↔ (y ∈ s ∨ y ∈ l) := by
  induction l with
  | nil => simp
  | cons x xs ih =>
    intro s y
    rw [List.foldl_cons, ih, mem_setAdd]
    constructor
    · rintro ((h | rfl) | h)
      · exact Or.inl h
      · simp
      · simp [h]
    · rintro (h | h)
      · exact Or.inl (Or.inl h)
      · rcases List.mem_cons.mp h with rfl | h
        · exact Or.inl (Or.inr rfl)
        · exact Or.inr h

/-- `setAdd` is never empty. -/
theorem setAdd_ne_nil {K : Type} [DecidableEq K] (s : List K) (x : K) :
    setAdd s x ≠ [] := by
  unfold setAdd
  split
  · rename_i hx
    intro h
    rw [h] at hx
    exact absurd hx (List.not_mem_nil x)
  · simp

/-- A fold of `setAdd` is empty only if both inputs were. -/
theorem foldl_setAdd_eq_nil {K : Type} [DecidableEq K] (l : List K) :
    ∀ s : List K, l.foldl setAdd s = [] → s = [] ∧ l = [] := by
  induction l with
  | nil => exact fun s h => ⟨h, rfl⟩
  | cons x xs ih =>
    intro s h
    rw [List.foldl_cons] at h
    have := (ih _ h).1
    exact absurd this (setAdd_ne_nil s x)

/-- An in-range `getD` read is a member. -/
theorem listGetD_mem {α : Type} (l : List α) (i : Nat) (d : α)
    (h : i < l.length) : l.getD i d ∈ l := by
  rw [List.getD_eq_getElem?_getD, List.getElem?_eq_getElem h]
  simpa using List.getElem_mem h

/-- Any element of the walk's output except the last satisfied the loop
guard (degree 2), and the last did not; the output extends the accumulated
chain, whose last element is the walk cursor. -/
theorem walkChainGo_spec (u : List (List Nat)) (start : Nat) :
    ∀ (fuel : Nat) (chain : List Nat) (prev cur : Nat) (c : List Nat),
      chain ≠ [] → chain.getLastD 0 = cur →
      (∀ x ∈ chain.dropLast, isDegree2 u x = true) →
      walkChainGo u [] start fuel chain prev cur = some c →
      c ≠ [] ∧ (∀ x ∈ c.dropLast, isDegree2 u x = true) ∧
        isDegree2 u (c.getLastD 0) = false ∧
        (∀ x ∈ c, x ∈ chain ∨ ∃ j, x ∈ u.getD j []) ∧
        (∃ rest, c = chain ++ rest) := by
  intro fuel
  induction fuel with
  | zero =>
    intro chain prev cur c _ _ _ h
    simp [walkChainGo] at h
  | succ f ih =>
    intro chain prev cur c hne hlast hdeg h
    rw [walkChainGo] at h
    by_cases hcur : isDegree2 u cur = true
    · rw [if_pos (by simpa using hcur)] at h
      dsimp only at h
      by_cases hst : otherNeighbor (u.getD cur []) prev = start
      · rw [if_pos hst] at h
        cases h
      · rw [if_neg hst] at h
        have hch : (chain ++ [otherNeighbor (u.getD cur []) prev]) ≠ [] := by
          simp
        have hlast' : (chain ++ [otherNeighbor (u.getD cur []) prev]).getLastD 0 =
            otherNeighbor (u.getD cur []) prev := by
          simp [List.getLastD_eq_getLast?]
        have hsplit : ∀ x ∈ chain, x ∈ chain.dropLast ∨ x = chain.getLastD 0 := by
          intro x hx
          rcases List.eq_nil_or_concat chain with rfl | ⟨l, b, rfl⟩
          · cases hx
          · rw [List.concat_eq_append] at hx ⊢
            rw [List.dropLast_concat]
            rcases List.mem_append.mp hx with h | h
            · exact Or.inl h
            · right
              rw [List.mem_singleton] at h
              rw [h]
              simp [List.getLastD_eq_getLast?]
        have hdeg' : ∀ x ∈ (chain ++ [otherNeighbor (u.getD cur []) prev]).dropLast,
            isDegree2 u x = true := by
          rw [List.dropLast_concat]
          intro x hx
          rcases hsplit x hx with h | h
          · exact hdeg x h
          · rw [h, hlast]
            exact hcur
        obtain ⟨hc1, hc2, hc3, hc4, rest, hc5⟩ := ih _ cur _ c hch hlast' hdeg' h
        refine ⟨hc1, hc2, hc3, ?_, ?_⟩
        · intro x hx
          rcases hc4 x hx with hin | hu
          · rcases List.mem_append.mp hin with hl | hr
            · exact Or.inl hl
            · rcases List.mem_singleton.mp hr with rfl
              unfold otherNeighbor
              right
              refine ⟨cur, ?_⟩
              have hlen : (u.getD cur []).length = 2 := by
                simpa [isDegree2] using hcur
              split
              · exact listGetD_mem _ _ _ (by omega)
              · exact listGetD_mem _ _ _ (by omega)
          · exact Or.inr hu
        · refine ⟨otherNeighbor (u.getD cur []) prev :: rest, ?_⟩
          rw [hc5]
          simp
    · rw [if_neg (by simpa using hcur)] at h
      cases h
      refine ⟨hne, hdeg, ?_, fun x hx => Or.inl hx, ⟨[], by simp⟩⟩
      rw [hlast]
      simpa using hcur

/-- `headD` of an append with non-empty left part. -/
theorem listHeadD_append {α : Type} (A B : List α) (d : α) (h : A ≠ []) :
    (A ++ B).headD d = A.headD d := by
  cases A with
  | nil => exact absurd rfl h
  | cons a t => rfl

/-- `getLast?` survives dropping the first element of a length-≥-2 list. -/
theorem getLastQ_drop_one {α : Type} (l : List α) (h : 2 ≤ l.length) :
    (l.drop 1).getLast? = l.getLast? := by
  cases l with
  | nil => simp at h
  | cons c rest =>
    simp only [List.drop_succ_cons, List.drop_zero]
    have hr : rest ≠ [] := by
      intro he
      rw [he] at h
      simp at h
    rw [show c :: rest = [c] ++ rest from rfl, List.getLast?_append]
    cases hg : rest.getLast? with
    | none => exact absurd (List.getLast?_eq_none_iff.mp hg) hr
    | some x => rfl

/-- Elements surviving both a front drop and a back drop are interior. -/
theorem mem_dropLast_drop_one {α : Type} (l : List α) (x : α)
    (h : x ∈ (l.drop 1).dropLast) : x ∈ l.dropLast := by
  cases l with
  | nil => simp at h
  | cons c rest =>
    simp only [List.drop_succ_cons, List.drop_zero] at h
    have hr : rest ≠ [] := by
      intro he
      rw [he] at h
      simp at h
    cases rest with
    | nil => exact absurd rfl hr
    | cons r0 rrest =>
      rw [List.dropLast_cons₂]
      exact List.mem_cons_of_mem _ h

/-- Every chain `collectStep` appends joins two degree-2 walks: its length is
at least 3, its interior is all degree-2, its two ends are not degree-2, and
its nodes are in range. -/
theorem collectStep_new_chain (u : List (List Nat)) (n : Nat)
    (hub : ∀ j, ∀ x ∈ u.getD j [], x < n) (i : Nat) (hi : i < n)
    (cs : CollectState) :
    ∀ c ∈ (collectStep u cs i).chains, c ∈ cs.chains ∨
      (3 ≤ c.length ∧
       (∀ x ∈ interiorOf c, isDegree2 u x = true) ∧
       isDegree2 u (c.headD 0) = false ∧
       isDegree2 u (c.getLastD 0) = false ∧
       (∀ x ∈ c, x < n)) := by
  intro c hc
  unfold collectStep at hc
  split at hc
  case isFalse => exact Or.inl hc
  case isTrue hcond =>
    dsimp only at hc
    rcases hca : walkChain u [] i ((u.getD i []).getD 0 0) with _ | ca <;>
      rcases hcb : walkChain u [] i ((u.getD i []).getD 1 0) with _ | cb <;>
        rw [hca, hcb] at hc
    · exact Or.inl hc
    · exact Or.inl hc
    · exact Or.inl hc
    · dsimp only at hc
      rcases List.mem_append.mp hc with hold | hnew
      · exact Or.inl hold
      · right
        rcases List.mem_singleton.mp hnew with rfl
        have hdegi : isDegree2 u i = true := by
          have := hcond.1
          simpa using this
        have hulen : (u.getD i []).length = 2 := by
          simpa [isDegree2] using hdegi
        have hA := walkChainGo_spec u i (u.length + 1)
          [i, (u.getD i []).getD 0 0] i ((u.getD i []).getD 0 0) ca
          (by simp) (by rfl)
          (by
            intro x hx
            simp only [List.dropLast_cons₂, List.dropLast_single] at hx
            rcases List.mem_singleton.mp hx with rfl
            exact hdegi)
          hca
        have hB := walkChainGo_spec u i (u.length + 1)
          [i, (u.getD i []).getD 1 0] i ((u.getD i []).getD 1 0) cb
          (by simp) (by rfl)
          (by
            intro x hx
            simp only [List.dropLast_cons₂, List.dropLast_single] at hx
            rcases List.mem_singleton.mp hx with rfl
            exact hdegi)
          hcb
        obtain ⟨hA1, hA2, hA3, hA4, restA, hA5⟩ := hA
        obtain ⟨hB1, hB2, hB3, hB4, restB, hB5⟩ := hB
        have hlenA : 2 ≤ ca.length := by
          rw [hA5]
          simp
        have hlenB : 2 ≤ cb.length := by
          rw [hB5]
          simp
        have hBdrop : cb.drop 1 ≠ [] := by
          intro he
          have := congrArg List.length he
          simp at this
          omega
        have hArev : ca.reverse ≠ [] := by
          simp
          intro he
          rw [he] at hlenA
          simp at hlenA
        refine ⟨?_, ?_, ?_, ?_, ?_⟩
        · simp only [List.length_append, List.length_reverse, List.length_drop]
          omega
        · intro x hx
          obtain ⟨a, tA, hcons⟩ : ∃ a tA, ca.reverse = a :: tA := by
            cases hr : ca.reverse with
            | nil => exact absurd hr hArev
            | cons a tA => exact ⟨a, tA, rfl⟩
          have htA : tA = ca.dropLast.reverse := by
            have := List.tail_reverse ca
            rw [hcons] at this
            simpa using this
          have hfull1 : (ca.reverse ++ cb.drop 1).drop 1 = tA ++ cb.drop 1 := by
            rw [hcons]
            simp
          unfold interiorOf at hx
          rw [hfull1, List.dropLast_append_of_ne_nil _ hBdrop] at hx
          rcases List.mem_append.mp hx with hl | hr
          · rw [htA] at hl
            exact hA2 x (List.mem_reverse.mp hl)
          · exact hB2 x (mem_dropLast_drop_one cb x hr)
        · rw [listHeadD_append _ _ _ hArev, List.headD_eq_head?,
            List.head?_reverse, ← List.getLastD_eq_getLast?]
          exact hA3
        · rw [List.getLastD_eq_getLast?, List.getLast?_append,
            getLastQ_drop_one cb hlenB]
          cases hg : cb.getLast? with
          | none =>
            exact absurd (List.getLast?_eq_none_iff.mp hg)
              (by
                intro he
                rw [he] at hlenB
                simp at hlenB)
          | some x =>
            simp only [Option.or_some, Option.getD_some]
            have := hB3
            rw [List.getLastD_eq_getLast?, hg] at this
            simpa using this
        · intro x hx
          have hmem : x ∈ ca ∨ x ∈ cb := by
            rcases List.mem_append.mp hx with hl | hr
            · exact Or.inl (List.mem_reverse.mp hl)
            · exact Or.inr (List.mem_of_mem_drop hr)
          have hcase : (x ∈ ([i, (u.getD i []).getD 0 0] : List Nat) ∨
              ∃ j, x ∈ u.getD j []) ∨
              (x ∈ ([i, (u.getD i []).getD 1 0] : List Nat) ∨
              ∃ j, x ∈ u.getD j []) := by
            rcases hmem with h | h
            · exact Or.inl (hA4 x h)
            · exact Or.inr (hB4 x h)
          have hnb : ∀ k, k < 2 → (u.getD i []).getD k 0 < n := by
            intro k hk
            exact hub i _ (listGetD_mem (u.getD i []) k 0 (by omega))
          rcases hcase with (h | ⟨j, hj⟩) | (h | ⟨j, hj⟩)
          · rcases List.mem_cons.mp h with rfl | h
            · exact hi
            · rcases List.mem_singleton.mp h with rfl
              exact hnb 0 (by omega)
          · exact hub j x hj
          · rcases List.mem_cons.mp h with rfl | h
            · exact hi
            · rcases List.mem_singleton.mp h with rfl
              exact hnb 1 (by omega)
          · exact hub j x hj

/-- Characterization of every chain `contractGraph` collects. -/
theorem collectChains_spec (n : Nat) (u : List (List Nat))
    (hub : ∀ j, ∀ x ∈ u.getD j [], x < n) :
    ∀ c ∈ collectChains n u,
      3 ≤ c.length ∧
      (∀ x ∈ interiorOf c, isDegree2 u x = true) ∧
      isDegree2 u (c.headD 0) = false ∧
      isDegree2 u (c.getLastD 0) = false ∧
      (∀ x ∈ c, x < n) := by
  have key : ∀ (L : List Nat) (cs : CollectState),
      (∀ i ∈ L, i < n) →
      (∀ c ∈ cs.chains, 3 ≤ c.length ∧
        (∀ x ∈ interiorOf c, isDegree2 u x = true) ∧
        isDegree2 u (c.headD 0) = false ∧
        isDegree2 u (c.getLastD 0) = false ∧
        (∀ x ∈ c, x < n)) →
      ∀ c ∈ (L.foldl (collectStep u) cs).chains, 3 ≤ c.length ∧
        (∀ x ∈ interiorOf c, isDegree2 u x = true) ∧
        isDegree2 u (c.headD 0) = false ∧
        isDegree2 u (c.getLastD 0) = false ∧
        (∀ x ∈ c, x < n) := by
    intro L
    induction L with
    | nil => exact fun cs _ hcs => hcs
    | cons x xs ih =>
      intro cs hL hcs
      rw [List.foldl_cons]
      refine ih _ (fun i hi => hL i (List.mem_cons_of_mem _ hi)) ?_
      intro c hc
      rcases collectStep_new_chain u n hub x (hL x (List.mem_cons_self x xs))
          cs c hc with hold | hnew
      · exact hcs c hold
      · exact hnew
  intro c hc
  exact key (List.range n) _ (fun i hi => List.mem_range.mp hi)
    (fun c hc => absurd hc (List.not_mem_nil c)) c hc

/-- `getD` after an arbitrary `set`: unchanged, or (same in-range index) the
new value. -/
theorem listGetD_set_cases {α : Type} (l : List α) (a j : Nat) (x d : α) :
    (l.set a x).getD j d = l.getD j d ∨
      ((l.set a x).getD j d = x ∧ a = j) := by
  by_cases h : a = j
  · subst h
    by_cases hlen : a < l.length
    · exact Or.inr ⟨listGetD_set_self l a x d hlen, rfl⟩
    · left
      rw [List.set_eq_of_length_le (by omega)]
  · exact Or.inl (listGetD_set_ne l a j x d h)

/-- Entries of `alSet` come from the old map or are the new pair. -/
theorem mem_alSet {K V : Type} [DecidableEq K] (m : List (K × V)) (k : K)
    (v : V) : ∀ kv ∈ alSet m k v, kv ∈ m ∨ kv = (k, v) := by
  induction m with
  | nil =>
    intro kv hkv
    unfold alSet at hkv
    exact Or.inr (List.mem_singleton.mp hkv)
  | cons p rest ih =>
    intro kv hkv
    obtain ⟨k0, v0⟩ := p
    unfold alSet at hkv
    split at hkv
    · rcases List.mem_cons.mp hkv with rfl | h
      · exact Or.inr rfl
      · exact Or.inl (List.mem_cons_of_mem _ h)
    · rcases List.mem_cons.mp hkv with rfl | h
      · exact Or.inl (List.mem_cons_self _ _)
      · rcases ih kv h with h | h
        · exact Or.inl (List.mem_cons_of_mem _ h)
        · exact Or.inr h

/-- Every neighbor recorded by `buildUndirected` is a valid node index. -/
theorem buildUndirected_bound (n : Nat) (adjacency : List (List RGEdge))
    (hadj : ∀ i, ∀ e ∈ adjacency.getD i [], e.to < n) :
    ∀ j, ∀ x ∈ (buildUndirected n adjacency).getD j [], x < n := by
  have hstep : ∀ (i : Nat) (es : List RGEdge) (u : List (List Nat)),
      i < n → (∀ e ∈ es, e.to < n) →
      (∀ j, ∀ x ∈ u.getD j [], x < n) →
      ∀ j, ∀ x ∈ (undirectedAddEdges i u es).getD j [], x < n := by
    intro i es
    induction es with
    | nil => intro u _ _ hu; exact hu
    | cons e rest ih =>
      intro u hi hes hu
      unfold undirectedAddEdges
      rw [List.foldl_cons]
      have hu' : ∀ j, ∀ x ∈
          (((u.set i (setAdd (u.getD i []) e.to))).set e.to
            (setAdd (((u.set i (setAdd (u.getD i []) e.to))).getD e.to [])
              i)).getD j [], x < n := by
        intro j x hx
        rcases listGetD_set_cases (u.set i (setAdd (u.getD i []) e.to)) e.to j
            (setAdd ((u.set i (setAdd (u.getD i []) e.to)).getD e.to []) i)
            [] with hcase | ⟨hcase, _⟩
        · rw [hcase] at hx
          rcases listGetD_set_cases u i j (setAdd (u.getD i []) e.to) []
              with hc2 | ⟨hc2, _⟩
          · rw [hc2] at hx
            exact hu j x hx
          · rw [hc2] at hx
            rcases (mem_setAdd _ _ _).mp hx with h | rfl
            · exact hu i x h
            · exact hes e (List.mem_cons_self _ _)
        · rw [hcase] at hx
          rcases (mem_setAdd _ _ _).mp hx with h | rfl
          · rcases listGetD_set_cases u i e.to (setAdd (u.getD i []) e.to) []
                with hc2 | ⟨hc2, _⟩
            · rw [hc2] at h
              exact hu e.to x h
            · rw [hc2] at h
              rcases (mem_setAdd _ _ _).mp h with h2 | rfl
              · exact hu i x h2
              · exact hes e (List.mem_cons_self _ _)
          · exact hi
      exact ih _ hi (fun e' he' => hes e' (List.mem_cons_of_mem _ he')) hu'
  have hrep : ∀ j, ∀ x ∈ (List.replicate n ([] : List Nat)).getD j [], x < n := by
    intro j x hx
    rcases listGetD_set_cases (List.replicate n ([] : List Nat)) 0 j [] []
        with _ | _
    all_goals
      have : (List.replicate n ([] : List Nat)).getD j [] = [] := by
        rw [List.getD_eq_getElem?_getD]
        cases hg : (List.replicate n ([] : List Nat))[j]? with
        | none => rfl
        | some l =>
          have := List.getElem?_mem hg
          rw [List.eq_of_mem_replicate this]
          rfl
      rw [this] at hx
      exact absurd hx (List.not_mem_nil x)
  have hfold : ∀ (L : List Nat) (u : List (List Nat)),
      (∀ i ∈ L, i < n) → (∀ j, ∀ x ∈ u.getD j [], x < n) →
      ∀ j, ∀ x ∈ (L.foldl (fun u i => undirectedAddEdges i u (adjacency.getD i []))
        u).getD j [], x < n := by
    intro L
    induction L with
    | nil => exact fun u _ hu => hu
    | cons i rest ih =>
      intro u hL hu
      rw [List.foldl_cons]
      exact ih _ (fun k hk => hL k (List.mem_cons_of_mem _ hk))
        (hstep i (adjacency.getD i []) u (hL i (List.mem_cons_self _ _))
          (fun e he => hadj i e he) hu)
  intro j x hx
  exact hfold (List.range n) _ (fun i hi => List.mem_range.mp hi) hrep j x hx

/-- `headD` of a non-empty list is a member. -/
theorem listHeadD_mem {α : Type} (l : List α) (d : α) (h : l ≠ []) :
    l.headD d ∈ l := by
  cases l with
  | nil => exact absurd rfl h
  | cons a t => exact List.mem_cons_self a t

/-- `getLastD` of a non-empty list is a member. -/
theorem listGetLastD_mem {α : Type} (l : List α) (d : α) (h : l ≠ []) :
    l.getLastD d ∈ l := by
  rcases List.eq_nil_or_concat l with rfl | ⟨l', b, rfl⟩
  · exact absurd rfl h
  · rw [List.concat_eq_append, List.getLastD_eq_getLast?, List.getLast?_concat]
    simp

/-- Interior nodes are members of the chain. -/
theorem mem_of_mem_interiorOf (c : List Nat) (x : Nat)
    (hx : x ∈ interiorOf c) : x ∈ c := by
  unfold interiorOf at hx
  exact List.mem_of_mem_drop (List.mem_of_mem_dropLast hx)

/-- `installShortcut` keeps the row tables' lengths, keeps all edge targets
and cost keys below `n` provided the new target is, and never touches
`contracted`. -/
theorem installShortcut_inv (n : Nat) (st : CGState) (A B : Nat) (w : Rat)
    (via : List (Rat × Rat)) (hB : B < n)
    (h1 : st.adjacency.length = n) (h2 : st.costMaps.length = n)
    (h3 : ∀ i, ∀ e ∈ st.adjacency.getD i [], e.to < n)
    (h4 : ∀ i, ∀ kv ∈ st.costMaps.getD i [], kv.1 < n) :
    (installShortcut st A B w via).adjacency.length = n ∧
    (installShortcut st A B w via).costMaps.length = n ∧
    (∀ i, ∀ e ∈ (installShortcut st A B w via).adjacency.getD i [], e.to < n) ∧
    (∀ i, ∀ kv ∈ (installShortcut st A B w via).costMaps.getD i [], kv.1 < n) := by
  unfold installShortcut
  dsimp only
  split
  · refine ⟨by simpa [List.length_set] using h1,
      by simpa [List.length_set] using h2, ?_, ?_⟩
    · intro i e he
      rcases listGetD_set_cases st.adjacency A i _ [] with hc | ⟨hc, _⟩
      · rw [hc] at he
        exact h3 i e he
      · rw [hc] at he
        have hmem : e ∈ st.adjacency.getD A [] ∨
            e = ({ «to» := B, weight := w, via := some via } : RGEdge) := by
          split at he
          · exact List.mem_or_eq_of_mem_set he
          · rcases List.mem_append.mp he with h | h
            · exact Or.inl h
            · exact Or.inr (List.mem_singleton.mp h)
        rcases hmem with h | rfl
        · exact h3 A e h
        · exact hB
    · intro i kv hkv
      rcases listGetD_set_cases st.costMaps A i
          (alSet (st.costMaps.getD A []) B w) [] with hc | ⟨hc, _⟩
      · rw [hc] at hkv
        exact h4 i kv hkv
      · rw [hc] at hkv
        rcases mem_alSet _ B w kv hkv with h | rfl
        · exact h4 A kv h
        · exact hB
  · exact ⟨h1, h2, h3, h4⟩

/-- `processChain` keeps the graph-shape invariants and only ever adds the
chain's interior to `contracted`. -/
theorem processChain_preserves (nodes : List RGNode) (n : Nat) (st : CGState)
    (c : List Nat) (hc : ∀ x ∈ c, x < n)
    (h1 : st.adjacency.length = n) (h2 : st.costMaps.length = n)
    (h3 : ∀ i, ∀ e ∈ st.adjacency.getD i [], e.to < n)
    (h4 : ∀ i, ∀ kv ∈ st.costMaps.getD i [], kv.1 < n) :
    (processChain nodes st c).adjacency.length = n ∧
    (processChain nodes st c).costMaps.length = n ∧
    (∀ i, ∀ e ∈ (processChain nodes st c).adjacency.getD i [], e.to < n) ∧
    (∀ i, ∀ kv ∈ (processChain nodes st c).costMaps.getD i [], kv.1 < n) ∧
    (∀ x ∈ (processChain nodes st c).contracted,
      x ∈ st.contracted ∨ x ∈ interiorOf c) := by
  unfold processChain
  split
  · exact ⟨h1, h2, h3, h4, fun x hx => Or.inl hx⟩
  · dsimp only
    split
    · exact ⟨h1, h2, h3, h4, fun x hx => Or.inl hx⟩
    · split
      · exact ⟨h1, h2, h3, h4, fun x hx => Or.inl hx⟩
      · rename_i hlen3 hAB hsome
        have hcne : c ≠ [] := by
          intro he
          rw [he] at hlen3
          simp at hlen3
        have hA : c.headD 0 < n := hc _ (listHeadD_mem c 0 hcne)
        have hB : c.getLastD 0 < n := hc _ (listGetLastD_mem c 0 hcne)
        have hcontr : ∀ x ∈ (interiorOf c).foldl setAdd st.contracted,
            x ∈ st.contracted ∨ x ∈ interiorOf c :=
          fun x hx => (mem_foldl_setAdd _ _ _).mp hx
        set st1 : CGState :=
          { st with contracted := (interiorOf c).foldl setAdd st.contracted }
          with hst1
        have hInv1 : st1.adjacency.length = n ∧ st1.costMaps.length = n ∧
            (∀ i, ∀ e ∈ st1.adjacency.getD i [], e.to < n) ∧
            (∀ i, ∀ kv ∈ st1.costMaps.getD i [], kv.1 < n) :=
          ⟨h1, h2, h3, h4⟩
        cases hfwd : (pathCheck st.costMaps c 0).1 with
        | false =>
          rw [if_neg (show ¬(false = true) by simp)]
          cases hrev : (pathCheck st.costMaps c.reverse 0).1 with
          | false =>
            rw [if_neg (show ¬(false = true) by simp)]
            exact ⟨hInv1.1, hInv1.2.1, hInv1.2.2.1, hInv1.2.2.2, hcontr⟩
          | true =>
            rw [if_pos rfl]
            have hi := installShortcut_inv n st1 (c.getLastD 0) (c.headD 0)
              (pathCheck st.costMaps c.reverse 0).2 (viaOf nodes c).reverse hA
              hInv1.1 hInv1.2.1 hInv1.2.2.1 hInv1.2.2.2
            have hcon := (installShortcut_lengths st1 (c.getLastD 0)
              (c.headD 0) (pathCheck st.costMaps c.reverse 0).2
              (viaOf nodes c).reverse).2.2
            refine ⟨hi.1, hi.2.1, hi.2.2.1, hi.2.2.2, ?_⟩
            rw [hcon]
            exact hcontr
        | true =>
          rw [if_pos rfl]
          have hi1 := installShortcut_inv n st1 (c.headD 0) (c.getLastD 0)
            (pathCheck st.costMaps c 0).2 (viaOf nodes c) hB
            hInv1.1 hInv1.2.1 hInv1.2.2.1 hInv1.2.2.2
          have hcon1 := (installShortcut_lengths st1 (c.headD 0)
            (c.getLastD 0) (pathCheck st.costMaps c 0).2 (viaOf nodes c)).2.2
          cases hrev : (pathCheck st.costMaps c.reverse 0).1 with
          | false =>
            rw [if_neg (show ¬(false = true) by simp)]
            refine ⟨hi1.1, hi1.2.1, hi1.2.2.1, hi1.2.2.2, ?_⟩
            rw [hcon1]
            exact hcontr
          | true =>
            rw [if_pos rfl]
            have hi2 := installShortcut_inv n
              (installShortcut st1 (c.headD 0) (c.getLastD 0)
                (pathCheck st.costMaps c 0).2 (viaOf nodes c))
              (c.getLastD 0) (c.headD 0)
              (pathCheck st.costMaps c.reverse 0).2 (viaOf nodes c).reverse hA
              hi1.1 hi1.2.1 hi1.2.2.1 hi1.2.2.2
            have hcon2 := (installShortcut_lengths
              (installShortcut st1 (c.headD 0) (c.getLastD 0)
                (pathCheck st.costMaps c 0).2 (viaOf nodes c))
              (c.getLastD 0)
              (c.headD 0) (pathCheck st.costMaps c.reverse 0).2
              (viaOf nodes c).reverse).2.2
            refine ⟨hi2.1, hi2.2.1, hi2.2.2.1, hi2.2.2.2, ?_⟩
            rw [hcon2, hcon1]
            exact hcontr

/-- The whole chain-application pass keeps the graph-shape invariants, and
everything it contracts is the interior of some collected chain. -/
theorem foldProcess_spec (nodes : List RGNode) (n : Nat)
    (chains : List (List Nat))
    (hchains : ∀ c ∈ chains, ∀ x ∈ c, x < n) :
    ∀ st : CGState,
      st.adjacency.length = n → st.costMaps.length = n →
      (∀ i, ∀ e ∈ st.adjacency.getD i [], e.to < n) →
      (∀ i, ∀ kv ∈ st.costMaps.getD i [], kv.1 < n) →
      (chains.foldl (processChain nodes) st).adjacency.length = n ∧
      (chains.foldl (processChain nodes) st).costMaps.length = n ∧
      (∀ i, ∀ e ∈ (chains.foldl (processChain nodes) st).adjacency.getD i [],
        e.to < n) ∧
      (∀ i, ∀ kv ∈ (chains.foldl (processChain nodes) st).costMaps.getD i [],
        kv.1 < n) ∧
      (∀ x ∈ (chains.foldl (processChain nodes) st).contracted,
        x ∈ st.contracted ∨ ∃ c ∈ chains, x ∈ interiorOf c) := by
  induction chains with
  | nil =>
    intro st h1 h2 h3 h4
    exact ⟨h1, h2, h3, h4, fun x hx => Or.inl hx⟩
  | cons c cs ih =>
    intro st h1 h2 h3 h4
    rw [List.foldl_cons]
    have hstep := processChain_preserves nodes n st c
      (hchains c (List.mem_cons_self _ _)) h1 h2 h3 h4
    have hrec := ih (fun c' hc' => hchains c' (List.mem_cons_of_mem _ hc'))
      (processChain nodes st c) hstep.1 hstep.2.1 hstep.2.2.1 hstep.2.2.2.1
    refine ⟨hrec.1, hrec.2.1, hrec.2.2.1, hrec.2.2.2.1, ?_⟩
    intro x hx
    rcases hrec.2.2.2.2 x hx with hin | ⟨c', hc', hint⟩
    · rcases hstep.2.2.2.2 x hin with h | h
      · exact Or.inl h
      · exact Or.inr ⟨c, List.mem_cons_self _ _, h⟩
    · exact Or.inr ⟨c', List.mem_cons_of_mem _ hc', hint⟩


/-- The survivor re-indexing: every slot of `oldToNew` stays below the new
node count, the re-issued ids are dense, and every uncontracted input node
reappears with its position data. -/
theorem reindexNodes_spec (nodes : List RGNode) (contracted : List Nat) :
    (∀ k, (reindexNodes nodes contracted).1.getD k (-1) <
      ((reindexNodes nodes contracted).2.length : Int)) ∧
    (∀ j e, (reindexNodes nodes contracted).2.get? j = some e → e.id = j) ∧
    (∀ v, v ∈ List.range nodes.length → v ∉ contracted →
      ∃ j e, (reindexNodes nodes contracted).2.get? j = some e ∧
        e.lat = (nodes.getD v dummyNode).lat ∧
        e.lon = (nodes.getD v dummyNode).lon ∧
        e.count = (nodes.getD v dummyNode).count) := by
  have key : ∀ (L : List Nat) (acc : List Int × List RGNode),
      (∀ k, acc.1.getD k (-1) < (acc.2.length : Int)) →
      (∀ j e, acc.2.get? j = some e → e.id = j) →
      (∀ k, (L.foldl (reindexStep nodes contracted) acc).1.getD k (-1) <
        ((L.foldl (reindexStep nodes contracted) acc).2.length : Int)) ∧
      (∀ j e, (L.foldl (reindexStep nodes contracted) acc).2.get? j = some e →
        e.id = j) ∧
      (∀ j e, acc.2.get? j = some e →
        (L.foldl (reindexStep nodes contracted) acc).2.get? j = some e) ∧
      (∀ v, v ∈ L → v ∉ contracted →
        ∃ j e, (L.foldl (reindexStep nodes contracted) acc).2.get? j = some e ∧
          e.lat = (nodes.getD v dummyNode).lat ∧
          e.lon = (nodes.getD v dummyNode).lon ∧
          e.count = (nodes.getD v dummyNode).count) := by
    intro L
    induction L with
    | nil =>
      intro acc hb hid
      exact ⟨hb, hid, fun j e he => he,
        fun v hv => absurd hv (List.not_mem_nil v)⟩
    | cons i rest ih =>
      intro acc hb hid
      rw [List.foldl_cons]
      by_cases hc : i ∈ contracted
      · rw [show reindexStep nodes contracted acc i = acc by
          unfold reindexStep; rw [if_pos hc]]
        have hr := ih acc hb hid
        refine ⟨hr.1, hr.2.1, hr.2.2.1, ?_⟩
        intro v hv hvnc
        rcases List.mem_cons.mp hv with rfl | hv'
        · exact absurd hc hvnc
        · exact hr.2.2.2 v hv' hvnc
      · have hstep : reindexStep nodes contracted acc i =
            (acc.1.set i (Int.ofNat acc.2.length),
             acc.2 ++
               [{ id := acc.2.length, lat := (nodes.getD i dummyNode).lat,
                  lon := (nodes.getD i dummyNode).lon,
                  count := (nodes.getD i dummyNode).count }]) := by
          unfold reindexStep
          rw [if_neg hc]
        rw [hstep]
        have hb' : ∀ k,
            ((acc.1.set i (Int.ofNat acc.2.length)).getD k (-1)) <
              ((acc.2 ++
                [({ id := acc.2.length, lat := (nodes.getD i dummyNode).lat,
                    lon := (nodes.getD i dummyNode).lon,
                    count := (nodes.getD i dummyNode).count } : RGNode)]).length : Int) := by
          intro k
          rcases listGetD_set_cases acc.1 i k (Int.ofNat acc.2.length) (-1)
              with h | ⟨h, _⟩
          · rw [h]
            have := hb k
            simp only [List.length_append, List.length_singleton]
            push_cast
            omega
          · rw [h]
            simp only [List.length_append, List.length_singleton,
              Int.ofNat_eq_coe]
            push_cast
            omega
        have hid' : ∀ j e,
            (acc.2 ++
              [({ id := acc.2.length, lat := (nodes.getD i dummyNode).lat,
                  lon := (nodes.getD i dummyNode).lon,
                  count := (nodes.getD i dummyNode).count } : RGNode)]).get? j =
                some e →
            e.id = j := by
          intro j e he
          by_cases hj : j < acc.2.length
          · rw [List.get?_append hj] at he
            exact hid j e he
          · have hjlen : j < acc.2.length + 1 := by
              by_contra hcon
              have : (acc.2 ++
                  [({ id := acc.2.length, lat := (nodes.getD i dummyNode).lat,
                      lon := (nodes.getD i dummyNode).lon,
                      count := (nodes.getD i dummyNode).count } : RGNode)]).get? j =
                  none := by
                rw [List.get?_eq_none]
                simp only [List.length_append, List.length_singleton]
                omega
              rw [this] at he
              cases he
            have hjeq : j = acc.2.length := by omega
            subst hjeq
            rw [List.get?_concat_length] at he
            cases he
            rfl
        have hr := ih
          (acc.1.set i (Int.ofNat acc.2.length),
           acc.2 ++
             [({ id := acc.2.length, lat := (nodes.getD i dummyNode).lat,
                 lon := (nodes.getD i dummyNode).lon,
                 count := (nodes.getD i dummyNode).count } : RGNode)])
          hb' hid'
        refine ⟨hr.1, hr.2.1, ?_, ?_⟩
        · intro j e he
          refine hr.2.2.1 j e ?_
          have hj : j < acc.2.length := by
            by_contra hcon
            have : acc.2.get? j = none := by
              rw [List.get?_eq_none]
              omega
            rw [this] at he
            cases he
          rw [List.get?_append hj]
          exact he
        · intro v hv hvnc
          rcases List.mem_cons.mp hv with rfl | hv'
          · refine ⟨acc.2.length,
              { id := acc.2.length, lat := (nodes.getD v dummyNode).lat,
                lon := (nodes.getD v dummyNode).lon,
                count := (nodes.getD v dummyNode).count },
              hr.2.2.1 _ _ (List.get?_concat_length _ _), rfl, rfl, rfl⟩
          · exact hr.2.2.2 v hv' hvnc
  have hrepb : ∀ k, ((List.replicate nodes.length (-1 : Int)).getD k (-1)) <
      (([] : List RGNode).length : Int) := by
    intro k
    have : (List.replicate nodes.length (-1 : Int)).getD k (-1) = -1 := by
      rw [List.getD_eq_getElem?_getD]
      cases hg : (List.replicate nodes.length (-1 : Int))[k]? with
      | none => rfl
      | some x =>
        have := List.getElem?_mem hg
        rw [List.eq_of_mem_replicate this]
        rfl
    rw [this]
    simp
  have h0 := key (List.range nodes.length)
    (List.replicate nodes.length (-1 : Int), []) hrepb
    (fun j e he => by cases he)
  exact ⟨h0.1, h0.2.1, h0.2.2.2⟩

-- ------------------------------------------------------------------
-- C9: degree-≥3 nodes survive contraction
-- ------------------------------------------------------------------

/-- An in-range `get?` read yields the `getD` value. -/
theorem listGetQ_eq_some_getD {α : Type} (l : List α) (i : Nat) (d : α)
    (h : i < l.length) : l.get? i = some (l.getD i d) := by
  rw [List.get?_eq_getElem?, List.getElem?_eq_getElem h,
    List.getD_eq_getElem?_getD, List.getElem?_eq_getElem h]
  rfl

/-- C9: a node `v` with at least three undirected neighbors is never added
to the contracted set (first conjunct: the application pass, run on the
freshly-initialised state, never contracts it), and a node with `v`'s
position data appears in the node list `contractGraph` returns. -/
theorem contractGraph_degree3_survives (nodes : List RGNode)
    (adjacency : List (List RGEdge)) (costMaps : List (List (Nat × Rat)))
    (v : Nat) (hv : v < nodes.length)
    (hlen1 : adjacency.length = nodes.length)
    (hlen2 : costMaps.length = nodes.length)
    (hedges : ∀ i, i < adjacency.length →
      ∀ e ∈ adjacency.getD i [], e.to < nodes.length)
    (hkeys : ∀ i, i < costMaps.length →
      ∀ kv ∈ costMaps.getD i [], kv.1 < nodes.length)
    (hdeg : 3 ≤ undirectedDegree nodes adjacency v) :
    v ∉ ((collectChains nodes.length
            (buildUndirected nodes.length adjacency)).foldl
          (processChain nodes)
          { adjacency := adjacency, costMaps := costMaps,
            contracted := [] }).contracted ∧
    ∃ j e, (contractGraph nodes adjacency costMaps).nodes.get? j = some e ∧
      e.lat = (nodes.getD v dummyNode).lat ∧
      e.lon = (nodes.getD v dummyNode).lon ∧
      e.count = (nodes.getD v dummyNode).count := by
  have hedges' : ∀ i, ∀ e ∈ adjacency.getD i [], e.to < nodes.length := by
    intro i e he
    by_cases hi : i < adjacency.length
    · exact hedges i hi e he
    · rw [List.getD_eq_default _ _ (by omega)] at he
      exact absurd he (List.not_mem_nil e)
  have hkeys' : ∀ i, ∀ kv ∈ costMaps.getD i [], kv.1 < nodes.length := by
    intro i kv hkv
    by_cases hi : i < costMaps.length
    · exact hkeys i hi kv hkv
    · rw [List.getD_eq_default _ _ (by omega)] at hkv
      exact absurd hkv (List.not_mem_nil kv)
  have hub := buildUndirected_bound nodes.length adjacency hedges'
  have hcc := collectChains_spec nodes.length
    (buildUndirected nodes.length adjacency) hub
  have hchains : ∀ c ∈ collectChains nodes.length
      (buildUndirected nodes.length adjacency), ∀ x ∈ c, x < nodes.length :=
    fun c hc => (hcc c hc).2.2.2.2
  have hF := foldProcess_spec nodes nodes.length
    (collectChains nodes.length (buildUndirected nodes.length adjacency))
    hchains
    { adjacency := adjacency, costMaps := costMaps, contracted := [] }
    hlen1 hlen2 hedges' hkeys'
  have hnc : v ∉ ((collectChains nodes.length
        (buildUndirected nodes.length adjacency)).foldl
      (processChain nodes)
      { adjacency := adjacency, costMaps := costMaps,
        contracted := [] }).contracted := by
    intro hmem
    rcases hF.2.2.2.2 v hmem with h0 | ⟨c, hc, hint⟩
    · exact absurd h0 (List.not_mem_nil v)
    · have hdeg2 : isDegree2
          (buildUndirected nodes.length adjacency) v = true :=
        (hcc c hc).2.1 v hint
      have hlen : ((buildUndirected nodes.length adjacency).getD v []).length
          = 2 := by
        simpa [isDegree2] using hdeg2
      unfold undirectedDegree at hdeg
      omega
  refine ⟨hnc, ?_⟩
  unfold contractGraph
  dsimp only
  split
  case isTrue h =>
    exact ⟨v, nodes.getD v dummyNode,
      listGetQ_eq_some_getD nodes v dummyNode hv, rfl, rfl, rfl⟩
  case isFalse h =>
    exact (reindexNodes_spec nodes _).2.2 v (List.mem_range.mpr hv) hnc

/-- Witness for `contractGraph_degree3_survives`: the centre of a 3-leaf
star (undirected degree 3) is never contracted and survives in the output
node list. -/
theorem contractGraph_degree3_survives_witness :
    0 ∉ ((collectChains
            ([{ id := 0, lat := 0, lon := 0, count := 1 },
              { id := 1, lat := 1, lon := 0, count := 1 },
              { id := 2, lat := 0, lon := 1, count := 1 },
              { id := 3, lat := 1, lon := 1, count := 1 }] : List RGNode).length
            (buildUndirected
              ([{ id := 0, lat := 0, lon := 0, count := 1 },
                { id := 1, lat := 1, lon := 0, count := 1 },
                { id := 2, lat := 0, lon := 1, count := 1 },
                { id := 3, lat := 1, lon := 1, count := 1 }] : List RGNode).length
              [[{ «to» := 1, weight := 1 }, { «to» := 2, weight := 1 },
                { «to» := 3, weight := 1 }],
               [{ «to» := 0, weight := 1 }],
               [{ «to» := 0, weight := 1 }],
               [{ «to» := 0, weight := 1 }]])).foldl
          (processChain
            [{ id := 0, lat := 0, lon := 0, count := 1 },
             { id := 1, lat := 1, lon := 0, count := 1 },
             { id := 2, lat := 0, lon := 1, count := 1 },
             { id := 3, lat := 1, lon := 1, count := 1 }])
          { adjacency :=
              [[{ «to» := 1, weight := 1 }, { «to» := 2, weight := 1 },
                { «to» := 3, weight := 1 }],
               [{ «to» := 0, weight := 1 }],
               [{ «to» := 0, weight := 1 }],
               [{ «to» := 0, weight := 1 }]]
            costMaps := [[(1, 1), (2, 1), (3, 1)], [(0, 1)], [(0, 1)], [(0, 1)]]
            contracted := [] }).contracted ∧
    ∃ j e, (contractGraph
        [{ id := 0, lat := 0, lon := 0, count := 1 },
         { id := 1, lat := 1, lon := 0, count := 1 },
         { id := 2, lat := 0, lon := 1, count := 1 },
         { id := 3, lat := 1, lon := 1, count := 1 }]
        [[{ «to» := 1, weight := 1 }, { «to» := 2, weight := 1 },
          { «to» := 3, weight := 1 }],
         [{ «to» := 0, weight := 1 }],
         [{ «to» := 0, weight := 1 }],
         [{ «to» := 0, weight := 1 }]]
        [[(1, 1), (2, 1), (3, 1)], [(0, 1)], [(0, 1)], [(0, 1)]]).nodes.get? j =
        some e ∧
      e.lat = (([{ id := 0, lat := 0, lon := 0, count := 1 },
                 { id := 1, lat := 1, lon := 0, count := 1 },
                 { id := 2, lat := 0, lon := 1, count := 1 },
                 { id := 3, lat := 1, lon := 1, count := 1 }] : List RGNode).getD
                  0 dummyNode).lat ∧
      e.lon = (([{ id := 0, lat := 0, lon := 0, count := 1 },
                 { id := 1, lat := 1, lon := 0, count := 1 },
                 { id := 2, lat := 0, lon := 1, count := 1 },
                 { id := 3, lat := 1, lon := 1, count := 1 }] : List RGNode).getD
                  0 dummyNode).lon ∧
      e.count = (([{ id := 0, lat := 0, lon := 0, count := 1 },
                 { id := 1, lat := 1, lon := 0, count := 1 },
                 { id := 2, lat := 0, lon := 1, count := 1 },
                 { id := 3, lat := 1, lon := 1, count := 1 }] : List RGNode).getD
                  0 dummyNode).count :=
  contractGraph_degree3_survives
    [{ id := 0, lat := 0, lon := 0, count := 1 },
     { id := 1, lat := 1, lon := 0, count := 1 },
     { id := 2, lat := 0, lon := 1, count := 1 },
     { id := 3, lat := 1, lon := 1, count := 1 }]
    [[{ «to» := 1, weight := 1 }, { «to» := 2, weight := 1 },
      { «to» := 3, weight := 1 }],
     [{ «to» := 0, weight := 1 }],
     [{ «to» := 0, weight := 1 }],
     [{ «to» := 0, weight := 1 }]]
    [[(1, 1), (2, 1), (3, 1)], [(0, 1)], [(0, 1)], [(0, 1)]]
    0 (by decide) (by decide) (by decide) (by decide) (by decide) (by decide)

-- ------------------------------------------------------------------
-- C2: density of the contracted graph
-- ------------------------------------------------------------------

/-- Every target `rebuildRow` writes is a mapped id, hence below the new
node count whenever `oldToNew` is bounded by it. -/
theorem rebuildRow_bound (oldToNew : List Int) (contracted : List Nat)
    (m : Nat) (hmap : ∀ k, oldToNew.getD k (-1) < (m : Int)) :
    ∀ edges : List RGEdge, ∀ e ∈ rebuildRow oldToNew contracted edges,
      e.to < m := by
  have key : ∀ (edges : List RGEdge) (acc : List RGEdge),
      (∀ e ∈ acc, e.to < m) →
      ∀ e ∈ edges.foldl
        (fun acc e =>
          if e.to ∈ contracted then acc
          else
            let newTo := oldToNew.getD e.to (-1)
            if newTo < 0 then acc
            else acc ++ [{ «to» := newTo.toNat, weight := e.weight,
                           via := e.via }]) acc,
        e.to < m := by
    intro edges
    induction edges with
    | nil => exact fun acc hacc => hacc
    | cons e rest ih =>
      intro acc hacc
      rw [List.foldl_cons]
      refine ih _ ?_
      by_cases hc : e.to ∈ contracted
      · rw [if_pos hc]
        exact hacc
      · rw [if_neg hc]
        dsimp only
        by_cases hneg : oldToNew.getD e.to (-1) < 0
        · rw [if_pos hneg]
          exact hacc
        · rw [if_neg hneg]
          intro x hx
          rcases List.mem_append.mp hx with h | h
          · exact hacc x h
          · rcases List.mem_singleton.mp h with rfl
            have := hmap e.to
            dsimp only
            omega
  intro edges
  exact key edges [] (fun e he => absurd he (List.not_mem_nil e))

/-- Keys of the per-row cost map rebuilt by `reindexEdgesStep` all come
from the row's edge targets. -/
theorem costRow_keys (row : List RGEdge) (m : Nat)
    (hrow : ∀ e ∈ row, e.to < m) :
    ∀ kv ∈ row.foldl (fun m e => alSet m e.to e.weight)
        ([] : List (Nat × Rat)), kv.1 < m := by
  have key : ∀ (row : List RGEdge) (acc : List (Nat × Rat)),
      (∀ e ∈ row, e.to < m) → (∀ kv ∈ acc, kv.1 < m) →
      ∀ kv ∈ row.foldl (fun m e => alSet m e.to e.weight) acc, kv.1 < m := by
    intro row
    induction row with
    | nil => exact fun acc _ hacc => hacc
    | cons e rest ih =>
      intro acc hrow hacc
      rw [List.foldl_cons]
      refine ih _ (fun x hx => hrow x (List.mem_cons_of_mem _ hx)) ?_
      intro kv hkv
      rcases mem_alSet acc e.to e.weight kv hkv with h | h
      · exact hacc kv h
      · rw [h]
        exact hrow e (List.mem_cons_self _ _)
  exact key row [] hrow (fun kv hkv => absurd hkv (List.not_mem_nil kv))

/-- Every adjacency row and cost map `reindexEdges` produces has all its
targets (resp. keys) below the new node count. -/
theorem reindexEdges_bound (n : Nat) (oldToNew : List Int)
    (contracted : List Nat) (adjacency : List (List RGEdge)) (m : Nat)
    (hmap : ∀ k, oldToNew.getD k (-1) < (m : Int)) :
    (∀ i, ∀ e ∈ (reindexEdges n oldToNew contracted adjacency).1.getD i [],
      e.to < m) ∧
    (∀ i, ∀ kv ∈ (reindexEdges n oldToNew contracted adjacency).2.getD i [],
      kv.1 < m) := by
  have key : ∀ (L : List Nat)
      (acc : List (List RGEdge) × List (List (Nat × Rat))),
      (∀ r ∈ acc.1, ∀ e ∈ r, e.to < m) →
      (∀ cm ∈ acc.2, ∀ kv ∈ cm, kv.1 < m) →
      (∀ r ∈ (L.foldl (reindexEdgesStep oldToNew contracted adjacency)
          acc).1, ∀ e ∈ r, e.to < m) ∧
      (∀ cm ∈ (L.foldl (reindexEdgesStep oldToNew contracted adjacency)
          acc).2, ∀ kv ∈ cm, kv.1 < m) := by
    intro L
    induction L with
    | nil => exact fun acc h1 h2 => ⟨h1, h2⟩
    | cons i rest ih =>
      intro acc h1 h2
      rw [List.foldl_cons]
      by_cases hc : i ∈ contracted
      · rw [show reindexEdgesStep oldToNew contracted adjacency acc i = acc by
          unfold reindexEdgesStep; rw [if_pos hc]]
        exact ih acc h1 h2
      · rw [show reindexEdgesStep oldToNew contracted adjacency acc i =
            (acc.1 ++ [rebuildRow oldToNew contracted (adjacency.getD i [])],
             acc.2 ++ [(rebuildRow oldToNew contracted
                 (adjacency.getD i [])).foldl
               (fun m e => alSet m e.to e.weight) []]) by
          unfold reindexEdgesStep; rw [if_neg hc]]
        refine ih _ ?_ ?_
        · intro r hr
          rcases List.mem_append.mp hr with h | h
          · exact h1 r h
          · rcases List.mem_singleton.mp h with rfl
            exact rebuildRow_bound oldToNew contracted m hmap _
        · intro cm hcm
          rcases List.mem_append.mp hcm with h | h
          · exact h2 cm h
          · rcases List.mem_singleton.mp h with rfl
            exact costRow_keys _ m
              (rebuildRow_bound oldToNew contracted m hmap _)
  have h0 := key (List.range n) ([], [])
    (fun r hr => absurd hr (List.not_mem_nil r))
    (fun cm hcm => absurd hcm (List.not_mem_nil cm))
  constructor
  · intro i e he
    by_cases hi : i <
        (reindexEdges n oldToNew contracted adjacency).1.length
    · exact h0.1 _ (listGetD_mem _ i [] hi) e he
    · rw [List.getD_eq_default _ _ (by omega)] at he
      exact absurd he (List.not_mem_nil e)
  · intro i kv hkv
    by_cases hi : i <
        (reindexEdges n oldToNew contracted adjacency).2.length
    · exact h0.2 _ (listGetD_mem _ i [] hi) kv hkv
    · rw [List.getD_eq_default _ _ (by omega)] at hkv
      exact absurd hkv (List.not_mem_nil kv)

/-- C2: for every well-formed input graph with dense node indices, the
graph `contractGraph` returns again has dense node indices (the node at
position `i` has id `i`), and every adjacency target and every cost-map
key is a valid index of the new node list. -/
theorem contractGraph_dense (nodes : List RGNode)
    (adjacency : List (List RGEdge)) (costMaps : List (List (Nat × Rat)))
    (hdense : DenseNodes nodes)
    (hlen1 : adjacency.length = nodes.length)
    (hlen2 : costMaps.length = nodes.length)
    (hedges : ∀ i, i < adjacency.length →
      ∀ e ∈ adjacency.getD i [], e.to < nodes.length)
    (hkeys : ∀ i, i < costMaps.length →
      ∀ kv ∈ costMaps.getD i [], kv.1 < nodes.length) :
    DenseNodes (contractGraph nodes adjacency costMaps).nodes ∧
    (∀ i, ∀ e ∈ (contractGraph nodes adjacency costMaps).adjacency.getD i [],
      e.to < (contractGraph nodes adjacency costMaps).nodes.length) ∧
    (∀ i, ∀ kv ∈ (contractGraph nodes adjacency costMaps).costMaps.getD i [],
      kv.1 < (contractGraph nodes adjacency costMaps).nodes.length) := by
  have hedges' : ∀ i, ∀ e ∈ adjacency.getD i [], e.to < nodes.length := by
    intro i e he
    by_cases hi : i < adjacency.length
    · exact hedges i hi e he
    · rw [List.getD_eq_default _ _ (by omega)] at he
      exact absurd he (List.not_mem_nil e)
  have hkeys' : ∀ i, ∀ kv ∈ costMaps.getD i [], kv.1 < nodes.length := by
    intro i kv hkv
    by_cases hi : i < costMaps.length
    · exact hkeys i hi kv hkv
    · rw [List.getD_eq_default _ _ (by omega)] at hkv
      exact absurd hkv (List.not_mem_nil kv)
  have hub := buildUndirected_bound nodes.length adjacency hedges'
  have hchains : ∀ c ∈ collectChains nodes.length
      (buildUndirected nodes.length adjacency), ∀ x ∈ c, x < nodes.length :=
    fun c hc =>
      (collectChains_spec nodes.length
        (buildUndirected nodes.length adjacency) hub c hc).2.2.2.2
  have hF := foldProcess_spec nodes nodes.length
    (collectChains nodes.length (buildUndirected nodes.length adjacency))
    hchains
    { adjacency := adjacency, costMaps := costMaps, contracted := [] }
    hlen1 hlen2 hedges' hkeys'
  unfold contractGraph
  dsimp only
  split
  case isTrue h =>
    exact ⟨hdense, hF.2.2.1, hF.2.2.2.1⟩
  case isFalse h =>
    have hri := reindexNodes_spec nodes
      (((collectChains nodes.length
            (buildUndirected nodes.length adjacency)).foldl
          (processChain nodes)
          { adjacency := adjacency, costMaps := costMaps,
            contracted := [] }).contracted)
    have hre := reindexEdges_bound nodes.length
      (reindexNodes nodes
        (((collectChains nodes.length
              (buildUndirected nodes.length adjacency)).foldl
            (processChain nodes)
            { adjacency := adjacency, costMaps := costMaps,
              contracted := [] }).contracted)).1
      (((collectChains nodes.length
            (buildUndirected nodes.length adjacency)).foldl
          (processChain nodes)
          { adjacency := adjacency, costMaps := costMaps,
            contracted := [] }).contracted)
      (((collectChains nodes.length
            (buildUndirected nodes.length adjacency)).foldl
          (processChain nodes)
          { adjacency := adjacency, costMaps := costMaps,
            contracted := [] }).adjacency)
      (reindexNodes nodes
        (((collectChains nodes.length
              (buildUndirected nodes.length adjacency)).foldl
            (processChain nodes)
            { adjacency := adjacency, costMaps := costMaps,
              contracted := [] }).contracted)).2.length
      hri.1
    refine ⟨?_, hre.1, hre.2⟩
    intro i hi
    have := hri.2.1 i _ (List.get?_eq_get hi)
    exact this

/-- Witness for `contractGraph_dense`: the 3-node path `0-1-2` (whose
middle node is contracted, so the re-indexing branch actually runs). -/
theorem contractGraph_dense_witness :
    DenseNodes (contractGraph
        [{ id := 0, lat := 0, lon := 0, count := 1 },
         { id := 1, lat := 0, lon := 1, count := 1 },
         { id := 2, lat := 0, lon := 2, count := 1 }]
        [[{ «to» := 1, weight := 1 }],
         [{ «to» := 0, weight := 1 }, { «to» := 2, weight := 1 }],
         [{ «to» := 1, weight := 1 }]]
        [[(1, 1)], [(0, 1), (2, 1)], [(1, 1)]]).nodes ∧
    (∀ i, ∀ e ∈ (contractGraph
        [{ id := 0, lat := 0, lon := 0, count := 1 },
         { id := 1, lat := 0, lon := 1, count := 1 },
         { id := 2, lat := 0, lon := 2, count := 1 }]
        [[{ «to» := 1, weight := 1 }],
         [{ «to» := 0, weight := 1 }, { «to» := 2, weight := 1 }],
         [{ «to» := 1, weight := 1 }]]
        [[(1, 1)], [(0, 1), (2, 1)], [(1, 1)]]).adjacency.getD i [],
      e.to < (contractGraph
        [{ id := 0, lat := 0, lon := 0, count := 1 },
         { id := 1, lat := 0, lon := 1, count := 1 },
         { id := 2, lat := 0, lon := 2, count := 1 }]
        [[{ «to» := 1, weight := 1 }],
         [{ «to» := 0, weight := 1 }, { «to» := 2, weight := 1 }],
         [{ «to» := 1, weight := 1 }]]
        [[(1, 1)], [(0, 1), (2, 1)], [(1, 1)]]).nodes.length) ∧
    (∀ i, ∀ kv ∈ (contractGraph
        [{ id := 0, lat := 0, lon := 0, count := 1 },
         { id := 1, lat := 0, lon := 1, count := 1 },
         { id := 2, lat := 0, lon := 2, count := 1 }]
        [[{ «to» := 1, weight := 1 }],
         [{ «to» := 0, weight := 1 }, { «to» := 2, weight := 1 }],
         [{ «to» := 1, weight := 1 }]]
        [[(1, 1)], [(0, 1), (2, 1)], [(1, 1)]]).costMaps.getD i [],
      kv.1 < (contractGraph
        [{ id := 0, lat := 0, lon := 0, count := 1 },
         { id := 1, lat := 0, lon := 1, count := 1 },
         { id := 2, lat := 0, lon := 2, count := 1 }]
        [[{ «to» := 1, weight := 1 }],
         [{ «to» := 0, weight := 1 }, { «to» := 2, weight := 1 }],
         [{ «to» := 1, weight := 1 }]]
        [[(1, 1)], [(0, 1), (2, 1)], [(1, 1)]]).nodes.length) :=
  contractGraph_dense
    [{ id := 0, lat := 0, lon := 0, count := 1 },
     { id := 1, lat := 0, lon := 1, count := 1 },
     { id := 2, lat := 0, lon := 2, count := 1 }]
    [[{ «to» := 1, weight := 1 }],
     [{ «to» := 0, weight := 1 }, { «to» := 2, weight := 1 }],
     [{ «to» := 1, weight := 1 }]]
    [[(1, 1)], [(0, 1), (2, 1)], [(1, 1)]]
    (by unfold DenseNodes; decide) (by decide) (by decide) (by decide)
    (by decide)

-- ------------------------------------------------------------------
-- C1: chain contraction and the shortcut weight
-- ------------------------------------------------------------------

/-- C1: refutation. The chain `1–2–3` (interior node 2 of undirected
degree 2, both directed paths unbroken, summed weight `1 + 1 = 2`) is
contracted (`contracted = 1`), but a pre-existing direct `1↔3` edge of
weight `1` beats the sum, so in the returned graph the direct edge between
the chain endpoints (new ids `1` and `2`) has weight `1`, not the chain
sum `2`. -/
theorem contractGraph_chain_sum_counterexample :
    pathCheck
        [[(1, 1)], [(0, 1), (2, 1), (3, 1)], [(1, 1), (3, 1)],
         [(2, 1), (1, 1), (4, 1)], [(3, 1)]] [1, 2, 3] 0 = (true, 2) ∧
    collectChains 5
        (buildUndirected 5
          [[{ «to» := 1, weight := 1 }],
           [{ «to» := 0, weight := 1 }, { «to» := 2, weight := 1 },
            { «to» := 3, weight := 1 }],
           [{ «to» := 1, weight := 1 }, { «to» := 3, weight := 1 }],
           [{ «to» := 2, weight := 1 }, { «to» := 1, weight := 1 },
            { «to» := 4, weight := 1 }],
           [{ «to» := 3, weight := 1 }]]) = [[1, 2, 3]] ∧
    (contractGraph
        [{ id := 0, lat := 0, lon := 0, count := 1 },
         { id := 1, lat := 0, lon := 1, count := 1 },
         { id := 2, lat := 0, lon := 2, count := 1 },
         { id := 3, lat := 0, lon := 3, count := 1 },
         { id := 4, lat := 0, lon := 4, count := 1 }]
        [[{ «to» := 1, weight := 1 }],
         [{ «to» := 0, weight := 1 }, { «to» := 2, weight := 1 },
          { «to» := 3, weight := 1 }],
         [{ «to» := 1, weight := 1 }, { «to» := 3, weight := 1 }],
         [{ «to» := 2, weight := 1 }, { «to» := 1, weight := 1 },
          { «to» := 4, weight := 1 }],
         [{ «to» := 3, weight := 1 }]]
        [[(1, 1)], [(0, 1), (2, 1), (3, 1)], [(1, 1), (3, 1)],
         [(2, 1), (1, 1), (4, 1)], [(3, 1)]]).contracted = 1 ∧
    alGet ((contractGraph
        [{ id := 0, lat := 0, lon := 0, count := 1 },
         { id := 1, lat := 0, lon := 1, count := 1 },
         { id := 2, lat := 0, lon := 2, count := 1 },
         { id := 3, lat := 0, lon := 3, count := 1 },
         { id := 4, lat := 0, lon := 4, count := 1 }]
        [[{ «to» := 1, weight := 1 }],
         [{ «to» := 0, weight := 1 }, { «to» := 2, weight := 1 },
          { «to» := 3, weight := 1 }],
         [{ «to» := 1, weight := 1 }, { «to» := 3, weight := 1 }],
         [{ «to» := 2, weight := 1 }, { «to» := 1, weight := 1 },
          { «to» := 4, weight := 1 }],
         [{ «to» := 3, weight := 1 }]]
        [[(1, 1)], [(0, 1), (2, 1), (3, 1)], [(1, 1), (3, 1)],
         [(2, 1), (1, 1), (4, 1)], [(3, 1)]]).costMaps.getD 1 []) 2 =
      some 1 := by
  refine ⟨by decide, by decide, by decide, by decide⟩

/-- `alSet` leaves every other key's lookup unchanged. -/
theorem alGet_alSet_ne {K V : Type} [DecidableEq K] (m : List (K × V))
    (k k' : K) (v : V) (h : ¬ k' = k) :
    alGet (alSet m k v) k' = alGet m k' := by
  induction m with
  | nil =>
    show alGet [(k, v)] k' = alGet [] k'
    simp only [alGet, List.find?]
    rw [show (decide (k = k') : Bool) = false from
      decide_eq_false (fun he => h he.symm)]
  | cons p rest ih =>
    obtain ⟨k0, v0⟩ := p
    show alGet (if k0 = k then (k, v) :: rest else (k0, v0) :: alSet rest k v)
        k' = alGet ((k0, v0) :: rest) k'
    by_cases h0 : k0 = k
    · rw [if_pos h0]
      subst h0
      simp only [alGet, List.find?]
      rw [show (decide (k0 = k') : Bool) = false from
        decide_eq_false (fun he => h he.symm)]
    · rw [if_neg h0]
      by_cases h1 : k0 = k'
      · subst h1
        simp only [alGet, List.find?, decide_True]
      · simp only [alGet, List.find?]
        rw [show (decide (k0 = k') : Bool) = false from decide_eq_false h1]
        exact ih

/-- Replacing a position by the value it already holds is the identity. -/
theorem listSet_self {α : Type} : ∀ (l : List α) (i : Nat) (x : α),
    l.get? i = some x → l.set i x = l := by
  intro l
  induction l with
  | nil => intro i x hx; cases hx
  | cons a t ih =>
    intro i x hx
    cases i with
    | zero =>
      cases hx
      rfl
    | succ j =>
      show a :: t.set j x = a :: t
      rw [ih j x hx]

/-- `installShortcut` changes no cost-map lookup other than `(A, B)`. -/
theorem installShortcut_read_ne (st : CGState) (A B a b : Nat) (w : Rat)
    (via : List (Rat × Rat)) (h : ¬ (a = A ∧ b = B)) :
    alGet ((installShortcut st A B w via).costMaps.getD a []) b =
      alGet (st.costMaps.getD a []) b := by
  unfold installShortcut
  dsimp only
  split
  · rcases listGetD_set_cases st.costMaps A a
        (alSet (st.costMaps.getD A []) B w) [] with hc | ⟨hc, hAa⟩
    · rw [hc]
    · subst hAa
      rw [hc]
      have hb : ¬ b = B := fun hb => h ⟨rfl, hb⟩
      exact alGet_alSet_ne _ _ _ _ hb
  · rfl

/-- `installShortcut` keeps every adjacency entry whose target is not the
written key of the written row. -/
theorem installShortcut_mem_ne (st : CGState) (A B r t : Nat) (w : Rat)
    (via : List (Rat × Rat)) (h : ¬ (r = A ∧ t = B)) :
    ∀ e ∈ st.adjacency.getD r [], e.to = t →
      e ∈ (installShortcut st A B w via).adjacency.getD r [] := by
  intro e he het
  unfold installShortcut
  dsimp only
  split
  · rcases listGetD_set_cases st.adjacency A r
        (match (st.adjacency.getD A []).findIdx? (fun e => e.to = B) with
          | some idx =>
            (st.adjacency.getD A []).set idx
              { «to» := B, weight := w, via := some via }
          | none =>
            st.adjacency.getD A [] ++
              [{ «to» := B, weight := w, via := some via }]) [] with
        hc | ⟨hc, hAr⟩
    · rw [hc]
      exact he
    · subst hAr
      rw [hc]
      have ht : ¬ t = B := fun hb => h ⟨rfl, hb⟩
      cases hf : (st.adjacency.getD A []).findIdx? (fun e => e.to = B) with
      | none =>
        exact List.mem_append_left _ he
      | some idx =>
        obtain ⟨p, hp, hep⟩ := List.mem_iff_getElem.mp he
        have hidx := List.findIdx?_eq_some_iff_getElem.mp hf
        obtain ⟨hlt, hpidx, _⟩ := hidx
        by_cases hpeq : p = idx
        · subst hpeq
          rw [hep] at hpidx
          exact absurd (of_decide_eq_true hpidx) (het ▸ ht)
        · refine List.mem_iff_getElem.mpr ⟨p, ?_, ?_⟩
          · rw [List.length_set]
            exact hp
          · rw [List.getElem_set_ne (fun hx => hpeq hx.symm)]
            exact hep
  · exact he

/-- `installShortcut` preserves duplicate-freedom of every row's target
list. -/
theorem installShortcut_nodup (st : CGState) (A B : Nat) (w : Rat)
    (via : List (Rat × Rat))
    (hnd : ∀ i, (((st.adjacency.getD i []).map (fun e => e.to)).Nodup)) :
    ∀ i, ((((installShortcut st A B w via).adjacency.getD i []).map
      (fun e => e.to)).Nodup) := by
  intro i
  unfold installShortcut
  dsimp only
  split
  · rcases listGetD_set_cases st.adjacency A i
        (match (st.adjacency.getD A []).findIdx? (fun e => e.to = B) with
          | some idx =>
            (st.adjacency.getD A []).set idx
              { «to» := B, weight := w, via := some via }
          | none =>
            st.adjacency.getD A [] ++
              [{ «to» := B, weight := w, via := some via }]) [] with
        hc | ⟨hc, hAi⟩
    · rw [hc]
      exact hnd i
    · rw [hc]
      cases hf : (st.adjacency.getD A []).findIdx? (fun e => e.to = B) with
      | none =>
        have hnotin : B ∉ (st.adjacency.getD A []).map (fun e => e.to) := by
          intro hmem
          obtain ⟨e, he, hbe⟩ := List.mem_map.mp hmem
          have := List.findIdx?_eq_none_iff.mp hf e he
          rw [hbe] at this
          simp at this
        simp only [List.map_append, List.map_cons, List.map_nil]
        rw [List.nodup_append]
        exact ⟨hnd A, List.nodup_singleton B,
          by
            intro x hx hy
            rcases List.mem_singleton.mp hy with rfl
            exact hnotin hx⟩
      | some idx =>
        have hidx := List.findIdx?_eq_some_iff_getElem.mp hf
        obtain ⟨hlt, hpidx, _⟩ := hidx
        rw [List.map_set]
        have hsame : ((st.adjacency.getD A []).map (fun e => e.to)).set idx B
            = (st.adjacency.getD A []).map (fun e => e.to) := by
          refine listSet_self _ idx B ?_
          rw [List.get?_eq_getElem?, List.getElem?_map,
            List.getElem?_eq_getElem hlt]
          simpa using of_decide_eq_true hpidx
        rw [hsame]
        exact hnd A
  · exact hnd i

/-- `processChain` changes no cost-map lookup other than the two
endpoint-to-endpoint entries of its chain. -/
theorem processChain_read_ne (nodes : List RGNode) (st : CGState)
    (c : List Nat) (a b : Nat)
    (h1 : ¬ (a = c.headD 0 ∧ b = c.getLastD 0))
    (h2 : ¬ (a = c.getLastD 0 ∧ b = c.headD 0)) :
    alGet ((processChain nodes st c).costMaps.getD a []) b =
      alGet (st.costMaps.getD a []) b := by
  unfold processChain
  split
  · rfl
  · dsimp only
    split
    · rfl
    · split
      · rfl
      · split
        · rw [installShortcut_read_ne _ _ _ _ _ _ _ h2]
          split
          · rw [installShortcut_read_ne _ _ _ _ _ _ _ h1]
          · rfl
        · split
          · rw [installShortcut_read_ne _ _ _ _ _ _ _ h1]
          · rfl

/-- `processChain` keeps every adjacency entry whose target avoids the two
endpoint pairs of its chain. -/
theorem processChain_mem_ne (nodes : List RGNode) (st : CGState)
    (c : List Nat) (r t : Nat)
    (h1 : ¬ (r = c.headD 0 ∧ t = c.getLastD 0))
    (h2 : ¬ (r = c.getLastD 0 ∧ t = c.headD 0)) :
    ∀ e ∈ st.adjacency.getD r [], e.to = t →
      e ∈ (processChain nodes st c).adjacency.getD r [] := by
  intro e he het
  unfold processChain
  split
  · exact he
  · dsimp only
    split
    · exact he
    · split
      · exact he
      · split
        · refine installShortcut_mem_ne _ _ _ _ _ _ _ h2 e ?_ het
          split
          · exact installShortcut_mem_ne _ _ _ _ _ _ _ h1 e he het
          · exact he
        · split
          · exact installShortcut_mem_ne _ _ _ _ _ _ _ h1 e he het
          · exact he

/-- `processChain` preserves duplicate-freedom of every row's target
list. -/
theorem processChain_nodup (nodes : List RGNode) (st : CGState)
    (c : List Nat)
    (hnd : ∀ i, (((st.adjacency.getD i []).map (fun e => e.to)).Nodup)) :
    ∀ i, ((((processChain nodes st c).adjacency.getD i []).map
      (fun e => e.to)).Nodup) := by
  unfold processChain
  split
  · exact hnd
  · dsimp only
    split
    · exact hnd
    · split
      · exact hnd
      · split
        · refine installShortcut_nodup _ _ _ _ _ ?_
          split
          · exact installShortcut_nodup _ _ _ _ _ hnd
          · exact hnd
        · split
          · exact installShortcut_nodup _ _ _ _ _ hnd
          · exact hnd

/-- `processChain` never removes anything from the contracted set. -/
theorem processChain_contracted_mono (nodes : List RGNode) (st : CGState)
    (c : List Nat) (x : Nat) (hx : x ∈ st.contracted) :
    x ∈ (processChain nodes st c).contracted := by
  unfold processChain
  split
  · exact hx
  · dsimp only
    split
    · exact hx
    · split
      · exact hx
      · have hbase : x ∈
            ({ st with contracted :=
              (interiorOf c).foldl setAdd st.contracted } : CGState).contracted :=
          (mem_foldl_setAdd _ _ _).mpr (Or.inl hx)
        split
        · rw [(installShortcut_lengths _ _ _ _ _).2.2]
          split
          · rw [(installShortcut_lengths _ _ _ _ _).2.2]
            exact hbase
          · exact hbase
        · split
          · rw [(installShortcut_lengths _ _ _ _ _).2.2]
            exact hbase
          · exact hbase

/-- A chain whose forward path exists gets its whole interior marked
contracted by `processChain`. -/
theorem processChain_contracts (nodes : List RGNode) (st : CGState)
    (c : List Nat) (h3 : 3 ≤ c.length) (hAB : ¬ c.headD 0 = c.getLastD 0)
    (hfwd : (pathCheck st.costMaps c 0).1 = true) :
    ∀ x ∈ interiorOf c, x ∈ (processChain nodes st c).contracted := by
  intro x hx
  unfold processChain
  rw [if_neg (by omega)]
  dsimp only
  rw [if_neg hAB]
  rw [if_neg (by simp [hfwd])]
  have hbase : x ∈
      ({ st with contracted :=
        (interiorOf c).foldl setAdd st.contracted } : CGState).contracted :=
    (mem_foldl_setAdd _ _ _).mpr (Or.inr hx)
  split
  · rw [(installShortcut_lengths _ _ _ _ _).2.2,
      (installShortcut_lengths _ _ _ _ _).2.2]
    exact hbase
  · rw [(installShortcut_lengths _ _ _ _ _).2.2]
    exact hbase

/-- Folding `processChain` over chains that all avoid the pair `(a, b)`
(in both orders) preserves the `(a, b)` and cost-map lookup. -/
theorem foldChains_read_stable (nodes : List RGNode) :
    ∀ (cs : List (List Nat)) (st : CGState) (a b : Nat),
      (∀ c' ∈ cs, ¬ (a = c'.headD 0 ∧ b = c'.getLastD 0) ∧
        ¬ (a = c'.getLastD 0 ∧ b = c'.headD 0)) →
      alGet ((cs.foldl (processChain nodes) st).costMaps.getD a []) b =
        alGet (st.costMaps.getD a []) b := by
  intro cs
  induction cs with
  | nil => intro st a b _; rfl
  | cons c' rest ih =>
    intro st a b hcs
    rw [List.foldl_cons]
    rw [ih (processChain nodes st c') a b
      (fun x hx => hcs x (List.mem_cons_of_mem _ hx))]
    exact processChain_read_ne nodes st c' a b
      (hcs c' (List.mem_cons_self _ _)).1 (hcs c' (List.mem_cons_self _ _)).2

/-- Folding `processChain` over chains that all avoid the pair `(r, t)`
keeps adjacency entries with target `t` in row `r`. -/
theorem foldChains_mem_stable (nodes : List RGNode) :
    ∀ (cs : List (List Nat)) (st : CGState) (r t : Nat),
      (∀ c' ∈ cs, ¬ (r = c'.headD 0 ∧ t = c'.getLastD 0) ∧
        ¬ (r = c'.getLastD 0 ∧ t = c'.headD 0)) →
      ∀ e ∈ st.adjacency.getD r [], e.to = t →
        e ∈ (cs.foldl (processChain nodes) st).adjacency.getD r [] := by
  intro cs
  induction cs with
  | nil => intro st r t _ e he _; exact he
  | cons c' rest ih =>
    intro st r t hcs e he het
    rw [List.foldl_cons]
    refine ih (processChain nodes st c') r t
      (fun x hx => hcs x (List.mem_cons_of_mem _ hx)) e ?_ het
    exact processChain_mem_ne nodes st c' r t
      (hcs c' (List.mem_cons_self _ _)).1 (hcs c' (List.mem_cons_self _ _)).2
      e he het

/-- Folding `processChain` preserves duplicate-freedom of row targets. -/
theorem foldChains_nodup (nodes : List RGNode) :
    ∀ (cs : List (List Nat)) (st : CGState),
      (∀ i, (((st.adjacency.getD i []).map (fun e => e.to)).Nodup)) →
      ∀ i, ((((cs.foldl (processChain nodes) st).adjacency.getD i []).map
        (fun e => e.to)).Nodup) := by
  intro cs
  induction cs with
  | nil => exact fun st h => h
  | cons c' rest ih =>
    intro st hnd
    rw [List.foldl_cons]
    exact ih _ (processChain_nodup nodes st c' hnd)

/-- Folding `processChain` never removes anything from the contracted
set. -/
theorem foldChains_contracted_mono (nodes : List RGNode) :
    ∀ (cs : List (List Nat)) (st : CGState) (x : Nat),
      x ∈ st.contracted →
      x ∈ (cs.foldl (processChain nodes) st).contracted := by
  intro cs
  induction cs with
  | nil => exact fun st x h => h
  | cons c' rest ih =>
    intro st x hx
    rw [List.foldl_cons]
    exact ih _ x (processChain_contracted_mono nodes st c' x hx)

/-- `pathCheck` only depends on the cost entries at consecutive pairs of
its list. -/
theorem pathCheck_congr (cost1 cost0 : List (List (Nat × Rat))) :
    ∀ (l : List Nat) (acc : Rat),
      (∀ i, i + 1 < l.length →
        alGet (cost1.getD (l.getD i 0) []) (l.getD (i + 1) 0) =
          alGet (cost0.getD (l.getD i 0) []) (l.getD (i + 1) 0)) →
      pathCheck cost1 l acc = pathCheck cost0 l acc := by
  intro l
  induction l with
  | nil => intro acc _; rfl
  | cons a rest ih =>
    cases rest with
    | nil => intro acc _; rfl
    | cons b rest2 =>
      intro acc hreads
      have h0 : alGet (cost1.getD a []) b = alGet (cost0.getD a []) b :=
        hreads 0 (by simp)
      have hhas : cmHasEdge cost1 a b = cmHasEdge cost0 a b := by
        unfold cmHasEdge
        rw [h0]
      have hw : cmGetWeight cost1 a b = cmGetWeight cost0 a b := by
        unfold cmGetWeight
        rw [h0]
      show pathCheck cost1 (a :: b :: rest2) acc =
        pathCheck cost0 (a :: b :: rest2) acc
      unfold pathCheck
      rw [hhas, hw]
      by_cases hc : cmHasEdge cost0 a b = true
      · rw [if_pos hc, if_pos hc]
        exact ih (acc + cmGetWeight cost0 a b)
          (fun i hi => hreads (i + 1) (by simpa using hi))
      · rw [if_neg hc, if_neg hc]

/-- A list element that is neither first nor last is interior. -/
theorem getD_mem_interior (c : List Nat) (j : Nat) (h : j + 2 < c.length) :
    c.getD (j + 1) 0 ∈ interiorOf c := by
  unfold interiorOf
  have hlen : (c.drop 1).dropLast.length = c.length - 1 - 1 := by
    rw [List.length_dropLast, List.length_drop]
  have hj : j < (c.drop 1).dropLast.length := by omega
  have hval : (c.drop 1).dropLast.getD j 0 = c.getD (j + 1) 0 := by
    rw [List.getD_eq_getElem?_getD, List.getElem?_eq_getElem hj,
      List.getD_eq_getElem?_getD,
      List.getElem?_eq_getElem (show j + 1 < c.length by omega)]
    simp only [List.getElem_dropLast, List.getElem_drop, Option.getD_some]
    congr 1
    omega
  rw [← hval]
  exact listGetD_mem _ j 0 hj

/-- In a chain whose interior is all degree-2, every consecutive pair
contains a degree-2 element. -/
theorem chain_pair_deg2 (u : List (List Nat)) (c : List Nat)
    (h3 : 3 ≤ c.length)
    (hint : ∀ x ∈ interiorOf c, isDegree2 u x = true) :
    ∀ i, i + 1 < c.length →
      isDegree2 u (c.getD i 0) = true ∨
      isDegree2 u (c.getD (i + 1) 0) = true := by
  intro i hi
  cases i with
  | zero => exact Or.inr (hint _ (getD_mem_interior c 0 (by omega)))
  | succ j => exact Or.inl (hint _ (getD_mem_interior c j (by omega)))

/-- Dropping the last element after dropping the first commutes. -/
theorem tail_dropLast_comm {α : Type} (c : List α) :
    c.dropLast.tail = c.tail.dropLast := by
  cases c with
  | nil => rfl
  | cons a t =>
    cases t with
    | nil => rfl
    | cons b t2 =>
      rw [List.dropLast_cons₂]
      rfl

/-- The interior of a reversed chain has the same members. -/
theorem mem_interior_reverse (c : List Nat) (x : Nat) :
    x ∈ interiorOf c.reverse ↔ x ∈ interiorOf c := by
  unfold interiorOf
  rw [List.drop_one, List.drop_one]
  have hrd : ∀ (l : List Nat), l.reverse.dropLast = l.tail.reverse := by
    intro l
    have h := List.tail_reverse l.reverse
    rw [List.reverse_reverse] at h
    rw [h, List.reverse_reverse]
  rw [List.tail_reverse, hrd c.dropLast, List.mem_reverse,
    tail_dropLast_comm]

/-- `getD` of a `replicate` is the replicated value. -/
theorem listGetD_replicate {α : Type} (n k : Nat) (x : α) :
    (List.replicate n x).getD k x = x := by
  rw [List.getD_eq_getElem?_getD]
  cases hg : (List.replicate n x)[k]? with
  | none => rfl
  | some y =>
    have := List.getElem?_mem hg
    rw [List.eq_of_mem_replicate this]
    rfl

/-- An in-range `get?` determines `getD`. -/
theorem listGetD_of_getQ {α : Type} (l : List α) (j : Nat) (x d : α)
    (h : l.get? j = some x) : l.getD j d = x := by
  rw [List.getD_eq_getElem?_getD, ← List.get?_eq_getElem?, h]
  rfl

/-- Positions outside the remaining scan keep their `oldToNew` slot. -/
theorem reindexFold_slot_stable (nodes : List RGNode) (contracted : List Nat) :
    ∀ (L : List Nat) (acc : List Int × List RGNode) (v : Nat), v ∉ L →
      ((L.foldl (reindexStep nodes contracted) acc).1.getD v (-1)) =
        acc.1.getD v (-1) := by
  intro L
  induction L with
  | nil => intro acc v _; rfl
  | cons i rest ih =>
    intro acc v hv
    have hvi : ¬ v = i := fun h => hv (h ▸ List.mem_cons_self i rest)
    have hvrest : v ∉ rest := fun h => hv (List.mem_cons_of_mem _ h)
    rw [List.foldl_cons, ih _ v hvrest]
    unfold reindexStep
    split
    · rfl
    · exact listGetD_set_ne _ _ _ _ _ (fun h => hvi h.symm)

/-- Every in-range survivor ends up with a non-negative `oldToNew` slot. -/
theorem reindexFold_surv (nodes : List RGNode) (contracted : List Nat) :
    ∀ (L : List Nat) (acc : List Int × List RGNode), L.Nodup →
      (∀ i ∈ L, i < acc.1.length) →
      ∀ v ∈ L, v ∉ contracted →
        ∃ j, (L.foldl (reindexStep nodes contracted) acc).1.getD v (-1) =
          Int.ofNat j := by
  intro L
  induction L with
  | nil => intro acc _ _ v hv; exact absurd hv (List.not_mem_nil v)
  | cons i rest ih =>
    intro acc hnd hlen v hv hvnc
    have hnd' := List.nodup_cons.mp hnd
    rw [List.foldl_cons]
    have hstep_len : (reindexStep nodes contracted acc i).1.length =
        acc.1.length := by
      unfold reindexStep
      split
      · rfl
      · exact List.length_set _ _ _
    rcases List.mem_cons.mp hv with rfl | hvrest
    · have hslot : (reindexStep nodes contracted acc v).1.getD v (-1) =
          Int.ofNat acc.2.length := by
        unfold reindexStep
        rw [if_neg hvnc]
        exact listGetD_set_self _ _ _ _ (hlen v (List.mem_cons_self _ _))
      rw [reindexFold_slot_stable nodes contracted rest _ v hnd'.1, hslot]
      exact ⟨acc.2.length, rfl⟩
    · refine ih (reindexStep nodes contracted acc i) hnd'.2 ?_ v hvrest hvnc
      intro x hx
      rw [hstep_len]
      exact hlen x (List.mem_cons_of_mem _ hx)

/-- The non-negative `oldToNew` slots are bounded by the node count and
pairwise distinct. -/
theorem reindexFold_inj (nodes : List RGNode) (contracted : List Nat) :
    ∀ (L : List Nat) (acc : List Int × List RGNode),
      (∀ v w j, acc.1.getD v (-1) = Int.ofNat j →
        acc.1.getD w (-1) = Int.ofNat j → v = w) →
      (∀ v j, acc.1.getD v (-1) = Int.ofNat j → j < acc.2.length) →
      (∀ v w j,
        (L.foldl (reindexStep nodes contracted) acc).1.getD v (-1) =
          Int.ofNat j →
        (L.foldl (reindexStep nodes contracted) acc).1.getD w (-1) =
          Int.ofNat j → v = w) ∧
      (∀ v j,
        (L.foldl (reindexStep nodes contracted) acc).1.getD v (-1) =
          Int.ofNat j →
        j < (L.foldl (reindexStep nodes contracted) acc).2.length) := by
  intro L
  induction L with
  | nil => intro acc hinj hb; exact ⟨hinj, hb⟩
  | cons i rest ih =>
    intro acc hinj hb
    rw [List.foldl_cons]
    by_cases hc : i ∈ contracted
    · rw [show reindexStep nodes contracted acc i = acc by
        unfold reindexStep; rw [if_pos hc]]
      exact ih acc hinj hb
    · rw [show reindexStep nodes contracted acc i =
          (acc.1.set i (Int.ofNat acc.2.length),
           acc.2 ++
             [{ id := acc.2.length, lat := (nodes.getD i dummyNode).lat,
                lon := (nodes.getD i dummyNode).lon,
                count := (nodes.getD i dummyNode).count }]) by
        unfold reindexStep; rw [if_neg hc]]
      refine ih _ ?_ ?_
      · intro v w j hvj hwj
        rcases listGetD_set_cases acc.1 i v (Int.ofNat acc.2.length) (-1)
            with hcv | ⟨hcv, hiv⟩ <;>
          rcases listGetD_set_cases acc.1 i w (Int.ofNat acc.2.length) (-1)
              with hcw | ⟨hcw, hiw⟩
        · exact hinj v w j (hcv ▸ hvj) (hcw ▸ hwj)
        · rw [hcv] at hvj
          rw [hcw] at hwj
          simp only [Int.ofNat_eq_coe] at hwj
          have hj : j = acc.2.length := by omega
          subst hj
          exact absurd (hb v _ hvj) (by omega)
        · rw [hcv] at hvj
          rw [hcw] at hwj
          simp only [Int.ofNat_eq_coe] at hvj
          have hj : j = acc.2.length := by omega
          subst hj
          exact absurd (hb w _ hwj) (by omega)
        · omega
      · intro v j hvj
        simp only [List.length_append, List.length_singleton]
        rcases listGetD_set_cases acc.1 i v (Int.ofNat acc.2.length) (-1)
            with hcv | ⟨hcv, hiv⟩
        · rw [hcv] at hvj
          have := hb v j hvj
          omega
        · rw [hcv] at hvj
          simp only [Int.ofNat_eq_coe] at hvj
          omega

/-- The survivor scan of `reindexNodes` and the row scan of `reindexEdges`
stay in lock-step: whenever a slot of the partial `oldToNew` holds `j`, row
`j` of the partial rebuilt tables is the rebuilt row of that old node. -/
theorem reindexFold_sync (nodes : List RGNode) (ctr : List Nat)
    (f : List Int) (adj : List (List RGEdge)) :
    ∀ (L : List Nat) (accN : List Int × List RGNode)
      (accE : List (List RGEdge) × List (List (Nat × Rat))),
      accN.2.length = accE.1.length →
      accE.1.length = accE.2.length →
      (∀ v j, accN.1.getD v (-1) = Int.ofNat j → j < accN.2.length) →
      (∀ v j, accN.1.getD v (-1) = Int.ofNat j →
        accE.1.get? j = some (rebuildRow f ctr (adj.getD v [])) ∧
        accE.2.get? j = some ((rebuildRow f ctr (adj.getD v [])).foldl
          (fun m e => alSet m e.to e.weight) [])) →
      (L.foldl (reindexStep nodes ctr) accN).2.length =
        (L.foldl (reindexEdgesStep f ctr adj) accE).1.length ∧
      (L.foldl (reindexEdgesStep f ctr adj) accE).1.length =
        (L.foldl (reindexEdgesStep f ctr adj) accE).2.length ∧
      (∀ v j, (L.foldl (reindexStep nodes ctr) accN).1.getD v (-1) =
          Int.ofNat j →
        j < (L.foldl (reindexStep nodes ctr) accN).2.length) ∧
      (∀ v j, (L.foldl (reindexStep nodes ctr) accN).1.getD v (-1) =
          Int.ofNat j →
        (L.foldl (reindexEdgesStep f ctr adj) accE).1.get? j =
          some (rebuildRow f ctr (adj.getD v [])) ∧
        (L.foldl (reindexEdgesStep f ctr adj) accE).2.get? j =
          some ((rebuildRow f ctr (adj.getD v [])).foldl
            (fun m e => alSet m e.to e.weight) [])) := by
  intro L
  induction L with
  | nil => intro accN accE h1 h2 hbnd hsync; exact ⟨h1, h2, hbnd, hsync⟩
  | cons i rest ih =>
    intro accN accE h1 h2 hbnd hsync
    rw [List.foldl_cons, List.foldl_cons]
    by_cases hc : i ∈ ctr
    · rw [show reindexStep nodes ctr accN i = accN by
        unfold reindexStep; rw [if_pos hc]]
      rw [show reindexEdgesStep f ctr adj accE i = accE by
        unfold reindexEdgesStep; rw [if_pos hc]]
      exact ih accN accE h1 h2 hbnd hsync
    · rw [show reindexStep nodes ctr accN i =
          (accN.1.set i (Int.ofNat accN.2.length),
           accN.2 ++
             [{ id := accN.2.length, lat := (nodes.getD i dummyNode).lat,
                lon := (nodes.getD i dummyNode).lon,
                count := (nodes.getD i dummyNode).count }]) by
        unfold reindexStep; rw [if_neg hc]]
      rw [show reindexEdgesStep f ctr adj accE i =
          (accE.1 ++ [rebuildRow f ctr (adj.getD i [])],
           accE.2 ++ [(rebuildRow f ctr (adj.getD i [])).foldl
             (fun m e => alSet m e.to e.weight) []]) by
        unfold reindexEdgesStep; rw [if_neg hc]]
      refine ih _ _ ?_ ?_ ?_ ?_
      · simp only [List.length_append, List.length_singleton]
        omega
      · simp only [List.length_append, List.length_singleton]
        omega
      · intro v j hvj
        simp only [List.length_append, List.length_singleton]
        rcases listGetD_set_cases accN.1 i v (Int.ofNat accN.2.length) (-1)
            with hcv | ⟨hcv, hiv⟩
        · rw [hcv] at hvj
          have := hbnd v j hvj
          omega
        · rw [hcv] at hvj
          simp only [Int.ofNat_eq_coe] at hvj
          omega
      · intro v j hvj
        rcases listGetD_set_cases accN.1 i v (Int.ofNat accN.2.length) (-1)
            with hcv | ⟨hcv, hiv⟩
        · rw [hcv] at hvj
          have hjb := hbnd v j hvj
          have hold := hsync v j hvj
          constructor
          · rw [List.get?_eq_getElem?,
              List.getElem?_append_left (by omega), ← List.get?_eq_getElem?]
            exact hold.1
          · rw [List.get?_eq_getElem?,
              List.getElem?_append_left (by omega), ← List.get?_eq_getElem?]
            exact hold.2
        · rw [hcv] at hvj
          simp only [Int.ofNat_eq_coe] at hvj
          have hj : j = accN.2.length := by omega
          subst hj
          subst hiv
          constructor
          · rw [h1, List.get?_concat_length]
          · rw [h1, h2, List.get?_concat_length]

/-- The initial `oldToNew` array maps nothing. -/
theorem replicate_slot_absurd (n : Nat) : ∀ (v j : Nat),
    (List.replicate n (-1 : Int)).getD v (-1) = Int.ofNat j → False := by
  intro v j h
  rw [listGetD_replicate] at h
  simp only [Int.ofNat_eq_coe] at h
  omega

/-- Every in-range survivor has a non-negative slot in the final
`oldToNew`. -/
theorem reindexNodes_surv (nodes : List RGNode) (ctr : List Nat) (v : Nat)
    (hv : v < nodes.length) (hnc : v ∉ ctr) :
    ∃ j, (reindexNodes nodes ctr).1.getD v (-1) = Int.ofNat j := by
  exact reindexFold_surv nodes ctr (List.range nodes.length)
    (List.replicate nodes.length (-1), []) (List.nodup_range _)
    (fun i hi => by
      rw [List.length_replicate]
      exact List.mem_range.mp hi)
    v (List.mem_range.mpr hv) hnc

/-- The final `oldToNew` is injective on mapped (non-negative) slots. -/
theorem reindexNodes_inj (nodes : List RGNode) (ctr : List Nat) :
    ∀ v w j, (reindexNodes nodes ctr).1.getD v (-1) = Int.ofNat j →
      (reindexNodes nodes ctr).1.getD w (-1) = Int.ofNat j → v = w := by
  have h := reindexFold_inj nodes ctr (List.range nodes.length)
    (List.replicate nodes.length (-1), [])
    (fun v w j hv _ => absurd hv (fun hh => replicate_slot_absurd _ v j hh))
    (fun v j hv => absurd hv (fun hh => replicate_slot_absurd _ v j hh))
  exact fun v w j hv hw => h.1 v w j hv hw

/-- Row `j` of the rebuilt tables is the rebuilt row of the survivor whose
new id is `j`. -/
theorem reindexEdges_lookup (nodes : List RGNode) (ctr : List Nat)
    (adj : List (List RGEdge)) :
    ∀ v j, (reindexNodes nodes ctr).1.getD v (-1) = Int.ofNat j →
      (reindexEdges nodes.length (reindexNodes nodes ctr).1 ctr adj).1.get? j
        = some (rebuildRow (reindexNodes nodes ctr).1 ctr (adj.getD v [])) ∧
      (reindexEdges nodes.length (reindexNodes nodes ctr).1 ctr adj).2.get? j
        = some ((rebuildRow (reindexNodes nodes ctr).1 ctr
            (adj.getD v [])).foldl (fun m e => alSet m e.to e.weight) []) := by
  intro v j hv
  have h := reindexFold_sync nodes ctr (reindexNodes nodes ctr).1 adj
    (List.range nodes.length)
    (List.replicate nodes.length (-1), []) ([], []) rfl rfl
    (fun v j hv => absurd hv (fun hh => replicate_slot_absurd _ v j hh))
    (fun v j hv => absurd hv (fun hh => replicate_slot_absurd _ v j hh))
  exact h.2.2.2 v j hv

/-- `rebuildRow` as a `filterMap`: drop contracted or unmapped targets,
rewrite the rest through `oldToNew`. -/
theorem rebuildRow_eq_filterMap (f : List Int) (ctr : List Nat) :
    ∀ edges : List RGEdge,
      rebuildRow f ctr edges = edges.filterMap (fun e =>
        if e.to ∈ ctr then none
        else if f.getD e.to (-1) < 0 then none
        else some { «to» := (f.getD e.to (-1)).toNat, weight := e.weight, via := e.via }) := by
  have key : ∀ (edges : List RGEdge) (acc : List RGEdge),
      edges.foldl
        (fun acc e =>
          if e.to ∈ ctr then acc
          else
            let newTo := f.getD e.to (-1)
            if newTo < 0 then acc
            else acc ++ [{ «to» := newTo.toNat, weight := e.weight, via := e.via }]) acc =
      acc ++ edges.filterMap (fun e =>
        if e.to ∈ ctr then none
        else if f.getD e.to (-1) < 0 then none
        else some { «to» := (f.getD e.to (-1)).toNat, weight := e.weight, via := e.via }) := by
    intro edges
    induction edges with
    | nil => intro acc; simp
    | cons e rest ih =>
      intro acc
      rw [List.foldl_cons, List.filterMap_cons]
      dsimp only
      by_cases h1 : e.to ∈ ctr
      · rw [if_pos h1, if_pos h1]
        exact ih acc
      · rw [if_neg h1, if_neg h1]
        by_cases h2 : f.getD e.to (-1) < 0
        · rw [if_pos h2, if_pos h2]
          exact ih acc
        · rw [if_neg h2, if_neg h2]
          have hihe := ih (acc ++ [({ «to» := (f.getD e.to (-1)).toNat, weight := e.weight, via := e.via } : RGEdge)])
          rw [hihe, List.append_assoc]
          rfl
  intro edges
  unfold rebuildRow
  rw [key edges []]
  rfl

/-- A kept entry of the old row reappears (reindexed) in the rebuilt
row. -/
theorem rebuildRow_mem (f : List Int) (ctr : List Nat)
    (edges : List RGEdge) (e : RGEdge) (he : e ∈ edges)
    (h1 : e.to ∉ ctr) (h2 : ¬ f.getD e.to (-1) < 0) :
    ({ «to» := (f.getD e.to (-1)).toNat, weight := e.weight, via := e.via } : RGEdge) ∈ rebuildRow f ctr edges := by
  rw [rebuildRow_eq_filterMap]
  refine List.mem_filterMap.mpr ⟨e, he, ?_⟩
  rw [if_neg h1, if_neg h2]

/-- Re-indexing a duplicate-free row through the injective `oldToNew`
keeps the targets duplicate-free. -/
theorem rebuildRow_nodup (f : List Int) (ctr : List Nat)
    (hinj : ∀ v w j, f.getD v (-1) = Int.ofNat j →
      f.getD w (-1) = Int.ofNat j → v = w) :
    ∀ edges : List RGEdge, ((edges.map (fun e => e.to)).Nodup) →
      (((rebuildRow f ctr edges).map (fun e => e.to)).Nodup) := by
  intro edges hnd
  rw [rebuildRow_eq_filterMap]
  induction edges with
  | nil => simp
  | cons e rest ih =>
    have hnd2 : e.to ∉ rest.map (fun e => e.to) ∧
        (rest.map (fun e => e.to)).Nodup := by
      rw [List.map_cons, List.nodup_cons] at hnd
      exact hnd
    rw [List.filterMap_cons]
    by_cases h1 : e.to ∈ ctr
    · rw [if_pos h1]
      exact ih hnd2.2
    · rw [if_neg h1]
      by_cases h2 : f.getD e.to (-1) < 0
      · rw [if_pos h2]
        exact ih hnd2.2
      · rw [if_neg h2]
        rw [List.map_cons, List.nodup_cons]
        refine ⟨?_, ih hnd2.2⟩
        intro hmem
        obtain ⟨y, hy, hyto⟩ := List.mem_map.mp hmem
        obtain ⟨e', he', hfm⟩ := List.mem_filterMap.mp hy
        by_cases h1' : e'.to ∈ ctr
        · rw [if_pos h1'] at hfm
          cases hfm
        · rw [if_neg h1'] at hfm
          by_cases h2' : f.getD e'.to (-1) < 0
          · rw [if_pos h2'] at hfm
            cases hfm
          · rw [if_neg h2'] at hfm
            cases hfm
            have heq : e.to = e'.to := by
              refine hinj e.to e'.to (f.getD e.to (-1)).toNat ?_ ?_
              · simp only [Int.ofNat_eq_coe]
                omega
              · simp only [Int.ofNat_eq_coe]
                have : (f.getD e'.to (-1)).toNat = (f.getD e.to (-1)).toNat :=
                  hyto
                omega
            exact hnd2.1 (List.mem_map.mpr ⟨e', he', heq.symm⟩)

/-- A fold of `alSet` never touches keys outside the row's targets. -/
theorem alGet_foldl_alSet_not_mem (k : Nat) :
    ∀ (row : List RGEdge), (∀ e ∈ row, ¬ e.to = k) →
      ∀ m0 : List (Nat × Rat),
        alGet (row.foldl (fun m e => alSet m e.to e.weight) m0) k =
          alGet m0 k := by
  intro row
  induction row with
  | nil => intro _ m0; rfl
  | cons x rest ih =>
    intro hk m0
    rw [List.foldl_cons]
    rw [ih (fun e he => hk e (List.mem_cons_of_mem _ he))]
    exact alGet_alSet_ne m0 x.to k x.weight
      (fun h => hk x (List.mem_cons_self _ _) h.symm)

/-- On a duplicate-free row, the rebuilt cost map looks up each entry's
weight. -/
theorem alGet_costRow (e : RGEdge) :
    ∀ (row : List RGEdge), ((row.map (fun x => x.to)).Nodup) → e ∈ row →
      ∀ m0 : List (Nat × Rat),
        alGet (row.foldl (fun m x => alSet m x.to x.weight) m0) e.to =
          some e.weight := by
  intro row
  induction row with
  | nil => intro _ h; exact absurd h (List.not_mem_nil e)
  | cons x rest ih =>
    intro hnd he m0
    have hnd2 : x.to ∉ rest.map (fun x => x.to) ∧
        (rest.map (fun x => x.to)).Nodup := by
      rw [List.map_cons, List.nodup_cons] at hnd
      exact hnd
    rw [List.foldl_cons]
    rcases List.mem_cons.mp he with rfl | he'
    · rw [alGet_foldl_alSet_not_mem e.to rest
        (fun y hy hyx => hnd2.1 (List.mem_map.mpr ⟨y, hy, hyx⟩))]
      exact alGet_alSet_self m0 e.to e.weight
    · exact ih hnd2.2 he' (alSet m0 x.to x.weight)

/-- C1 (amended): for a collected chain `c` with distinct endpoints `A`
(head) and `B` (last), both directed paths unbroken on the input cost maps,
NO pre-existing direct edge in either direction, and no other collected
chain joining the same endpoint pair, the graph returned by `contractGraph`
carries a direct `A→B` edge of exactly the forward chain sum and a direct
`B→A` edge of exactly the reverse chain sum (read at the re-issued ids). -/
theorem contractGraph_chain_sum (nodes : List RGNode)
    (adjacency : List (List RGEdge)) (costMaps : List (List (Nat × Rat)))
    (c : List Nat) (pre post : List (List Nat))
    (hlen1 : adjacency.length = nodes.length)
    (hlen2 : costMaps.length = nodes.length)
    (hedges : ∀ i, i < adjacency.length →
      ∀ e ∈ adjacency.getD i [], e.to < nodes.length)
    (hkeys : ∀ i, i < costMaps.length →
      ∀ kv ∈ costMaps.getD i [], kv.1 < nodes.length)
    (hUT : ∀ i, i < adjacency.length →
      (((adjacency.getD i []).map (fun e => e.to)).Nodup))
    (hsplit : collectChains nodes.length
        (buildUndirected nodes.length adjacency) = pre ++ c :: post)
    (hAB : ¬ c.headD 0 = c.getLastD 0)
    (hfwd : (pathCheck costMaps c 0).1 = true)
    (hrev : (pathCheck costMaps c.reverse 0).1 = true)
    (hnoAB : alGet (costMaps.getD (c.headD 0) []) (c.getLastD 0) = none)
    (hnoBA : alGet (costMaps.getD (c.getLastD 0) []) (c.headD 0) = none)
    (hpre : ∀ c' ∈ pre,
      ¬ (c'.headD 0 = c.headD 0 ∧ c'.getLastD 0 = c.getLastD 0) ∧
      ¬ (c'.headD 0 = c.getLastD 0 ∧ c'.getLastD 0 = c.headD 0))
    (hpost : ∀ c' ∈ post,
      ¬ (c'.headD 0 = c.headD 0 ∧ c'.getLastD 0 = c.getLastD 0) ∧
      ¬ (c'.headD 0 = c.getLastD 0 ∧ c'.getLastD 0 = c.headD 0)) :
    alGet ((contractGraph nodes adjacency costMaps).costMaps.getD
        (((reindexNodes nodes
            (cgApply nodes adjacency costMaps).contracted).1.getD
          (c.headD 0) (-1)).toNat) [])
      (((reindexNodes nodes
          (cgApply nodes adjacency costMaps).contracted).1.getD
        (c.getLastD 0) (-1)).toNat) = some (pathCheck costMaps c 0).2 ∧
    alGet ((contractGraph nodes adjacency costMaps).costMaps.getD
        (((reindexNodes nodes
            (cgApply nodes adjacency costMaps).contracted).1.getD
          (c.getLastD 0) (-1)).toNat) [])
      (((reindexNodes nodes
          (cgApply nodes adjacency costMaps).contracted).1.getD
        (c.headD 0) (-1)).toNat) = some (pathCheck costMaps c.reverse 0).2 := by
  -- unbounded versions of the well-formedness hypotheses
  have hedges' : ∀ i, ∀ e ∈ adjacency.getD i [], e.to < nodes.length := by
    intro i e he
    by_cases hi : i < adjacency.length
    · exact hedges i hi e he
    · rw [List.getD_eq_default _ _ (by omega)] at he
      exact absurd he (List.not_mem_nil e)
  have hkeys' : ∀ i, ∀ kv ∈ costMaps.getD i [], kv.1 < nodes.length := by
    intro i kv hkv
    by_cases hi : i < costMaps.length
    · exact hkeys i hi kv hkv
    · rw [List.getD_eq_default _ _ (by omega)] at hkv
      exact absurd hkv (List.not_mem_nil kv)
  have hUT' : ∀ i, (((adjacency.getD i []).map (fun e => e.to)).Nodup) := by
    intro i
    by_cases hi : i < adjacency.length
    · exact hUT i hi
    · rw [List.getD_eq_default _ _ (by omega)]
      exact List.nodup_nil
  have hub := buildUndirected_bound nodes.length adjacency hedges'
  have hcc := collectChains_spec nodes.length
    (buildUndirected nodes.length adjacency) hub
  -- membership of the split pieces in the collected chain list
  have hcmem : c ∈ collectChains nodes.length
      (buildUndirected nodes.length adjacency) := by
    rw [hsplit]
    exact List.mem_append_right _ (List.mem_cons_self _ _)
  have hpremem : ∀ x ∈ pre, x ∈ collectChains nodes.length
      (buildUndirected nodes.length adjacency) := by
    intro x hx
    rw [hsplit]
    exact List.mem_append_left _ hx
  have hpostmem : ∀ x ∈ post, x ∈ collectChains nodes.length
      (buildUndirected nodes.length adjacency) := by
    intro x hx
    rw [hsplit]
    exact List.mem_append_right _ (List.mem_cons_of_mem _ hx)
  have hcspec := hcc c hcmem
  have h3 : 3 ≤ c.length := hcspec.1
  have hint : ∀ x ∈ interiorOf c, isDegree2
      (buildUndirected nodes.length adjacency) x = true := hcspec.2.1
  have hheadF : isDegree2 (buildUndirected nodes.length adjacency)
      (c.headD 0) = false := hcspec.2.2.1
  have hlastF : isDegree2 (buildUndirected nodes.length adjacency)
      (c.getLastD 0) = false := hcspec.2.2.2.1
  have hcne : c ≠ [] := by
    intro h
    rw [h] at h3
    simp at h3
  have hA_lt : c.headD 0 < nodes.length :=
    hcspec.2.2.2.2 _ (listHeadD_mem c 0 hcne)
  have hB_lt : c.getLastD 0 < nodes.length :=
    hcspec.2.2.2.2 _ (listGetLastD_mem c 0 hcne)
  -- expose the shape of contractGraph and name the intermediate states
  have hcg : cgApply nodes adjacency costMaps =
      (collectChains nodes.length (buildUndirected nodes.length
        adjacency)).foldl (processChain nodes)
        { adjacency := adjacency, costMaps := costMaps,
          contracted := [] } := rfl
  rw [hcg]
  unfold contractGraph
  dsimp only
  have hstF_eq : (collectChains nodes.length (buildUndirected nodes.length
      adjacency)).foldl (processChain nodes)
      { adjacency := adjacency, costMaps := costMaps, contracted := [] } =
      post.foldl (processChain nodes)
        (processChain nodes
          (pre.foldl (processChain nodes)
            { adjacency := adjacency, costMaps := costMaps,
              contracted := [] }) c) := by
    rw [hsplit, List.foldl_append, List.foldl_cons]
  rw [hstF_eq]
  -- the state after processing the earlier chains
  have hFpre := foldProcess_spec nodes nodes.length pre
    (fun c' hc' => (hcc c' (hpremem c' hc')).2.2.2.2)
    { adjacency := adjacency, costMaps := costMaps, contracted := [] }
    hlen1 hlen2 hedges' hkeys'
  -- reads with a degree-2 endpoint are untouched by the earlier chains
  have hstab : ∀ a b,
      isDegree2 (buildUndirected nodes.length adjacency) a = true ∨
      isDegree2 (buildUndirected nodes.length adjacency) b = true →
      alGet ((pre.foldl (processChain nodes)
          { adjacency := adjacency, costMaps := costMaps,
            contracted := [] }).costMaps.getD a []) b =
        alGet (costMaps.getD a []) b := by
    intro a b hd
    refine foldChains_read_stable nodes pre _ a b ?_
    intro c' hc'
    have hsp := hcc c' (hpremem c' hc')
    constructor
    · rintro ⟨ha, hb⟩
      rcases hd with h | h
      · rw [ha] at h
        rw [hsp.2.2.1] at h
        cases h
      · rw [hb] at h
        rw [hsp.2.2.2.1] at h
        cases h
    · rintro ⟨ha, hb⟩
      rcases hd with h | h
      · rw [ha] at h
        rw [hsp.2.2.2.1] at h
        cases h
      · rw [hb] at h
        rw [hsp.2.2.1] at h
        cases h
  -- the chain's forward and reverse scans are unchanged at that state
  have hpc_f : pathCheck (pre.foldl (processChain nodes)
      { adjacency := adjacency, costMaps := costMaps,
        contracted := [] }).costMaps c 0 = pathCheck costMaps c 0 := by
    refine pathCheck_congr _ _ c 0 ?_
    intro i hi
    exact hstab _ _ (chain_pair_deg2 _ c h3 hint i hi)
  have hpc_r : pathCheck (pre.foldl (processChain nodes)
      { adjacency := adjacency, costMaps := costMaps,
        contracted := [] }).costMaps c.reverse 0 =
      pathCheck costMaps c.reverse 0 := by
    refine pathCheck_congr _ _ c.reverse 0 ?_
    intro i hi
    refine hstab _ _ ?_
    refine chain_pair_deg2 _ c.reverse (by
      rw [List.length_reverse]; exact h3) ?_ i hi
    intro x hx
    exact hint x ((mem_interior_reverse c x).mp hx)
  -- the direct endpoint reads are also unchanged (no earlier chain joins
  -- the same endpoint pair)
  have hAB_read : alGet ((pre.foldl (processChain nodes)
      { adjacency := adjacency, costMaps := costMaps,
        contracted := [] }).costMaps.getD (c.headD 0) [])
      (c.getLastD 0) = none := by
    refine Eq.trans (foldChains_read_stable nodes pre _ _ _ ?_) hnoAB
    intro c' hc'
    constructor
    · rintro ⟨ha, hb⟩
      exact (hpre c' hc').1 ⟨ha.symm, hb.symm⟩
    · rintro ⟨ha, hb⟩
      exact (hpre c' hc').2 ⟨hb.symm, ha.symm⟩
  have hBA_read : alGet ((pre.foldl (processChain nodes)
      { adjacency := adjacency, costMaps := costMaps,
        contracted := [] }).costMaps.getD (c.getLastD 0) [])
      (c.headD 0) = none := by
    refine Eq.trans (foldChains_read_stable nodes pre _ _ _ ?_) hnoBA
    intro c' hc'
    constructor
    · rintro ⟨ha, hb⟩
      exact (hpre c' hc').2 ⟨ha.symm, hb.symm⟩
    · rintro ⟨ha, hb⟩
      exact (hpre c' hc').1 ⟨hb.symm, ha.symm⟩
  have hfwd' : (pathCheck (pre.foldl (processChain nodes)
      { adjacency := adjacency, costMaps := costMaps,
        contracted := [] }).costMaps c 0).1 = true := by
    rw [hpc_f]
    exact hfwd
  have hrev' : (pathCheck (pre.foldl (processChain nodes)
      { adjacency := adjacency, costMaps := costMaps,
        contracted := [] }).costMaps c.reverse 0).1 = true := by
    rw [hpc_r]
    exact hrev
  -- processing the chain itself installs both shortcut entries
  have hPS := processChain_install_strict nodes
    (pre.foldl (processChain nodes)
      { adjacency := adjacency, costMaps := costMaps, contracted := [] })
    c h3 hAB (by rw [hFpre.2.1]; exact hA_lt) (by rw [hFpre.1]; exact hA_lt)
    (by rw [hFpre.2.1]; exact hB_lt) (by rw [hFpre.1]; exact hB_lt)
  have hmem_f := ((hPS.1 hfwd').1 (Or.inl hAB_read)).2
  have hmem_r := ((hPS.2 hrev').1 (Or.inl hBA_read)).2
  rw [hpc_f] at hmem_f
  rw [hpc_r] at hmem_r
  -- the later chains keep both entries (they avoid this endpoint pair)
  have hmem_fF := foldChains_mem_stable nodes post
    (processChain nodes
      (pre.foldl (processChain nodes)
        { adjacency := adjacency, costMaps := costMaps, contracted := [] })
      c)
    (c.headD 0) (c.getLastD 0)
    (fun c' hc' =>
      ⟨fun hx => (hpost c' hc').1 ⟨hx.1.symm, hx.2.symm⟩,
       fun hx => (hpost c' hc').2 ⟨hx.2.symm, hx.1.symm⟩⟩)
    _ hmem_f rfl
  have hmem_rF := foldChains_mem_stable nodes post
    (processChain nodes
      (pre.foldl (processChain nodes)
        { adjacency := adjacency, costMaps := costMaps, contracted := [] })
      c)
    (c.getLastD 0) (c.headD 0)
    (fun c' hc' =>
      ⟨fun hx => (hpost c' hc').2 ⟨hx.1.symm, hx.2.symm⟩,
       fun hx => (hpost c' hc').1 ⟨hx.2.symm, hx.1.symm⟩⟩)
    _ hmem_r rfl
  -- duplicate-freedom of the final rows
  have hnd_F := foldChains_nodup nodes post
    (processChain nodes
      (pre.foldl (processChain nodes)
        { adjacency := adjacency, costMaps := costMaps, contracted := [] })
      c)
    (processChain_nodup nodes _ c
      (foldChains_nodup nodes pre
        { adjacency := adjacency, costMaps := costMaps, contracted := [] }
        hUT'))
  -- the endpoints survive; the interior is contracted, so the reindex
  -- branch runs
  have hFall := foldProcess_spec nodes nodes.length
    (collectChains nodes.length (buildUndirected nodes.length adjacency))
    (fun c' hc' => (hcc c' hc').2.2.2.2)
    { adjacency := adjacency, costMaps := costMaps, contracted := [] }
    hlen1 hlen2 hedges' hkeys'
  rw [hstF_eq] at hFall
  have hAnc : c.headD 0 ∉ (post.foldl (processChain nodes)
      (processChain nodes
        (pre.foldl (processChain nodes)
          { adjacency := adjacency, costMaps := costMaps, contracted := [] })
        c)).contracted := by
    intro h
    rcases hFall.2.2.2.2 _ h with h0 | ⟨c', hc', hint'⟩
    · exact absurd h0 (List.not_mem_nil _)
    · have := (hcc c' hc').2.1 _ hint'
      rw [hheadF] at this
      cases this
  have hBnc : c.getLastD 0 ∉ (post.foldl (processChain nodes)
      (processChain nodes
        (pre.foldl (processChain nodes)
          { adjacency := adjacency, costMaps := costMaps, contracted := [] })
        c)).contracted := by
    intro h
    rcases hFall.2.2.2.2 _ h with h0 | ⟨c', hc', hint'⟩
    · exact absurd h0 (List.not_mem_nil _)
    · have := (hcc c' hc').2.1 _ hint'
      rw [hlastF] at this
      cases this
  have hILpos : 0 < (interiorOf c).length := by
    unfold interiorOf
    rw [List.length_dropLast, List.length_drop]
    omega
  obtain ⟨m0, hm0⟩ := List.exists_mem_of_length_pos hILpos
  have hm0F : m0 ∈ (post.foldl (processChain nodes)
      (processChain nodes
        (pre.foldl (processChain nodes)
          { adjacency := adjacency, costMaps := costMaps, contracted := [] })
        c)).contracted :=
    foldChains_contracted_mono nodes post _ m0
      (processChain_contracts nodes _ c h3 hAB hfwd' m0 hm0)
  have hctrne : ¬ (post.foldl (processChain nodes)
      (processChain nodes
        (pre.foldl (processChain nodes)
          { adjacency := adjacency, costMaps := costMaps, contracted := [] })
        c)).contracted.length = 0 := by
    intro h
    rw [List.length_eq_zero] at h
    rw [h] at hm0F
    exact absurd hm0F (List.not_mem_nil m0)
  rw [if_neg hctrne]
  dsimp only
  -- the survivors' new ids and the rebuilt rows
  obtain ⟨jA, hjA⟩ := reindexNodes_surv nodes _ (c.headD 0) hA_lt hAnc
  obtain ⟨jB, hjB⟩ := reindexNodes_surv nodes _ (c.getLastD 0) hB_lt hBnc
  have hlookA := reindexEdges_lookup nodes
    (post.foldl (processChain nodes)
      (processChain nodes
        (pre.foldl (processChain nodes)
          { adjacency := adjacency, costMaps := costMaps, contracted := [] })
        c)).contracted
    (post.foldl (processChain nodes)
      (processChain nodes
        (pre.foldl (processChain nodes)
          { adjacency := adjacency, costMaps := costMaps, contracted := [] })
        c)).adjacency
    (c.headD 0) jA hjA
  have hlookB := reindexEdges_lookup nodes
    (post.foldl (processChain nodes)
      (processChain nodes
        (pre.foldl (processChain nodes)
          { adjacency := adjacency, costMaps := costMaps, contracted := [] })
        c)).contracted
    (post.foldl (processChain nodes)
      (processChain nodes
        (pre.foldl (processChain nodes)
          { adjacency := adjacency, costMaps := costMaps, contracted := [] })
        c)).adjacency
    (c.getLastD 0) jB hjB
  rw [hjA, hjB]
  simp only [Int.ofNat_eq_coe, Int.toNat_ofNat]
  constructor
  · rw [listGetD_of_getQ _ jA _ [] hlookA.2]
    have hmap := rebuildRow_mem
      (reindexNodes nodes (post.foldl (processChain nodes)
        (processChain nodes
          (pre.foldl (processChain nodes)
            { adjacency := adjacency, costMaps := costMaps,
              contracted := [] }) c)).contracted).1
      (post.foldl (processChain nodes)
        (processChain nodes
          (pre.foldl (processChain nodes)
            { adjacency := adjacency, costMaps := costMaps,
              contracted := [] }) c)).contracted
      ((post.foldl (processChain nodes)
        (processChain nodes
          (pre.foldl (processChain nodes)
            { adjacency := adjacency, costMaps := costMaps,
              contracted := [] }) c)).adjacency.getD (c.headD 0) [])
      _ hmem_fF hBnc
      (by
        show ¬ (reindexNodes nodes _).1.getD (c.getLastD 0) (-1) < 0
        rw [hjB]
        simp only [Int.ofNat_eq_coe]
        omega)
    have hval := alGet_costRow _ _
      (rebuildRow_nodup _ _ (reindexNodes_inj nodes _) _
        (hnd_F (c.headD 0)))
      hmap []
    show alGet ((rebuildRow _ _ _).foldl (fun m e => alSet m e.to e.weight)
      []) ((Int.ofNat jB).toNat) = _
    simp only [Int.ofNat_eq_coe, Int.toNat_ofNat]
    rw [show jB = ((reindexNodes nodes (post.foldl (processChain nodes)
        (processChain nodes
          (pre.foldl (processChain nodes)
            { adjacency := adjacency, costMaps := costMaps,
              contracted := [] }) c)).contracted).1.getD
        (c.getLastD 0) (-1)).toNat by rw [hjB]; simp]
    exact hval
  · rw [listGetD_of_getQ _ jB _ [] hlookB.2]
    have hmap := rebuildRow_mem
      (reindexNodes nodes (post.foldl (processChain nodes)
        (processChain nodes
          (pre.foldl (processChain nodes)
            { adjacency := adjacency, costMaps := costMaps,
              contracted := [] }) c)).contracted).1
      (post.foldl (processChain nodes)
        (processChain nodes
          (pre.foldl (processChain nodes)
            { adjacency := adjacency, costMaps := costMaps,
              contracted := [] }) c)).contracted
      ((post.foldl (processChain nodes)
        (processChain nodes
          (pre.foldl (processChain nodes)
            { adjacency := adjacency, costMaps := costMaps,
              contracted := [] }) c)).adjacency.getD (c.getLastD 0) [])
      _ hmem_rF hAnc
      (by
        show ¬ (reindexNodes nodes _).1.getD (c.headD 0) (-1) < 0
        rw [hjA]
        simp only [Int.ofNat_eq_coe]
        omega)
    have hval := alGet_costRow _ _
      (rebuildRow_nodup _ _ (reindexNodes_inj nodes _) _
        (hnd_F (c.getLastD 0)))
      hmap []
    show alGet ((rebuildRow _ _ _).foldl (fun m e => alSet m e.to e.weight)
      []) ((Int.ofNat jA).toNat) = _
    simp only [Int.ofNat_eq_coe, Int.toNat_ofNat]
    rw [show jA = ((reindexNodes nodes (post.foldl (processChain nodes)
        (processChain nodes
          (pre.foldl (processChain nodes)
            { adjacency := adjacency, costMaps := costMaps,
              contracted := [] }) c)).contracted).1.getD
        (c.headD 0) (-1)).toNat by rw [hjA]; simp]
    exact hval

/-- Witness for `contractGraph_chain_sum`: the 5-node path `0-1-2-3-4`
(unit weights, no direct `0↔4` edge) contracts to a single pair of
shortcut edges of weight `4` between the surviving endpoints (new ids `0`
and `1`). -/
theorem contractGraph_chain_sum_witness :
    alGet ((contractGraph
        [{ id := 0, lat := 0, lon := 0, count := 1 },
         { id := 1, lat := 0, lon := 1, count := 1 },
         { id := 2, lat := 0, lon := 2, count := 1 },
         { id := 3, lat := 0, lon := 3, count := 1 },
         { id := 4, lat := 0, lon := 4, count := 1 }]
        [[{ «to» := 1, weight := 1 }],
         [{ «to» := 0, weight := 1 }, { «to» := 2, weight := 1 }],
         [{ «to» := 1, weight := 1 }, { «to» := 3, weight := 1 }],
         [{ «to» := 2, weight := 1 }, { «to» := 4, weight := 1 }],
         [{ «to» := 3, weight := 1 }]]
        [[(1, 1)], [(0, 1), (2, 1)], [(1, 1), (3, 1)], [(2, 1), (4, 1)],
         [(3, 1)]]).costMaps.getD 0 []) 1 = some 4 ∧
    alGet ((contractGraph
        [{ id := 0, lat := 0, lon := 0, count := 1 },
         { id := 1, lat := 0, lon := 1, count := 1 },
         { id := 2, lat := 0, lon := 2, count := 1 },
         { id := 3, lat := 0, lon := 3, count := 1 },
         { id := 4, lat := 0, lon := 4, count := 1 }]
        [[{ «to» := 1, weight := 1 }],
         [{ «to» := 0, weight := 1 }, { «to» := 2, weight := 1 }],
         [{ «to» := 1, weight := 1 }, { «to» := 3, weight := 1 }],
         [{ «to» := 2, weight := 1 }, { «to» := 4, weight := 1 }],
         [{ «to» := 3, weight := 1 }]]
        [[(1, 1)], [(0, 1), (2, 1)], [(1, 1), (3, 1)], [(2, 1), (4, 1)],
         [(3, 1)]]).costMaps.getD 1 []) 0 = some 4 := by
  have h := contractGraph_chain_sum
    [{ id := 0, lat := 0, lon := 0, count := 1 },
     { id := 1, lat := 0, lon := 1, count := 1 },
     { id := 2, lat := 0, lon := 2, count := 1 },
     { id := 3, lat := 0, lon := 3, count := 1 },
     { id := 4, lat := 0, lon := 4, count := 1 }]
    [[{ «to» := 1, weight := 1 }],
     [{ «to» := 0, weight := 1 }, { «to» := 2, weight := 1 }],
     [{ «to» := 1, weight := 1 }, { «to» := 3, weight := 1 }],
     [{ «to» := 2, weight := 1 }, { «to» := 4, weight := 1 }],
     [{ «to» := 3, weight := 1 }]]
    [[(1, 1)], [(0, 1), (2, 1)], [(1, 1), (3, 1)], [(2, 1), (4, 1)],
     [(3, 1)]]
    [0, 1, 2, 3, 4] [] []
    (by decide) (by decide) (by decide) (by decide) (by decide) (by decide)
    (by decide) (by decide) (by decide) (by decide) (by decide) (by decide)
    (by decide)
  exact ⟨h.1, h.2⟩
